import Mathlib

/-!
# VRF listener (core/services/vrf/listener_v3.go) and mailbox (core/utils/mailbox.go)

A shallow embedding of the VRF v2 request listener: the log router (`handleLog`),
the confirmation-depth computation (`getConfirmedAt`), the reserved-budget query
(`MaybeSubtractReservedLink`), the per-subscription fulfillment pass
(`processRequestsPerSub`), the reorg-depth tracker (`pruneConfirmedRequestCounts`),
the stop path of `Start` and `Close`, and the mailbox that carries the log broadcasts.

Conventions.
* Go's `uint64` values are natural numbers; every arithmetic operation that can
  overflow is reduced modulo `2 ^ 64`.  `*big.Int` values are integers.
* A `map[string]uint64` keyed by `RequestId.String()` is an association list keyed by
  the request id itself (the decimal rendering of a big integer is injective).
* The results of the calls that leave the process (database, coordinator contract,
  pipeline runner) are inputs of the model: each loop iteration reads them from an
  `IterEnv`.
-/

namespace VRF

/-! ## Machine arithmetic -/

/-- Number of values of a Go `uint64`. -/
def u64 : Nat := 2 ^ 64

/-- Go `a + b` on `uint64`. -/
def add64 (a b : Nat) : Nat := (a + b) % u64

/-- Go `a * b` on `uint64`. -/
def mul64 (a b : Nat) : Nat := (a * b) % u64

/-- Go `1 << k` on `uint64` with an unsigned shift count: the bits shifted past
position 63 are lost, so the value is `0` from `k = 64` on. -/
def shl1 (k : Nat) : Nat := (2 ^ k) % u64

/-! ## Data model -/

/-- The fields of `VRFCoordinatorV2RandomWordsRequested` the listener reads. -/
structure RandomWordsRequested where
  RequestId : Nat
  SubId : Nat
  /-- The field `Raw.BlockNumber`. -/
  BlockNumber : Nat
  deriving DecidableEq, Repr

/-- The fields of `VRFCoordinatorV2RandomWordsFulfilled` the listener reads. -/
structure RandomWordsFulfilled where
  RequestId : Nat
  /-- The field `Raw.BlockNumber`. -/
  BlockNumber : Nat
  deriving DecidableEq, Repr

/-- The dynamic type of `lb.DecodedLog()`, as far as `handleLog` tells types apart. -/
inductive DecodedLog where
  | fulfilled (v : RandomWordsFulfilled)
  | other
  deriving DecidableEq, Repr

/-- A `log.Broadcast`.  `id` is the identity of the log (block hash, log index, job)
under which the broadcaster stores the consumed marker; `parsed` is the result of
`coordinator.ParseRandomWordsRequested(lb.RawLog())`, `none` when it returns an error. -/
structure Broadcast where
  id : Nat
  decodedLog : DecodedLog
  parsed : Option RandomWordsRequested
  deriving DecidableEq, Repr

/-- The Go struct `pendingRequest`. -/
structure pendingRequest where
  confirmedAtBlock : Nat
  req : RandomWordsRequested
  lb : Broadcast
  deriving DecidableEq, Repr

/-- The Go struct `fulfilledReqV2`. -/
structure fulfilledReqV2 where
  blockNumber : Nat
  reqID : Nat
  deriving DecidableEq, Repr

/-- The column `eth_txes.state`. -/
inductive TxState where
  | unstarted
  | in_progress
  | fatal_error
  | unconfirmed
  | confirmed_missing_receipt
  | confirmed
  deriving DecidableEq, Repr

/-- A row of the table `eth_txes`: what `CreateEthTransaction` writes and what the
reserved-budget query reads.  `MaxLink` is `meta->>'MaxLink'`, `none` when it is NULL. -/
structure EthTx where
  fromAddress : Nat
  toAddress : Nat
  payload : String
  gasLimit : Nat
  RequestID : Nat
  MaxLink : Option Nat
  minConfirmations : Nat
  state : TxState
  deriving DecidableEq, Repr

/-- The persistent store: the consumed-log markers, the transaction table and the
finished pipeline runs. -/
structure DB where
  consumed : List Nat
  eth_txes : List EthTx
  pipeline_runs : List Nat
  deriving DecidableEq, Repr

/-- The mutable fields of the Go struct `listenerV3`, with the store behind `db`. -/
structure listenerV3 where
  reqs : List pendingRequest
  respCount : List (Nat × Nat)
  blockNumberToReqID : List fulfilledReqV2
  db : DB
  deriving DecidableEq, Repr

/-- The configuration values the pass reads. -/
structure Config where
  coordinatorAddress : Nat
  minRequiredOutgoingConfirmations : Nat
  deriving DecidableEq, Repr

/-! ## The counter map -/

/-- Go `m[k]` on a `map[string]uint64`: the zero value for a missing key. -/
def mapGet (m : List (Nat × Nat)) (k : Nat) : Nat :=
  match m.lookup k with
  | some v => v
  | none => 0

/-- Go `delete(m, k)`. -/
def mapDelete (m : List (Nat × Nat)) (k : Nat) : List (Nat × Nat) :=
  m.filter (fun p => p.1 != k)

/-- Go `m[k] = v`. -/
def mapSet (m : List (Nat × Nat)) (k v : Nat) : List (Nat × Nat) :=
  (k, v) :: mapDelete m k

/-! ## Consumed markers -/

/-- Modelled from the spec: the broadcaster's `WasAlreadyConsumed(tx, lb)`, which is not
part of the sources; it reads the consumed marker of the log, and `none` is a failed
read. -/
def WasAlreadyConsumed (db : DB) (readErr : Bool) (lb : Broadcast) : Option Bool :=
  if readErr then none
  else some (db.consumed.contains lb.id)

/-- The method `shouldProcessLog`: when the read of the marker fails the log is not
processed. -/
def shouldProcessLog (db : DB) (wasAlreadyConsumedErr : Bool) (lb : Broadcast) : Bool :=
  match WasAlreadyConsumed db wasAlreadyConsumedErr lb with
  | none => false
  | some consumed => !consumed

/-- Modelled from the spec: the broadcaster's `MarkConsumed(tx, lb)`, which is not part
of the sources; it adds the consumed marker of the log, and `none` is a failed write. -/
def MarkConsumed (db : DB) (writeErr : Bool) (lb : Broadcast) : Option DB :=
  if writeErr then none
  else some { db with consumed := lb.id :: db.consumed }

/-- The method `markLogAsConsumed`: a failed write is logged and otherwise ignored. -/
def markLogAsConsumed (db : DB) (writeErr : Bool) (lb : Broadcast) : DB :=
  match MarkConsumed db writeErr lb with
  | some db' => db'
  | none => db

/-! ## Confirmation depth -/

/-- The method `getConfirmedAt`, on the counter map it reads. -/
def getConfirmedAt (respCount : List (Nat × Nat)) (req : RandomWordsRequested)
    (minConfs : Nat) : Nat :=
  let newConfs := mul64 minConfs (shl1 (mapGet respCount req.RequestId))
  let newConfs := if newConfs > 200 then 200 else newConfs
  add64 req.BlockNumber newConfs

/-! ## The log router -/

/-- Results of the store calls made by one `handleLog`. -/
structure HandleEnv where
  wasAlreadyConsumedErr : Bool
  markConsumedErr : Bool
  deriving DecidableEq, Repr

/-- The method `handleLog`. -/
def handleLog (lsn : listenerV3) (env : HandleEnv) (lb : Broadcast) (minConfs : Nat) :
    listenerV3 :=
  match lb.decodedLog with
  | .fulfilled v =>
    if !shouldProcessLog lsn.db env.wasAlreadyConsumedErr lb then lsn
    else
      { lsn with
        respCount := mapSet lsn.respCount v.RequestId (add64 (mapGet lsn.respCount v.RequestId) 1)
        blockNumberToReqID :=
          { blockNumber := v.BlockNumber, reqID := v.RequestId } :: lsn.blockNumberToReqID
        db := markLogAsConsumed lsn.db env.markConsumedErr lb }
  | .other =>
    match lb.parsed with
    | none =>
      if !shouldProcessLog lsn.db env.wasAlreadyConsumedErr lb then lsn
      else { lsn with db := markLogAsConsumed lsn.db env.markConsumedErr lb }
    | some req =>
      let confirmedAt := getConfirmedAt lsn.respCount req minConfs
      { lsn with
        reqs := lsn.reqs ++ [{ confirmedAtBlock := confirmedAt, req := req, lb := lb }] }

/-! ## The reserved-budget query -/

/-- The `WHERE` clause of the query in `MaybeSubtractReservedLink`:
`meta->>'MaxLink' IS NOT NULL` and the state is none of `fatal_error`, `confirmed`,
`confirmed_missing_receipt`. -/
def inFlight (t : EthTx) : Bool :=
  t.MaxLink.isSome && t.state != TxState.fatal_error && t.state != TxState.confirmed
    && t.state != TxState.confirmed_missing_receipt

/-- The aggregate `SUM(CAST(meta->>'MaxLink' AS NUMERIC(78, 0)))` over one group. -/
def sumMaxLink (g : List EthTx) : Nat :=
  (g.map (fun t => t.MaxLink.getD 0)).sum

/-- The rows the query returns.  `GROUP BY from_address = ?` forms one group per value of
the comparison among the selected rows, so there is a row for the rows of `fromAddress`
(when there is one) and a row for the rows of all other addresses (when there is one).
SQL leaves the order of the two rows open: `ownFirst` fixes it. -/
def reservedLinkRows (eth_txes : List EthTx) (fromAddress : Nat) (ownFirst : Bool) :
    List Nat :=
  let selected := eth_txes.filter inFlight
  let own := selected.filter (fun t => t.fromAddress == fromAddress)
  let others := selected.filter (fun t => t.fromAddress != fromAddress)
  let row := fun (g : List EthTx) => if g.isEmpty then [] else [sumMaxLink g]
  if ownFirst then row own ++ row others else row others ++ row own

/-- The statement `db.Raw(...).Scan(&reservedLink)` with a string destination: every
row is scanned into the same variable, so the last row stays, and with no row the
variable keeps its zero value `""`.  `none` is a failed query. -/
def reservedLinkQuery (db : DB) (queryErr ownFirst : Bool) (fromAddress : Nat) :
    Option String :=
  if queryErr then none
  else
    match (reservedLinkRows db.eth_txes fromAddress ownFirst).getLast? with
    | none => some ""
    | some v => some (toString v)

/-- Value of a non-empty list of decimal digits, `none` for anything else. -/
def parseDigits (cs : List Char) : Option Nat :=
  if cs.isEmpty then none
  else if cs.all Char.isDigit then
    some (cs.foldl (fun n c => 10 * n + (c.toNat - 48)) 0)
  else none

/-- Go `big.NewInt(0).SetString(s, 10)`: an optional sign followed by at least one
decimal digit and nothing else; `none` is `success = false`. -/
def SetString10 (s : String) : Option Int :=
  match s.toList with
  | '-' :: cs => (parseDigits cs).map (fun n => -(n : Int))
  | '+' :: cs => (parseDigits cs).map (fun n => (n : Int))
  | cs => (parseDigits cs).map (fun n => (n : Int))

/-- The body of `MaybeSubtractReservedLink` after the query: the returned balance and
the returned error (`none` is a nil error). -/
def subtractReservedLink (reservedLink : Option String) (startBalance : Int) :
    Int × Option String :=
  match reservedLink with
  | none => (startBalance, some "query failed")
  | some reservedLink =>
    if reservedLink != "" then
      match SetString10 reservedLink with
      | none => (startBalance, some "unable to convert returned link")
      | some reservedLinkInt => (startBalance - reservedLinkInt, none)
    else (startBalance, none)

/-- The function `MaybeSubtractReservedLink`. -/
def MaybeSubtractReservedLink (db : DB) (queryErr ownFirst : Bool) (fromAddress : Nat)
    (startBalance : Int) : Int × Option String :=
  subtractReservedLink (reservedLinkQuery db queryErr ownFirst fromAddress) startBalance

/-! ## The simulation pipeline -/

/-- A value of `FinalResult().Values`: a non-empty `[]uint8`, or a value of any other
dynamic type. -/
inductive Value where
  | bytes (first : Nat) (rest : List Nat)
  | other
  deriving DecidableEq, Repr

/-- A task run result, by task type, with the value the listener reads from it. -/
inductive TaskRunResult where
  | vrfv2 (output : String)
  | estimateGasLimit (gaslimit : Nat)
  | other
  deriving DecidableEq, Repr

/-- What `pipelineRunner.ExecuteRun` returns without error: the run (`run` is its
identity, `hasError` is `run.Errors.HasError()`), the values of the final result and
the task run results. -/
structure RunOutput where
  run : Nat
  hasError : Bool
  finalValues : List Value
  trrs : List TaskRunResult
  deriving DecidableEq, Repr

/-- Modelled from the spec: `utils.HexToBig(hexutil.Encode(b)[2:])`, whose helpers are
not part of the sources; the final byte array encodes a non-negative big integer, read
here big-endian. -/
def HexToBig (b : List Nat) : Nat :=
  b.foldl (fun n x => 256 * n + x % 256) 0

/-- The successful result of `getMaxLinkForFulfillment`. -/
structure Simulation where
  maxLink : Nat
  run : Nat
  payload : String
  gaslimit : Nat
  deriving DecidableEq, Repr

/-- The method `getMaxLinkForFulfillment`, on the result of `ExecuteRun` (`none` when
`ExecuteRun` fails); `none` is a non-nil error. -/
def getMaxLinkForFulfillment (executeRun : Option RunOutput) : Option Simulation :=
  match executeRun with
  | none => none
  | some out =>
    if out.hasError then none
    else
      match out.finalValues with
      | [Value.bytes b bs] =>
        some
          { maxLink := HexToBig (b :: bs)
            run := out.run
            payload := out.trrs.foldl
              (fun p t => match t with
                | TaskRunResult.vrfv2 o => o
                | _ => p) ""
            gaslimit := out.trrs.foldl
              (fun g t => match t with
                | TaskRunResult.estimateGasLimit l => l
                | _ => g) 0 }
      | _ => none

/-! ## The fulfillment pass -/

/-- Results of the external calls made by one iteration of the request loop. -/
structure IterEnv where
  wasAlreadyConsumedErr : Bool
  /-- The value of `GetCommitment`, `none` when it fails. -/
  getCommitment : Option (List Nat)
  /-- The write of `markLogAsConsumed` fails. -/
  markConsumedErr : Bool
  executeRun : Option RunOutput
  insertFinishedRunErr : Bool
  /-- The write of `MarkConsumed` inside the transaction fails. -/
  txMarkConsumedErr : Bool
  createEthTransactionErr : Bool
  commitErr : Bool
  deriving DecidableEq, Repr

/-- What one pass does, in order.  `i` is the position of the request in the list given
to the pass. -/
inductive Event where
  /-- The method `markLogAsConsumed` is called for an already fulfilled request. -/
  | markConsumed (i : Nat) (logID : Nat)
  /-- The method `getMaxLinkForFulfillment` is called. -/
  | simulate (i : Nat)
  /-- The balance is below the simulated cost: the loop breaks. -/
  | insufficient (i : Nat)
  /-- The transaction holding `CreateEthTransaction` is committed. -/
  | enqueue (i : Nat) (logID : Nat) (maxLink : Nat)
  deriving DecidableEq, Repr

/-- The variables of the request loop: the store, the running `startBalance`, the keys
of the map `processed`, and the events so far. -/
structure LoopState where
  db : DB
  startBalance : Int
  processed : List Nat
  events : List Event
  deriving DecidableEq, Repr

/-- How an iteration hands over: `continue` or falling through, `break`, `return`. -/
inductive Control where
  | next
  | brk
  | ret
  deriving DecidableEq, Repr

/-- Modelled from the spec: the helper `utils.IsEmpty`, which is not part of the sources;
a commitment of zero means fulfilled, so the test is that every byte is zero. -/
def IsEmpty (bytes : List Nat) : Bool :=
  bytes.all (fun b => b == 0)

/-- Modelled from the spec: `pipelineRunner.InsertFinishedRun`, which is not part of the
sources; it persists the run as finished, and `none` is a failed write. -/
def InsertFinishedRun (tx : DB) (err : Bool) (run : Nat) : Option DB :=
  if err then none
  else some { tx with pipeline_runs := run :: tx.pipeline_runs }

/-- Modelled from the spec: `txm.CreateEthTransaction`, which is not part of the sources;
it adds a row to `eth_txes`, and `none` is a failed write. -/
def CreateEthTransaction (tx : DB) (err : Bool) (newTx : EthTx) : Option DB :=
  if err then none
  else some { tx with eth_txes := tx.eth_txes ++ [newTx] }

/-- Modelled from the spec: `Transact` of the transaction manager, which is not part of
the sources; the writes of `body` take effect together, when `body` returns no error and
the commit succeeds; `none` is a non-nil error, and leaves the store as it was. -/
def Transact (db : DB) (commitErr : Bool) (body : DB → Option DB) : Option DB :=
  match body db with
  | none => none
  | some tx => if commitErr then none else some tx

/-- The test on the result of `GetCommitment`: the read succeeded and `utils.IsEmpty`
holds of the value.  A failed read is logged and the request is processed anyway. -/
def alreadyFulfilled (getCommitment : Option (List Nat)) : Bool :=
  match getCommitment with
  | none => false
  | some callback => IsEmpty callback

/-- The `bulletprooftxmanager.NewTx` given to `CreateEthTransaction`, as the row it
becomes. -/
def newTx (cfg : Config) (fromAddress : Nat) (req : pendingRequest) (sim : Simulation) :
    EthTx :=
  { fromAddress := fromAddress
    toAddress := cfg.coordinatorAddress
    payload := sim.payload
    gasLimit := sim.gaslimit
    RequestID := req.req.RequestId
    MaxLink := some sim.maxLink
    minConfirmations := cfg.minRequiredOutgoingConfirmations
    state := TxState.unstarted }

/-- The function given to `Transact`: the first error ends it. -/
def fulfillmentTx (cfg : Config) (e : IterEnv) (fromAddress : Nat) (req : pendingRequest)
    (sim : Simulation) (tx : DB) : Option DB :=
  match InsertFinishedRun tx e.insertFinishedRunErr sim.run with
  | none => none
  | some tx =>
    match MarkConsumed tx e.txMarkConsumedErr req.lb with
    | none => none
    | some tx => CreateEthTransaction tx e.createEthTransactionErr (newTx cfg fromAddress req sim)

/-- The body of the `for` loop of `processRequestsPerSub` for the request at position
`i`. -/
def iteration (cfg : Config) (e : IterEnv) (fromAddress : Nat) (i : Nat)
    (req : pendingRequest) (st : LoopState) : LoopState × Control :=
  if !shouldProcessLog st.db e.wasAlreadyConsumedErr req.lb then (st, Control.ret)
  else if alreadyFulfilled e.getCommitment then
    ({ st with
        db := markLogAsConsumed st.db e.markConsumedErr req.lb
        processed := req.req.RequestId :: st.processed
        events := st.events ++ [Event.markConsumed i req.lb.id] }, Control.next)
  else
    match getMaxLinkForFulfillment e.executeRun with
    | none => ({ st with events := st.events ++ [Event.simulate i] }, Control.next)
    | some sim =>
      if st.startBalance < (sim.maxLink : Int) then
        ({ st with events := st.events ++ [Event.simulate i, Event.insufficient i] },
          Control.brk)
      else
        match Transact st.db e.commitErr (fulfillmentTx cfg e fromAddress req sim) with
        | none => ({ st with events := st.events ++ [Event.simulate i] }, Control.next)
        | some db' =>
          ({ db := db'
             startBalance := st.startBalance - (sim.maxLink : Int)
             processed := req.req.RequestId :: st.processed
             events := st.events ++
               [Event.simulate i, Event.enqueue i req.lb.id sim.maxLink] }, Control.next)

/-- How the request loop ends: it ran over the whole list, it broke for lack of funds,
or the method returned from inside the loop. -/
inductive Exit where
  | completed
  | broke
  | returned
  deriving DecidableEq, Repr

/-- The `for _, req := range reqs` loop of `processRequestsPerSub`, from position `i`. -/
def requestLoop (cfg : Config) (env : Nat → IterEnv) (fromAddress : Nat) :
    Nat → List pendingRequest → LoopState → LoopState × Exit
  | _, [], st => (st, Exit.completed)
  | i, req :: rest, st =>
    match iteration cfg (env i) fromAddress i req st with
    | (st', Control.next) => requestLoop cfg env fromAddress (i + 1) rest st'
    | (st', Control.brk) => (st', Exit.broke)
    | (st', Control.ret) => (st', Exit.returned)

/-- Results of the external calls made by one pass. -/
structure PassEnv where
  /-- The reserved-budget query fails. -/
  reservedQueryErr : Bool
  /-- The order of the rows of the reserved-budget query. -/
  ownFirst : Bool
  /-- The calls of the iteration at each position. -/
  iter : Nat → IterEnv

/-- What a pass leaves behind besides the listener: `exit` is `none` when the pass
returned on the reserved-budget error, before the loop. -/
structure PassOutcome where
  exit : Option Exit
  balance : Int
  processed : List Nat
  events : List Event
  deriving DecidableEq, Repr

/-- The method `processRequestsPerSub`.  `maxGasPrice` only feeds the pipeline, whose
result comes from `env`.  The closing log line, which reads `reqs[0]`, is not represented:
the scheduler calls the method with non-empty lists only. -/
def processRequestsPerSub (cfg : Config) (lsn : listenerV3) (env : PassEnv)
    (fromAddress : Nat) (startBalance : Int) (reqs : List pendingRequest) :
    listenerV3 × PassOutcome :=
  match MaybeSubtractReservedLink lsn.db env.reservedQueryErr env.ownFirst fromAddress
      startBalance with
  | (startBalance, some _) =>
    (lsn, { exit := none, balance := startBalance, processed := [], events := [] })
  | (startBalance, none) =>
    match requestLoop cfg env.iter fromAddress 0 reqs
        { db := lsn.db, startBalance := startBalance, processed := [], events := [] } with
    | (st, Exit.returned) =>
      ({ lsn with db := st.db },
        { exit := some Exit.returned, balance := st.startBalance,
          processed := st.processed, events := st.events })
    | (st, exit) =>
      ({ lsn with
          db := st.db
          reqs := reqs.filter (fun req => !(st.processed.contains req.req.RequestId)) },
        { exit := some exit, balance := st.startBalance,
          processed := st.processed, events := st.events })

/-- Go `toProcess[k] = append(toProcess[k], r)` on a `map[uint64][]pendingRequest`, kept
as the list of its keys in order of first insertion, each with its slice. -/
def appendAt (toProcess : List (Nat × List pendingRequest)) (k : Nat) (r : pendingRequest) :
    List (Nat × List pendingRequest) :=
  match toProcess with
  | [] => [(k, [r])]
  | (k', l) :: rest =>
    if k' = k then (k', l ++ [r]) :: rest
    else (k', l) :: appendAt rest k r

/-- The method `getConfirmedLogsBySub`, on the pending set it reads. -/
def getConfirmedLogsBySub (reqs : List pendingRequest) (latestHead : Nat) :
    List (Nat × List pendingRequest) :=
  reqs.foldl
    (fun toProcess r =>
      if r.confirmedAtBlock ≤ latestHead then appendAt toProcess r.req.SubId r
      else toProcess)
    []

/-! ## Reading the events -/

/-- The position of the request an event is about. -/
def Event.index : Event → Nat
  | Event.markConsumed i _ => i
  | Event.simulate i => i
  | Event.insufficient i => i
  | Event.enqueue i _ _ => i

/-- The logs for which a fulfillment transaction was committed, in order. -/
def enqueuedLogs (events : List Event) : List Nat :=
  events.filterMap (fun ev =>
    match ev with
    | Event.enqueue _ logID _ => some logID
    | _ => none)

/-- The sum of `maxLink` over the committed fulfillment transactions. -/
def enqueuedCost (events : List Event) : Nat :=
  (events.map (fun ev =>
    match ev with
    | Event.enqueue _ _ maxLink => maxLink
    | _ => 0)).sum

/-! ## Sequences of router and pass calls -/

/-- A call on the listener, with the results of its external calls. -/
inductive Op where
  | handleLog (env : HandleEnv) (lb : Broadcast) (minConfs : Nat)
  | processRequestsPerSub (env : PassEnv) (fromAddress : Nat) (startBalance : Int)
      (reqs : List pendingRequest)

/-- One call, on the listener and the events of all passes so far. -/
def step (cfg : Config) (s : listenerV3 × List Event) (op : Op) : listenerV3 × List Event :=
  match op with
  | Op.handleLog env lb minConfs => (handleLog s.1 env lb minConfs, s.2)
  | Op.processRequestsPerSub env fromAddress startBalance reqs =>
    let r := processRequestsPerSub cfg s.1 env fromAddress startBalance reqs
    (r.1, s.2 ++ r.2.events)

/-- A sequence of calls, from the left. -/
def run (cfg : Config) (s : listenerV3 × List Event) (ops : List Op) :
    listenerV3 × List Event :=
  ops.foldl (step cfg) s

/-! ## The reorg-depth tracker -/

/-- Go `a - b` on `uint64`: below zero the value wraps around. -/
def sub64 (a b : Nat) : Nat := (a % u64 + (u64 - b % u64)) % u64

/-- Modelled from the spec: `FindMin` of the pairing heap, which with the ordering of
`fulfilledReqV2` is not part of the sources; the heap is a min-heap by `blockNumber`, kept
here as the list of its items, and `none` is the nil of the empty heap. -/
def FindMin : List fulfilledReqV2 → Option fulfilledReqV2
  | [] => none
  | x :: xs =>
    match FindMin xs with
    | none => some x
    | some m => if x.blockNumber ≤ m.blockNumber then some x else some m

/-- Modelled from the spec: `DeleteMin` of the pairing heap, which is not part of the
sources; it removes the item `FindMin` returns. -/
def DeleteMin (heap : List fulfilledReqV2) : List fulfilledReqV2 :=
  match FindMin heap with
  | none => heap
  | some m => heap.erase m

/-- The method `getLatestHead`, on the result of `HeaderByNumber` (`none` when it
fails): the number of the head, and `0` when the head cannot be read. -/
def getLatestHead (header : Option Nat) : Nat :=
  match header with
  | none => 0
  | some number => number

/-- The `for min != nil` loop of `pruneConfirmedRequestCounts`.  `heads i` is the result
of the `HeaderByNumber` call of the iteration at position `i`; every iteration that goes
on removes one item, so `fuel` bounds the number of iterations. -/
def pruneLoop (heads : Nat → Option Nat) : Nat → Nat → listenerV3 → listenerV3
  | 0, _, lsn => lsn
  | fuel + 1, i, lsn =>
    match FindMin lsn.blockNumberToReqID with
    | none => lsn
    | some m =>
      if m.blockNumber > sub64 (getLatestHead (heads i)) 10000 then lsn
      else
        pruneLoop heads fuel (i + 1)
          { lsn with
            respCount := mapDelete lsn.respCount m.reqID
            blockNumberToReqID := DeleteMin lsn.blockNumberToReqID }

/-- The method `pruneConfirmedRequestCounts`: the loop ends at the latest when the heap
is empty, after as many iterations as the heap has items. -/
def pruneConfirmedRequestCounts (heads : Nat → Option Nat) (lsn : listenerV3) :
    listenerV3 :=
  pruneLoop heads lsn.blockNumberToReqID.length 0 lsn

/-- The keys of the map `respCount`. -/
def mapKeys (m : List (Nat × Nat)) : List Nat :=
  m.map (fun p => p.1)

/-! ## The mailbox (core/utils/mailbox.go) -/

/-- The Go struct `Mailbox`: the queue, newest item first, and the capacity.  The notify
channel only wakes the consumer and is not represented. -/
structure Mailbox (α : Type) where
  queue : List α
  capacity : Nat
  deriving DecidableEq, Repr

/-- The function `NewMailbox`. -/
def NewMailbox {α : Type} (capacity : Nat) : Mailbox α :=
  { queue := [], capacity := capacity }

/-- The function `NewHighCapacityMailbox`. -/
def NewHighCapacityMailbox {α : Type} : Mailbox α :=
  NewMailbox 100000

/-- The method `Deliver`: the mailbox afterwards and `wasOverCapacity`. -/
def Mailbox.Deliver {α : Type} (m : Mailbox α) (x : α) : Mailbox α × Bool :=
  let queue := x :: m.queue
  if queue.length > m.capacity ∧ m.capacity > 0 then
    ({ m with queue := queue.dropLast }, true)
  else ({ m with queue := queue }, false)

/-- The method `Retrieve`: `none` is the result `(nil, false)`, `some x` is `(x, true)`. -/
def Mailbox.Retrieve {α : Type} (m : Mailbox α) : Option α × Mailbox α :=
  match m.queue.getLast? with
  | none => (none, m)
  | some x => (some x, { m with queue := m.queue.dropLast })

/-- The method `RetrieveLatestAndClear`: `none` is the result `nil`. -/
def Mailbox.RetrieveLatestAndClear {α : Type} (m : Mailbox α) : Option α × Mailbox α :=
  match m.queue with
  | [] => (none, m)
  | x :: _ => (some x, { m with queue := [] })

/-- The deliveries of the items of `xs`, in order. -/
def Mailbox.deliverAll {α : Type} (m : Mailbox α) (xs : List α) : Mailbox α :=
  xs.foldl (fun m x => (m.Deliver x).1) m

/-- The consumer loop of `runLogListener`: `Retrieve` is called until it reports absence;
the items it returned, in order, and the mailbox afterwards.  Every call that returns an
item removes it, so `fuel` bounds the number of calls. -/
def Mailbox.drain {α : Type} : Nat → Mailbox α → List α × Mailbox α
  | 0, m => ([], m)
  | fuel + 1, m =>
    match m.Retrieve with
    | (none, m') => ([], m')
    | (some x, m') => (x :: (Mailbox.drain fuel m').1, (Mailbox.drain fuel m').2)

/-- A call on a mailbox. -/
inductive MailboxOp (α : Type) where
  | deliver (x : α)
  | retrieve
  | retrieveLatestAndClear
  deriving DecidableEq, Repr

/-- One call, on the mailbox and the items delivered so far. -/
def Mailbox.apply {α : Type} (s : Mailbox α × List α) (op : MailboxOp α) :
    Mailbox α × List α :=
  match op with
  | MailboxOp.deliver x => ((s.1.Deliver x).1, s.2 ++ [x])
  | MailboxOp.retrieve => (s.1.Retrieve.2, s.2)
  | MailboxOp.retrieveLatestAndClear => (s.1.RetrieveLatestAndClear.2, s.2)

/-- A sequence of calls, from the left. -/
def Mailbox.applyAll {α : Type} (s : Mailbox α × List α) (ops : List (MailboxOp α)) :
    Mailbox α × List α :=
  ops.foldl Mailbox.apply s

/-! ## Start and Close -/

/-- The goroutines of the stop path: the caller of `Close` and the two tasks launched by
`Start`. -/
inductive Task where
  | close
  | requestHandler
  | logListener
  deriving DecidableEq, Repr

/-- The steps of the stop path: `close(lsn.chStop)`, `<-lsn.waitOnStop`,
`case <-lsn.chStop`, the calls of the unsubscribe functions, and
`lsn.waitOnStop <- struct{}{}`. -/
inductive Instr where
  | closeStop
  | recvAck
  | awaitStop
  | unsubscribe
  | sendAck
  deriving DecidableEq, Repr

/-- The state of the stop path: what each goroutine has still to run, whether `chStop`
is closed, the acknowledgments waiting in the buffer of `waitOnStop`, and the numbers of
completed sends and receives on `waitOnStop`. -/
structure Lifecycle where
  close : List Instr
  requestHandler : List Instr
  logListener : List Instr
  stopped : Bool
  buffered : Nat
  sent : Nat
  received : Nat
  deriving DecidableEq, Repr

/-- The state when `Close` is called after `Start`: the body of `Close`, and of each
task the branch `case <-lsn.chStop` of its loop.  What the tasks do before they take
that branch is not represented. -/
def started : Lifecycle :=
  { close := [Instr.closeStop, Instr.recvAck]
    requestHandler := [Instr.awaitStop, Instr.sendAck]
    logListener := [Instr.awaitStop, Instr.unsubscribe, Instr.sendAck]
    stopped := false
    buffered := 0
    sent := 0
    received := 0 }

/-- What goroutine `t` has still to run. -/
def Lifecycle.prog (s : Lifecycle) (t : Task) : List Instr :=
  match t with
  | Task.close => s.close
  | Task.requestHandler => s.requestHandler
  | Task.logListener => s.logListener

/-- Goroutine `t` goes on with `p`. -/
def Lifecycle.setProg (s : Lifecycle) (t : Task) (p : List Instr) : Lifecycle :=
  match t with
  | Task.close => { s with close := p }
  | Task.requestHandler => { s with requestHandler := p }
  | Task.logListener => { s with logListener := p }

/-- One step of goroutine `t`, `none` when it is blocked or has returned.  `cap` is the
capacity of `waitOnStop`, whose creation is not part of the sources: a send completes
when the buffer has room, or when the receive of `Close` is waiting; a receive completes
when the buffer holds an acknowledgment. -/
def Lifecycle.step (cap : Nat) (s : Lifecycle) (t : Task) : Option Lifecycle :=
  match s.prog t with
  | [] => none
  | Instr.closeStop :: rest => some ({ s with stopped := true }.setProg t rest)
  | Instr.awaitStop :: rest => if s.stopped then some (s.setProg t rest) else none
  | Instr.unsubscribe :: rest => some (s.setProg t rest)
  | Instr.sendAck :: rest =>
    if s.buffered < cap then
      some ({ s with buffered := s.buffered + 1, sent := s.sent + 1 }.setProg t rest)
    else
      match s.close with
      | Instr.recvAck :: afterRecv =>
        some ({ s with close := afterRecv, sent := s.sent + 1,
                       received := s.received + 1 }.setProg t rest)
      | _ => none
  | Instr.recvAck :: rest =>
    if 0 < s.buffered then
      some ({ s with buffered := s.buffered - 1, received := s.received + 1 }.setProg t rest)
    else none

/-- A schedule: the goroutines take steps in the given order; a goroutine that cannot
step is passed over. -/
def Lifecycle.run (cap : Nat) (s : Lifecycle) (schedule : List Task) : Lifecycle :=
  schedule.foldl
    (fun s t =>
      match s.step cap t with
      | some s' => s'
      | none => s)
    s

/-! ## Reading the partition and the simulations -/

/-- The test of `getConfirmedLogsBySub`, for one subscription: the request belongs to
`sub` and is confirmed at `latestHead`. -/
def eligible (sub latestHead : Nat) (r : pendingRequest) : Bool :=
  r.req.SubId == sub && decide (r.confirmedAtBlock ≤ latestHead)

/-- The positions of the requests given to `getMaxLinkForFulfillment`, in order. -/
def simulated (events : List Event) : List Nat :=
  events.filterMap (fun ev =>
    match ev with
    | Event.simulate i => some i
    | _ => none)

/-- The request an iteration gives to `getMaxLinkForFulfillment`, if it gets that far:
the call is reached when the log passes the consumed check and the request is not found
fulfilled, and its argument is the `req` of the iteration. -/
def iterationOffered (e : IterEnv) (req : pendingRequest) (st : LoopState) :
    List pendingRequest :=
  if !shouldProcessLog st.db e.wasAlreadyConsumedErr req.lb then []
  else if alreadyFulfilled e.getCommitment then []
  else [req]

/-- The requests the loop gives to `getMaxLinkForFulfillment`, in the order of the
calls: the loop of `requestLoop`, each iteration run by `iteration`, with the argument of
the call in place of its effect. -/
def requestLoopOffered (cfg : Config) (env : Nat → IterEnv) (fromAddress : Nat) :
    Nat → List pendingRequest → LoopState → List pendingRequest
  | _, [], _ => []
  | i, req :: rest, st =>
    iterationOffered (env i) req st ++
      match iteration cfg (env i) fromAddress i req st with
      | (st', Control.next) => requestLoopOffered cfg env fromAddress (i + 1) rest st'
      | (_, Control.brk) => []
      | (_, Control.ret) => []

/-- The requests a pass gives to `getMaxLinkForFulfillment`, in the order of the calls:
none when the reserved-budget subtraction fails, else those of the loop. -/
def processRequestsPerSubOffered (cfg : Config) (lsn : listenerV3) (env : PassEnv)
    (fromAddress : Nat) (startBalance : Int) (reqs : List pendingRequest) :
    List pendingRequest :=
  match MaybeSubtractReservedLink lsn.db env.reservedQueryErr env.ownFirst fromAddress
      startBalance with
  | (_, some _) => []
  | (startBalance, none) =>
    requestLoopOffered cfg env.iter fromAddress 0 reqs
      { db := lsn.db, startBalance := startBalance, processed := [], events := [] }

/-! ## The writes of the router -/

/-- The logs for which `handleLog` calls `markLogAsConsumed`, in order: the same branches
as `handleLog`, with the call in place of its effect. -/
def handleLogMarks (lsn : listenerV3) (env : HandleEnv) (lb : Broadcast) : List Nat :=
  match lb.decodedLog with
  | .fulfilled _ =>
    if !shouldProcessLog lsn.db env.wasAlreadyConsumedErr lb then []
    else [lb.id]
  | .other =>
    match lb.parsed with
    | none =>
      if !shouldProcessLog lsn.db env.wasAlreadyConsumedErr lb then []
      else [lb.id]
    | some _ => []

/-! ## The pass on any result of the reserved-budget query -/

/-- The method `processRequestsPerSub` with the string that the query of
`MaybeSubtractReservedLink` scans (`none` when the query fails) given from outside, so
that every string is covered, also those the query of the model never yields. -/
def processRequestsPerSubOn (cfg : Config) (lsn : listenerV3) (reservedLink : Option String)
    (iter : Nat → IterEnv) (fromAddress : Nat) (startBalance : Int)
    (reqs : List pendingRequest) : listenerV3 × PassOutcome :=
  match subtractReservedLink reservedLink startBalance with
  | (startBalance, some _) =>
    (lsn, { exit := none, balance := startBalance, processed := [], events := [] })
  | (startBalance, none) =>
    match requestLoop cfg iter fromAddress 0 reqs
        { db := lsn.db, startBalance := startBalance, processed := [], events := [] } with
    | (st, Exit.returned) =>
      ({ lsn with db := st.db },
        { exit := some Exit.returned, balance := st.startBalance,
          processed := st.processed, events := st.events })
    | (st, exit) =>
      ({ lsn with
          db := st.db
          reqs := reqs.filter (fun req => !(st.processed.contains req.req.RequestId)) },
        { exit := some exit, balance := st.startBalance,
          processed := st.processed, events := st.events })

/-! ## The tick scheduler -/

/-- Results of the external calls made for one subscription of a tick: the balance read
by `GetSubscription` (`none` when it fails), the address of the first sending key
(`none` when `SendingKeys` fails), and the calls of the pass. -/
structure SubEnv where
  getSubscription : Option Int
  sendingKeys : Option Nat
  pass : PassEnv

/-- Results of the external calls made by one tick, and what Go leaves open: the number
of the head read by `HeaderByNumber` (`none` when it fails), the order in which
`range confirmed` visits the map, `job.VRFSpec.FromAddress`, the calls for the
subscription visited at each position, and the head read at each iteration of the
pruning loop. -/
structure TickEnv where
  header : Option Nat
  order : List (Nat × List pendingRequest) → List (Nat × List pendingRequest)
  jobFromAddress : Option Nat
  sub : Nat → SubEnv
  pruneHeads : Nat → Option Nat

/-- The `for subID, reqs := range confirmed` loop of `processPendingVRFRequests`, from
position `i`, on the listener and the events of the passes so far; the flag tells that
the method returned from inside the loop. -/
def subLoop (cfg : Config) (env : TickEnv) :
    Nat → List (Nat × List pendingRequest) → listenerV3 × List Event →
      (listenerV3 × List Event) × Bool
  | _, [], s => (s, false)
  | i, (_, reqs) :: rest, s =>
    match (env.sub i).getSubscription with
    | none => (s, true)
    | some startBalance =>
      match (env.sub i).sendingKeys with
      | none => subLoop cfg env (i + 1) rest s
      | some key =>
        let fromAddress :=
          match env.jobFromAddress with
          | some a => a
          | none => key
        let r := processRequestsPerSub cfg s.1 (env.sub i).pass fromAddress startBalance reqs
        subLoop cfg env (i + 1) rest (r.1, s.2 ++ r.2.events)

/-- What a tick leaves behind: the listener, the events of its passes, and whether it
called `pruneConfirmedRequestCounts`. -/
structure TickOutcome where
  lsn : listenerV3
  events : List Event
  pruned : Bool
  deriving DecidableEq, Repr

/-- The method `processPendingVRFRequests`. -/
def processPendingVRFRequests (cfg : Config) (env : TickEnv) (lsn : listenerV3) :
    TickOutcome :=
  match env.header with
  | none => { lsn := lsn, events := [], pruned := false }
  | some latestHead =>
    let confirmed := getConfirmedLogsBySub lsn.reqs latestHead
    if confirmed.length = 0 then { lsn := lsn, events := [], pruned := false }
    else
      match subLoop cfg env 0 (env.order confirmed) (lsn, []) with
      | (s, true) => { lsn := s.1, events := s.2, pruned := false }
      | (s, false) =>
        { lsn := pruneConfirmedRequestCounts env.pruneHeads s.1, events := s.2,
          pruned := true }

/-! ## Sequences of router, pruning and scheduler calls -/

/-- A call that can touch the tracker, with the results of its external calls. -/
inductive SchedOp where
  | handleLog (env : HandleEnv) (lb : Broadcast) (minConfs : Nat)
  | pruneConfirmedRequestCounts (heads : Nat → Option Nat)
  | processPendingVRFRequests (env : TickEnv)

/-- One call on the listener. -/
def schedStep (cfg : Config) (lsn : listenerV3) (op : SchedOp) : listenerV3 :=
  match op with
  | SchedOp.handleLog env lb minConfs => handleLog lsn env lb minConfs
  | SchedOp.pruneConfirmedRequestCounts heads => pruneConfirmedRequestCounts heads lsn
  | SchedOp.processPendingVRFRequests env => (processPendingVRFRequests cfg env lsn).lsn

/-- A sequence of calls, from the left. -/
def schedRun (cfg : Config) (lsn : listenerV3) (ops : List SchedOp) : listenerV3 :=
  ops.foldl (schedStep cfg) lsn

/-- Whether `handleLog` counts the broadcast for request `X`: it is a fulfillment log
for `X`, the consumed check succeeds and the log is not consumed. -/
def countsFor (X : Nat) (lsn : listenerV3) (env : HandleEnv) (lb : Broadcast) : Bool :=
  match lb.decodedLog with
  | DecodedLog.fulfilled v =>
    v.RequestId == X && shouldProcessLog lsn.db env.wasAlreadyConsumedErr lb
  | DecodedLog.other => false

/-- The number of fulfillment logs for request `X` that a sequence of `handleLog` calls
counts, each call seeing the store the calls before it left. -/
def observed (X : Nat) : listenerV3 → List (HandleEnv × Broadcast × Nat) → Nat
  | _, [] => 0
  | lsn, (env, lb, minConfs) :: rest =>
    (if countsFor X lsn env lb then 1 else 0) +
      observed X (handleLog lsn env lb minConfs) rest

/-- The calls of `handleLog` of a sequence, as scheduler calls. -/
def handleLogs (calls : List (HandleEnv × Broadcast × Nat)) : List SchedOp :=
  calls.map (fun c => SchedOp.handleLog c.1 c.2.1 c.2.2)

/-! ## Specification predicates -/

/-- The six ways an iteration can go. -/
inductive IterCase (cfg : Config) (e : IterEnv) (A i : Nat) (req : pendingRequest)
    (st : LoopState) : LoopState × Control → Prop where
  | ret (h : shouldProcessLog st.db e.wasAlreadyConsumedErr req.lb = false) :
      IterCase cfg e A i req st (st, Control.ret)
  | fulfilled (h : shouldProcessLog st.db e.wasAlreadyConsumedErr req.lb = true)
      (hf : alreadyFulfilled e.getCommitment = true) :
      IterCase cfg e A i req st
        ({ st with
            db := markLogAsConsumed st.db e.markConsumedErr req.lb
            processed := req.req.RequestId :: st.processed
            events := st.events ++ [Event.markConsumed i req.lb.id] }, Control.next)
  | skipped (h : shouldProcessLog st.db e.wasAlreadyConsumedErr req.lb = true)
      (hf : alreadyFulfilled e.getCommitment = false)
      (hs : getMaxLinkForFulfillment e.executeRun = none ∨
        ∃ sim, getMaxLinkForFulfillment e.executeRun = some sim ∧
          ¬ st.startBalance < (sim.maxLink : Int) ∧
          Transact st.db e.commitErr (fulfillmentTx cfg e A req sim) = none) :
      IterCase cfg e A i req st
        ({ st with events := st.events ++ [Event.simulate i] }, Control.next)
  | insufficient (sim : Simulation)
      (h : shouldProcessLog st.db e.wasAlreadyConsumedErr req.lb = true)
      (hf : alreadyFulfilled e.getCommitment = false)
      (hs : getMaxLinkForFulfillment e.executeRun = some sim)
      (hb : st.startBalance < (sim.maxLink : Int)) :
      IterCase cfg e A i req st
        ({ st with events := st.events ++ [Event.simulate i, Event.insufficient i] },
          Control.brk)
  | enqueue (sim : Simulation)
      (h : shouldProcessLog st.db e.wasAlreadyConsumedErr req.lb = true)
      (hf : alreadyFulfilled e.getCommitment = false)
      (hs : getMaxLinkForFulfillment e.executeRun = some sim)
      (hb : ¬ st.startBalance < (sim.maxLink : Int))
      (ht : Transact st.db e.commitErr (fulfillmentTx cfg e A req sim) =
        some { consumed := req.lb.id :: st.db.consumed
               eth_txes := st.db.eth_txes ++ [newTx cfg A req sim]
               pipeline_runs := sim.run :: st.db.pipeline_runs }) :
      IterCase cfg e A i req st
        ({ db := { consumed := req.lb.id :: st.db.consumed
                   eth_txes := st.db.eth_txes ++ [newTx cfg A req sim]
                   pipeline_runs := sim.run :: st.db.pipeline_runs }
           startBalance := st.startBalance - (sim.maxLink : Int)
           processed := req.req.RequestId :: st.processed
           events := st.events ++ [Event.simulate i, Event.enqueue i req.lb.id sim.maxLink] },
          Control.next)

/-- From markers `c0` and enqueued logs `l0` to markers `c` and enqueued logs `l`:
markers are only added, and the logs enqueued in between are pairwise distinct, were
not marked at the start and are marked at the end. -/
def Grows (c0 l0 c l : List Nat) : Prop :=
  c0 ⊆ c ∧ ∃ new, l = l0 ++ new ∧ new.Nodup ∧ ∀ L ∈ new, L ∉ c0 ∧ L ∈ c

/-- What holds of the stop path in every state after `started`: `Close` has received no
acknowledgment before its receive and one after it, and the tasks only wait for the
stop signal, unsubscribe and send. -/
def Lifecycle.Reached (s : Lifecycle) : Prop :=
  ((s.close = [Instr.closeStop, Instr.recvAck] ∧ s.received = 0) ∨
      (s.close = [Instr.recvAck] ∧ s.received = 0) ∨
      (s.close = [] ∧ s.received = 1)) ∧
    (s.requestHandler = [Instr.awaitStop, Instr.sendAck] ∨
      s.requestHandler = [Instr.sendAck] ∨ s.requestHandler = []) ∧
    (s.logListener = [Instr.awaitStop, Instr.unsubscribe, Instr.sendAck] ∨
      s.logListener = [Instr.unsubscribe, Instr.sendAck] ∨
      s.logListener = [Instr.sendAck] ∨ s.logListener = [])

/-- The log listener has not acknowledged and cannot: `Close` has returned, the buffer
of `waitOnStop` is empty, and the send of the listener is still to come. -/
def Lifecycle.ListenerLeft (s : Lifecycle) : Prop :=
  s.close = [] ∧ s.buffered = 0 ∧
    (s.logListener = [Instr.awaitStop, Instr.unsubscribe, Instr.sendAck] ∨
      s.logListener = [Instr.unsubscribe, Instr.sendAck] ∨
      s.logListener = [Instr.sendAck])

/-- The tracker is consistent: every stored count is at least 1 and at most the number
of markers the heap holds for its request ID. -/
def Tracked (respCount : List (Nat × Nat)) (heap : List fulfilledReqV2) : Prop :=
  ∀ p ∈ respCount, 1 ≤ p.2 ∧ p.2 ≤ heap.countP (fun m => m.reqID == p.1)

/-! ## Example data -/

/-- A configuration: coordinator at address 9, three outgoing confirmations. -/
def exCfg : Config :=
  { coordinatorAddress := 9, minRequiredOutgoingConfirmations := 3 }

/-- An empty store. -/
def exDb : DB :=
  { consumed := [], eth_txes := [], pipeline_runs := [] }

/-- A listener over the store `db` with pending set `reqs` and an empty tracker. -/
def exLsn (db : DB) (reqs : List pendingRequest) : listenerV3 :=
  { reqs := reqs, respCount := [], blockNumberToReqID := [], db := db }

/-- A request of subscription `sub` with request id `id`, logged in block 100. -/
def exReq (sub id : Nat) : RandomWordsRequested :=
  { RequestId := id, SubId := sub, BlockNumber := 100 }

/-- The broadcast of log `log` carrying the request `id` of subscription `sub`. -/
def exLb (log sub id : Nat) : Broadcast :=
  { id := log, decodedLog := DecodedLog.other, parsed := some (exReq sub id) }

/-- The pending request `handleLog` makes of `exLb log sub id` with three confirmations
and no counter. -/
def exPending (log sub id : Nat) : pendingRequest :=
  { confirmedAtBlock := 103, req := exReq sub id, lb := exLb log sub id }

/-- A pipeline run without errors whose final result encodes `cost` in two bytes. -/
def exRun (cost : Nat) : RunOutput :=
  { run := 0
    hasError := false
    finalValues := [Value.bytes (cost / 256) [cost % 256]]
    trrs := [TaskRunResult.vrfv2 "0x01", TaskRunResult.estimateGasLimit 500000] }

/-- The simulation `getMaxLinkForFulfillment` makes of `exRun cost`. -/
def exSim (cost : Nat) : Simulation :=
  { maxLink := cost, run := 0, payload := "0x01", gaslimit := 500000 }

/-- An iteration in which every external call succeeds, the commitment is not zero and
the simulated cost is `cost`. -/
def exIter (cost : Nat) : IterEnv :=
  { wasAlreadyConsumedErr := false
    getCommitment := some [1]
    markConsumedErr := false
    executeRun := some (exRun cost)
    insertFinishedRunErr := false
    txMarkConsumedErr := false
    createEthTransactionErr := false
    commitErr := false }

/-- A pass in which the reserved-budget query succeeds and iteration `i` is `iter i`. -/
def exEnv (iter : Nat → IterEnv) : PassEnv :=
  { reservedQueryErr := false, ownFirst := true, iter := iter }

/-- Simulated costs 600, 500 and then 100. -/
def exCosts (i : Nat) : Nat :=
  if i = 0 then 600 else if i = 1 then 500 else 100

/-- The loop state after the first of the requests of `exCosts` is enqueued from a
balance of 1000 by sender 5. -/
def exAfterFirst : LoopState :=
  { db := { consumed := [1]
            eth_txes := [newTx exCfg 5 (exPending 1 1 11) (exSim 600)]
            pipeline_runs := [0] }
    startBalance := 400
    processed := [11]
    events := [Event.simulate 0, Event.enqueue 0 1 600] }

/-- A store call that succeeds in both parts. -/
def exHandleEnv : HandleEnv :=
  { wasAlreadyConsumedErr := false, markConsumedErr := false }

/-- Log 1 delivered twice, then a pass over the two pending entries. -/
def exOps1 : List Op :=
  [ Op.handleLog exHandleEnv (exLb 1 1 11) 3,
    Op.handleLog exHandleEnv (exLb 1 1 11) 3,
    Op.processRequestsPerSub (exEnv (fun _ => exIter 100)) 5 1000
      [exPending 1 1 11, exPending 1 1 11] ]

/-- Log 1 delivered once more, then a pass over the new pending entry. -/
def exOps2 : List Op :=
  [ Op.handleLog exHandleEnv (exLb 1 1 11) 3,
    Op.processRequestsPerSub (exEnv (fun _ => exIter 100)) 5 1000 [exPending 1 1 11] ]

/-- The listener after `n` fulfillment logs for request `X`, each a log of its own in
block 150 and none consumed before. -/
def exFulfillments (X n : Nat) : listenerV3 :=
  (List.range n).foldl
    (fun lsn j =>
      handleLog lsn exHandleEnv
        { id := j
          decodedLog := DecodedLog.fulfilled { RequestId := X, BlockNumber := 150 }
          parsed := none } 3)
    (exLsn exDb [])

/-- A transaction of sender 2 that reserves 600 and is not yet confirmed. -/
def exOtherTx : EthTx :=
  { fromAddress := 2
    toAddress := 9
    payload := "0x01"
    gasLimit := 500000
    RequestID := 7
    MaxLink := some 600
    minConfirmations := 3
    state := TxState.unconfirmed }

/-- An iteration whose request is found fulfilled on chain while the marker write
fails. -/
def exIterFulfilledWriteFails : IterEnv :=
  { exIter 100 with getCommitment := some (List.replicate 32 0), markConsumedErr := true }

/-- An iteration in which `ExecuteRun` fails. -/
def exIterRunFails : IterEnv :=
  { exIter 100 with executeRun := none }

/-- A tracker with a marker at block 5000 for request 7 and a marker at block 15000 for
request 8, each with its counter. -/
def exTracker : listenerV3 :=
  { reqs := []
    respCount := [(8, 1), (7, 1)]
    blockNumberToReqID := [{ blockNumber := 15000, reqID := 8 }, { blockNumber := 5000, reqID := 7 }]
    db := exDb }

/-- A fulfillment log, log 4, for request 7 in block 150. -/
def exFulfilledLb : Broadcast :=
  { id := 4
    decodedLog := DecodedLog.fulfilled { RequestId := 7, BlockNumber := 150 }
    parsed := none }

/-- A tick at tip `tip` whose external calls all succeed: balance 1000, sending key 5,
simulated cost 100, and the same tip at every iteration of the pruning loop. -/
def exTick (tip : Nat) : TickEnv :=
  { header := some tip
    order := fun confirmed => confirmed
    jobFromAddress := none
    sub := fun _ =>
      { getSubscription := some 1000, sendingKeys := some 5,
        pass := exEnv (fun _ => exIter 100) }
    pruneHeads := fun _ => some tip }


/-- A tick like `exTick tip` in which every subscription read fails. -/
def exTickNoSub (tip : Nat) : TickEnv :=
  { exTick tip with
    sub := fun _ =>
      { getSubscription := none, sendingKeys := some 5, pass := exEnv (fun _ => exIter 100) } }

/-- The fulfillment log `exFulfilledLb` for request 7, then the request log 1 of
subscription 1, both with three confirmations. -/
def exCalls : List (HandleEnv × Broadcast × Nat) :=
  [(exHandleEnv, exFulfilledLb, 3), (exHandleEnv, exLb 1 1 11, 3)]

/-! # Theorems -/

/-! ## Lemmas on the model -/

theorem Transact_fulfillmentTx_some (cfg : Config) (e : IterEnv) (A : Nat)
    (req : pendingRequest) (sim : Simulation) (db db' : DB)
    (h : Transact db e.commitErr (fulfillmentTx cfg e A req sim) = some db') :
    db' = { consumed := req.lb.id :: db.consumed
            eth_txes := db.eth_txes ++ [newTx cfg A req sim]
            pipeline_runs := sim.run :: db.pipeline_runs } ∧
      e.insertFinishedRunErr = false ∧ e.txMarkConsumedErr = false ∧
      e.createEthTransactionErr = false ∧ e.commitErr = false := by
  unfold Transact fulfillmentTx InsertFinishedRun MarkConsumed CreateEthTransaction at h
  cases h1 : e.insertFinishedRunErr <;> cases h2 : e.txMarkConsumedErr <;>
    cases h3 : e.createEthTransactionErr <;> cases h4 : e.commitErr <;>
    simp [h1, h2, h3, h4] at h
  exact ⟨h.symm, rfl, rfl, rfl, rfl⟩

theorem Transact_fulfillmentTx_none (cfg : Config) (e : IterEnv) (A : Nat)
    (req : pendingRequest) (sim : Simulation) (db : DB)
    (h : e.insertFinishedRunErr = true ∨ e.txMarkConsumedErr = true ∨
      e.createEthTransactionErr = true ∨ e.commitErr = true) :
    Transact db e.commitErr (fulfillmentTx cfg e A req sim) = none := by
  unfold Transact fulfillmentTx InsertFinishedRun MarkConsumed CreateEthTransaction
  cases h1 : e.insertFinishedRunErr <;> cases h2 : e.txMarkConsumedErr <;>
    cases h3 : e.createEthTransactionErr <;> cases h4 : e.commitErr <;>
    simp [h1, h2, h3, h4] at h ⊢

theorem markLogAsConsumed_consumed (db : DB) (err : Bool) (lb : Broadcast) :
    (markLogAsConsumed db err lb).consumed = if err then db.consumed else lb.id :: db.consumed := by
  unfold markLogAsConsumed MarkConsumed
  cases err <;> simp

theorem shouldProcessLog_true (db : DB) (err : Bool) (lb : Broadcast)
    (h : shouldProcessLog db err lb = true) : err = false ∧ lb.id ∉ db.consumed := by
  unfold shouldProcessLog WasAlreadyConsumed at h
  cases err <;> simp at h
  exact ⟨rfl, h⟩

theorem iteration_ret (cfg : Config) (e : IterEnv) (A i : Nat) (req : pendingRequest)
    (st : LoopState) (h : shouldProcessLog st.db e.wasAlreadyConsumedErr req.lb = false) :
    iteration cfg e A i req st = (st, Control.ret) := by
  simp [iteration, h]

theorem iteration_fulfilled (cfg : Config) (e : IterEnv) (A i : Nat) (req : pendingRequest)
    (st : LoopState) (h : shouldProcessLog st.db e.wasAlreadyConsumedErr req.lb = true)
    (hf : alreadyFulfilled e.getCommitment = true) :
    iteration cfg e A i req st =
      ({ st with
          db := markLogAsConsumed st.db e.markConsumedErr req.lb
          processed := req.req.RequestId :: st.processed
          events := st.events ++ [Event.markConsumed i req.lb.id] }, Control.next) := by
  simp [iteration, h, hf]

theorem iteration_simfail (cfg : Config) (e : IterEnv) (A i : Nat) (req : pendingRequest)
    (st : LoopState) (h : shouldProcessLog st.db e.wasAlreadyConsumedErr req.lb = true)
    (hf : alreadyFulfilled e.getCommitment = false)
    (hs : getMaxLinkForFulfillment e.executeRun = none) :
    iteration cfg e A i req st =
      ({ st with events := st.events ++ [Event.simulate i] }, Control.next) := by
  simp [iteration, h, hf, hs]

theorem iteration_insufficient (cfg : Config) (e : IterEnv) (A i : Nat)
    (req : pendingRequest) (st : LoopState) (sim : Simulation)
    (h : shouldProcessLog st.db e.wasAlreadyConsumedErr req.lb = true)
    (hf : alreadyFulfilled e.getCommitment = false)
    (hs : getMaxLinkForFulfillment e.executeRun = some sim)
    (hb : st.startBalance < (sim.maxLink : Int)) :
    iteration cfg e A i req st =
      ({ st with events := st.events ++ [Event.simulate i, Event.insufficient i] },
        Control.brk) := by
  simp [iteration, h, hf, hs, hb]

theorem iteration_txfail (cfg : Config) (e : IterEnv) (A i : Nat)
    (req : pendingRequest) (st : LoopState) (sim : Simulation)
    (h : shouldProcessLog st.db e.wasAlreadyConsumedErr req.lb = true)
    (hf : alreadyFulfilled e.getCommitment = false)
    (hs : getMaxLinkForFulfillment e.executeRun = some sim)
    (hb : ¬ st.startBalance < (sim.maxLink : Int))
    (ht : Transact st.db e.commitErr (fulfillmentTx cfg e A req sim) = none) :
    iteration cfg e A i req st =
      ({ st with events := st.events ++ [Event.simulate i] }, Control.next) := by
  simp [iteration, h, hf, hs, hb, ht]

theorem iteration_enqueue (cfg : Config) (e : IterEnv) (A i : Nat)
    (req : pendingRequest) (st : LoopState) (sim : Simulation) (db' : DB)
    (h : shouldProcessLog st.db e.wasAlreadyConsumedErr req.lb = true)
    (hf : alreadyFulfilled e.getCommitment = false)
    (hs : getMaxLinkForFulfillment e.executeRun = some sim)
    (hb : ¬ st.startBalance < (sim.maxLink : Int))
    (ht : Transact st.db e.commitErr (fulfillmentTx cfg e A req sim) = some db') :
    iteration cfg e A i req st =
      ({ db := db'
         startBalance := st.startBalance - (sim.maxLink : Int)
         processed := req.req.RequestId :: st.processed
         events := st.events ++ [Event.simulate i, Event.enqueue i req.lb.id sim.maxLink] },
        Control.next) := by
  simp [iteration, h, hf, hs, hb, ht]

theorem iteration_cases (cfg : Config) (e : IterEnv) (A i : Nat) (req : pendingRequest)
    (st : LoopState) : IterCase cfg e A i req st (iteration cfg e A i req st) := by
  cases h : shouldProcessLog st.db e.wasAlreadyConsumedErr req.lb
  · rw [iteration_ret cfg e A i req st h]
    exact IterCase.ret h
  cases hf : alreadyFulfilled e.getCommitment
  swap
  · rw [iteration_fulfilled cfg e A i req st h hf]
    exact IterCase.fulfilled h hf
  cases hs : getMaxLinkForFulfillment e.executeRun with
  | none =>
    rw [iteration_simfail cfg e A i req st h hf hs]
    exact IterCase.skipped h hf (Or.inl hs)
  | some sim =>
    by_cases hb : st.startBalance < (sim.maxLink : Int)
    · rw [iteration_insufficient cfg e A i req st sim h hf hs hb]
      exact IterCase.insufficient sim h hf hs hb
    · cases ht : Transact st.db e.commitErr (fulfillmentTx cfg e A req sim) with
      | none =>
        rw [iteration_txfail cfg e A i req st sim h hf hs hb ht]
        exact IterCase.skipped h hf (Or.inr ⟨sim, hs, hb, ht⟩)
      | some db' =>
        rw [iteration_enqueue cfg e A i req st sim db' h hf hs hb ht]
        have hd := (Transact_fulfillmentTx_some cfg e A req sim st.db db' ht).1
        subst hd
        exact IterCase.enqueue sim h hf hs hb ht

theorem requestLoop_nil (cfg : Config) (env : Nat → IterEnv) (A i : Nat) (st : LoopState) :
    requestLoop cfg env A i [] st = (st, Exit.completed) := rfl

theorem requestLoop_cons_next (cfg : Config) (env : Nat → IterEnv) (A i : Nat)
    (req : pendingRequest) (rest : List pendingRequest) (st st' : LoopState)
    (h : iteration cfg (env i) A i req st = (st', Control.next)) :
    requestLoop cfg env A i (req :: rest) st = requestLoop cfg env A (i + 1) rest st' := by
  simp [requestLoop, h]

theorem requestLoop_cons_brk (cfg : Config) (env : Nat → IterEnv) (A i : Nat)
    (req : pendingRequest) (rest : List pendingRequest) (st st' : LoopState)
    (h : iteration cfg (env i) A i req st = (st', Control.brk)) :
    requestLoop cfg env A i (req :: rest) st = (st', Exit.broke) := by
  simp [requestLoop, h]

theorem requestLoop_cons_ret (cfg : Config) (env : Nat → IterEnv) (A i : Nat)
    (req : pendingRequest) (rest : List pendingRequest) (st st' : LoopState)
    (h : iteration cfg (env i) A i req st = (st', Control.ret)) :
    requestLoop cfg env A i (req :: rest) st = (st', Exit.returned) := by
  simp [requestLoop, h]

/-- The loop over `pre ++ post` is the loop over `pre`, followed, when that one runs to
its end, by the loop over `post`. -/
theorem requestLoop_append (cfg : Config) (env : Nat → IterEnv) (A : Nat)
    (pre post : List pendingRequest) :
    ∀ (i : Nat) (st st1 : LoopState),
      requestLoop cfg env A i pre st = (st1, Exit.completed) →
      requestLoop cfg env A i (pre ++ post) st =
        requestLoop cfg env A (i + pre.length) post st1 := by
  induction pre with
  | nil =>
    intro i st st1 h
    rw [requestLoop_nil] at h
    cases h
    simp
  | cons r pre ih =>
    intro i st st1 h
    cases hit : iteration cfg (env i) A i r st with
    | mk st' c =>
      cases c with
      | next =>
        rw [requestLoop_cons_next cfg env A i r pre st st' hit] at h
        rw [List.cons_append, requestLoop_cons_next cfg env A i r (pre ++ post) st st' hit,
          ih (i + 1) st' st1 h]
        simp [Nat.add_assoc, Nat.add_comm 1]
      | brk =>
        rw [requestLoop_cons_brk cfg env A i r pre st st' hit] at h
        cases h
      | ret =>
        rw [requestLoop_cons_ret cfg env A i r pre st st' hit] at h
        cases h

/-- A relation between loop states that every iteration respects holds between the
state the loop starts in and the state it ends in. -/
theorem requestLoop_rel (cfg : Config) (env : Nat → IterEnv) (A : Nat)
    (R : LoopState → LoopState → Prop) (hrefl : ∀ st, R st st)
    (htrans : ∀ a b c, R a b → R b c → R a c)
    (hstep : ∀ e i req st, R st (iteration cfg e A i req st).1) :
    ∀ (reqs : List pendingRequest) (i : Nat) (st : LoopState),
      R st (requestLoop cfg env A i reqs st).1 := by
  intro reqs
  induction reqs with
  | nil => intro i st; exact hrefl st
  | cons r rest ih =>
    intro i st
    have h1 := hstep (env i) i r st
    cases hit : iteration cfg (env i) A i r st with
    | mk st' c =>
      rw [hit] at h1
      cases c with
      | next =>
        rw [requestLoop_cons_next cfg env A i r rest st st' hit]
        exact htrans _ _ _ h1 (ih (i + 1) st')
      | brk =>
        rw [requestLoop_cons_brk cfg env A i r rest st st' hit]
        exact h1
      | ret =>
        rw [requestLoop_cons_ret cfg env A i r rest st st' hit]
        exact h1

/-- The events of an iteration: those before, followed by events about position `i`. -/
theorem iteration_events (cfg : Config) (e : IterEnv) (A i : Nat) (req : pendingRequest)
    (st : LoopState) :
    ∃ new, (iteration cfg e A i req st).1.events = st.events ++ new ∧
      ∀ ev ∈ new, ev.index = i := by
  have hc := iteration_cases cfg e A i req st
  generalize iteration cfg e A i req st = res at hc ⊢
  cases hc with
  | ret h => exact ⟨[], by simp, by simp⟩
  | fulfilled h hf => exact ⟨_, rfl, by simp [Event.index]⟩
  | skipped h hf hs => exact ⟨_, rfl, by simp [Event.index]⟩
  | insufficient sim h hf hs hb => exact ⟨_, rfl, by simp [Event.index]⟩
  | enqueue sim h hf hs hb ht => exact ⟨_, rfl, by simp [Event.index]⟩

/-- The events of the loop from position `i`: those before, followed by events about
the positions `i`, ..., `i + reqs.length - 1`. -/
theorem requestLoop_events (cfg : Config) (env : Nat → IterEnv) (A : Nat) :
    ∀ (reqs : List pendingRequest) (i : Nat) (st : LoopState),
      ∃ new, (requestLoop cfg env A i reqs st).1.events = st.events ++ new ∧
        ∀ ev ∈ new, i ≤ ev.index ∧ ev.index < i + reqs.length := by
  intro reqs
  induction reqs with
  | nil => intro i st; exact ⟨[], by simp [requestLoop_nil], by simp⟩
  | cons r rest ih =>
    intro i st
    obtain ⟨new1, h1, hi1⟩ := iteration_events cfg (env i) A i r st
    have hb1 : ∀ ev ∈ new1, i ≤ ev.index ∧ ev.index < i + (r :: rest).length := by
      intro ev hev
      have := hi1 ev hev
      simp only [List.length_cons]
      omega
    cases hit : iteration cfg (env i) A i r st with
    | mk st' c =>
      rw [hit] at h1
      cases c with
      | next =>
        rw [requestLoop_cons_next cfg env A i r rest st st' hit]
        obtain ⟨new2, h2, hi2⟩ := ih (i + 1) st'
        refine ⟨new1 ++ new2, ?_, ?_⟩
        · rw [h2, h1, List.append_assoc]
        · intro ev hev
          rcases List.mem_append.mp hev with hev | hev
          · exact hb1 ev hev
          · have := hi2 ev hev
            simp only [List.length_cons]
            omega
      | brk =>
        rw [requestLoop_cons_brk cfg env A i r rest st st' hit]
        exact ⟨new1, h1, hb1⟩
      | ret =>
        rw [requestLoop_cons_ret cfg env A i r rest st st' hit]
        exact ⟨new1, h1, hb1⟩

theorem enqueuedCost_append (a b : List Event) :
    enqueuedCost (a ++ b) = enqueuedCost a + enqueuedCost b := by
  simp [enqueuedCost]

theorem enqueuedLogs_append (a b : List Event) :
    enqueuedLogs (a ++ b) = enqueuedLogs a ++ enqueuedLogs b := by
  simp [enqueuedLogs]

/-- Every iteration keeps `startBalance + cost of the enqueued transactions`. -/
theorem iteration_balance (cfg : Config) (e : IterEnv) (A i : Nat) (req : pendingRequest)
    (st : LoopState) :
    (iteration cfg e A i req st).1.startBalance +
        (enqueuedCost (iteration cfg e A i req st).1.events : Int) =
      st.startBalance + (enqueuedCost st.events : Int) := by
  have hc := iteration_cases cfg e A i req st
  generalize iteration cfg e A i req st = res at hc ⊢
  cases hc with
  | ret h => rfl
  | fulfilled h hf => simp [enqueuedCost]
  | skipped h hf hs => simp [enqueuedCost]
  | insufficient sim h hf hs hb => simp [enqueuedCost]
  | enqueue sim h hf hs hb ht =>
    simp [enqueuedCost]

theorem requestLoop_balance (cfg : Config) (env : Nat → IterEnv) (A : Nat)
    (reqs : List pendingRequest) (i : Nat) (st : LoopState) :
    (requestLoop cfg env A i reqs st).1.startBalance +
        (enqueuedCost (requestLoop cfg env A i reqs st).1.events : Int) =
      st.startBalance + (enqueuedCost st.events : Int) :=
  requestLoop_rel cfg env A
    (fun a b => b.startBalance + (enqueuedCost b.events : Int) =
      a.startBalance + (enqueuedCost a.events : Int))
    (fun _ => rfl) (fun _ _ _ h1 h2 => h2.trans h1)
    (fun e i req st => iteration_balance cfg e A i req st) reqs i st

/-- Keys are only added to `processed`. -/
theorem requestLoop_processed (cfg : Config) (env : Nat → IterEnv) (A : Nat)
    (reqs : List pendingRequest) (i : Nat) (st : LoopState) :
    st.processed ⊆ (requestLoop cfg env A i reqs st).1.processed :=
  requestLoop_rel cfg env A (fun a b => a.processed ⊆ b.processed)
    (fun _ => List.Subset.refl _) (fun _ _ _ h1 h2 => List.Subset.trans h1 h2)
    (fun e i req st => by
      have hc := iteration_cases cfg e A i req st
      generalize iteration cfg e A i req st = res at hc ⊢
      cases hc with
      | ret h => exact List.Subset.refl _
      | fulfilled h hf => exact List.subset_cons_self _ _
      | skipped h hf hs => exact List.Subset.refl _
      | insufficient sim h hf hs hb => exact List.Subset.refl _
      | enqueue sim h hf hs hb ht => exact List.subset_cons_self _ _) reqs i st

theorem Grows.refl (c l : List Nat) : Grows c l c l :=
  ⟨List.Subset.refl _, [], by simp, List.nodup_nil, by simp⟩

theorem Grows.of_subset {c0 c : List Nat} (l : List Nat) (h : c0 ⊆ c) : Grows c0 l c l :=
  ⟨h, [], by simp, List.nodup_nil, by simp⟩

theorem Grows.trans {c0 l0 c1 l1 c2 l2 : List Nat} (h1 : Grows c0 l0 c1 l1)
    (h2 : Grows c1 l1 c2 l2) : Grows c0 l0 c2 l2 := by
  obtain ⟨hs1, n1, e1, nd1, m1⟩ := h1
  obtain ⟨hs2, n2, e2, nd2, m2⟩ := h2
  refine ⟨List.Subset.trans hs1 hs2, n1 ++ n2, ?_, ?_, ?_⟩
  · rw [e2, e1, List.append_assoc]
  · rw [List.nodup_append]
    refine ⟨nd1, nd2, ?_⟩
    intro x hx1 hx2
    exact (m2 x hx2).1 ((m1 x hx1).2)
  · intro L hL
    rcases List.mem_append.mp hL with hL | hL
    · exact ⟨(m1 L hL).1, hs2 (m1 L hL).2⟩
    · exact ⟨fun hc => (m2 L hL).1 (hs1 hc), (m2 L hL).2⟩

theorem markLogAsConsumed_subset (db : DB) (err : Bool) (lb : Broadcast) :
    db.consumed ⊆ (markLogAsConsumed db err lb).consumed := by
  rw [markLogAsConsumed_consumed]
  cases err
  · exact List.subset_cons_self _ _
  · exact List.Subset.refl _

theorem iteration_grows (cfg : Config) (e : IterEnv) (A i : Nat) (req : pendingRequest)
    (st : LoopState) :
    Grows st.db.consumed (enqueuedLogs st.events)
      (iteration cfg e A i req st).1.db.consumed
      (enqueuedLogs (iteration cfg e A i req st).1.events) := by
  have hc := iteration_cases cfg e A i req st
  generalize iteration cfg e A i req st = res at hc ⊢
  cases hc with
  | ret h => exact Grows.refl _ _
  | fulfilled h hf =>
    simp only [enqueuedLogs_append]
    simpa [enqueuedLogs] using Grows.of_subset _ (markLogAsConsumed_subset _ _ _)
  | skipped h hf hs =>
    simp only [enqueuedLogs_append]
    simpa [enqueuedLogs] using Grows.refl _ _
  | insufficient sim h hf hs hb =>
    simp only [enqueuedLogs_append]
    simpa [enqueuedLogs] using Grows.refl _ _
  | enqueue sim h hf hs hb ht =>
    refine ⟨List.subset_cons_self _ _, [req.lb.id], ?_, List.nodup_singleton _, ?_⟩
    · simp [enqueuedLogs]
    · intro L hL
      rw [List.mem_singleton] at hL
      subst hL
      exact ⟨(shouldProcessLog_true _ _ _ h).2, List.mem_cons_self _ _⟩

theorem requestLoop_grows (cfg : Config) (env : Nat → IterEnv) (A : Nat)
    (reqs : List pendingRequest) (i : Nat) (st : LoopState) :
    Grows st.db.consumed (enqueuedLogs st.events)
      (requestLoop cfg env A i reqs st).1.db.consumed
      (enqueuedLogs (requestLoop cfg env A i reqs st).1.events) :=
  requestLoop_rel cfg env A
    (fun a b => Grows a.db.consumed (enqueuedLogs a.events) b.db.consumed
      (enqueuedLogs b.events))
    (fun _ => Grows.refl _ _) (fun _ _ _ h1 h2 => Grows.trans h1 h2)
    (fun e i req st => iteration_grows cfg e A i req st) reqs i st

/-- The listener and the outcome of a pass, from the state in which the loop ends. -/
theorem processRequestsPerSub_eq (cfg : Config) (lsn : listenerV3) (env : PassEnv)
    (A : Nat) (B E : Int) (reqs : List pendingRequest)
    (hres : MaybeSubtractReservedLink lsn.db env.reservedQueryErr env.ownFirst A B
      = (E, none)) :
    processRequestsPerSub cfg lsn env A B reqs =
      (let r := requestLoop cfg env.iter A 0 reqs
          { db := lsn.db, startBalance := E, processed := [], events := [] }
      ({ lsn with
          db := r.1.db
          reqs := if r.2 = Exit.returned then lsn.reqs
            else reqs.filter (fun req => !(r.1.processed.contains req.req.RequestId)) },
        { exit := some r.2, balance := r.1.startBalance, processed := r.1.processed,
          events := r.1.events })) := by
  unfold processRequestsPerSub
  rw [hres]
  simp only
  cases hr : requestLoop cfg env.iter A 0 reqs
      { db := lsn.db, startBalance := E, processed := [], events := [] } with
  | mk st ex =>
    cases ex <;> simp

theorem processRequestsPerSub_err (cfg : Config) (lsn : listenerV3) (env : PassEnv)
    (A : Nat) (B E : Int) (reqs : List pendingRequest) (msg : String)
    (hres : MaybeSubtractReservedLink lsn.db env.reservedQueryErr env.ownFirst A B
      = (E, some msg)) :
    processRequestsPerSub cfg lsn env A B reqs =
      (lsn, { exit := none, balance := E, processed := [], events := [] }) := by
  unfold processRequestsPerSub
  rw [hres]

theorem processRequestsPerSub_grows (cfg : Config) (lsn : listenerV3) (env : PassEnv)
    (A : Nat) (B : Int) (reqs : List pendingRequest) (hist : List Event) :
    Grows lsn.db.consumed (enqueuedLogs hist)
      (processRequestsPerSub cfg lsn env A B reqs).1.db.consumed
      (enqueuedLogs (hist ++ (processRequestsPerSub cfg lsn env A B reqs).2.events)) := by
  cases hres : MaybeSubtractReservedLink lsn.db env.reservedQueryErr env.ownFirst A B with
  | mk E err =>
    cases err with
    | some msg =>
      rw [processRequestsPerSub_err cfg lsn env A B E reqs msg hres]
      simpa using Grows.refl _ _
    | none =>
      rw [processRequestsPerSub_eq cfg lsn env A B E reqs hres]
      have h := requestLoop_grows cfg env.iter A reqs 0
        { db := lsn.db, startBalance := E, processed := [], events := [] }
      obtain ⟨hs, new, e1, nd, m⟩ := h
      refine ⟨hs, new, ?_, nd, m⟩
      simp only [enqueuedLogs_append]
      rw [e1]
      simp [enqueuedLogs]

theorem handleLog_markers_subset (lsn : listenerV3) (env : HandleEnv) (lb : Broadcast)
    (minConfs : Nat) : lsn.db.consumed ⊆ (handleLog lsn env lb minConfs).db.consumed := by
  unfold handleLog
  split
  · split
    · exact List.Subset.refl _
    · exact markLogAsConsumed_subset _ _ _
  · split
    · split
      · exact List.Subset.refl _
      · exact markLogAsConsumed_subset _ _ _
    · exact List.Subset.refl _

theorem step_grows (cfg : Config) (s : listenerV3 × List Event) (op : Op) :
    Grows s.1.db.consumed (enqueuedLogs s.2) (step cfg s op).1.db.consumed
      (enqueuedLogs (step cfg s op).2) := by
  cases op with
  | handleLog env lb minConfs =>
    exact Grows.of_subset _ (handleLog_markers_subset _ _ _ _)
  | processRequestsPerSub env A B reqs =>
    exact processRequestsPerSub_grows cfg s.1 env A B reqs s.2

theorem run_grows (cfg : Config) (ops : List Op) :
    ∀ s : listenerV3 × List Event,
      Grows s.1.db.consumed (enqueuedLogs s.2) (run cfg s ops).1.db.consumed
        (enqueuedLogs (run cfg s ops).2) := by
  induction ops with
  | nil => intro s; exact Grows.refl _ _
  | cons op ops ih =>
    intro s
    have h1 := step_grows cfg s op
    have h2 := ih (step cfg s op)
    simpa [run] using Grows.trans h1 h2

theorem run_append (cfg : Config) (s : listenerV3 × List Event) (ops1 ops2 : List Op) :
    run cfg s (ops1 ++ ops2) = run cfg (run cfg s ops1) ops2 := by
  simp [run, List.foldl_append]

theorem MaybeSubtractReservedLink_ok (db : DB) (queryErr ownFirst : Bool) (A : Nat)
    (B reserved : Int) (s : String)
    (hq : reservedLinkQuery db queryErr ownFirst A = some s)
    (hr : (s = "" ∧ reserved = 0) ∨ (s ≠ "" ∧ SetString10 s = some reserved)) :
    MaybeSubtractReservedLink db queryErr ownFirst A B = (B - reserved, none) := by
  unfold MaybeSubtractReservedLink subtractReservedLink
  rw [hq]
  rcases hr with ⟨h1, h2⟩ | ⟨h1, h2⟩
  · simp [h1, h2]
  · simp [h1, h2]

/-- In a loop over `pre ++ r :: post` whose part over `pre` runs to its end and whose
iteration for `r` hands over to the next request, the events about the position of `r`
are the ones of that iteration. -/
theorem requestLoop_events_at (cfg : Config) (env : Nat → IterEnv) (A : Nat)
    (pre post : List pendingRequest) (r : pendingRequest) (st0 st1 st2 : LoopState)
    (evs : List Event) (h0 : st0.events = [])
    (hpre : requestLoop cfg env A 0 pre st0 = (st1, Exit.completed))
    (hit : iteration cfg (env pre.length) A pre.length r st1 = (st2, Control.next))
    (hev : st2.events = st1.events ++ evs) :
    requestLoop cfg env A 0 (pre ++ r :: post) st0 =
        requestLoop cfg env A (pre.length + 1) post st2 ∧
      ∀ ev ∈ (requestLoop cfg env A 0 (pre ++ r :: post) st0).1.events,
        ev.index = pre.length → ev ∈ evs := by
  have hloop : requestLoop cfg env A 0 (pre ++ r :: post) st0 =
      requestLoop cfg env A (pre.length + 1) post st2 := by
    rw [requestLoop_append cfg env A pre (r :: post) 0 st0 st1 hpre, Nat.zero_add]
    exact requestLoop_cons_next cfg env A pre.length r post st1 st2 hit
  refine ⟨hloop, ?_⟩
  rw [hloop]
  obtain ⟨new1, hn1, hi1⟩ := requestLoop_events cfg env A pre 0 st0
  obtain ⟨new2, hn2, hi2⟩ := requestLoop_events cfg env A post (pre.length + 1) st2
  rw [hpre, h0] at hn1
  simp only [List.nil_append] at hn1
  rw [hn2, hev, hn1]
  intro ev hmem hidx
  simp only [List.mem_append] at hmem
  rcases hmem with (hmem | hmem) | hmem
  · have := (hi1 ev hmem).2
    omega
  · exact hmem
  · have := (hi2 ev hmem).1
    omega

theorem markLogAsConsumed_eth_txes (db : DB) (err : Bool) (lb : Broadcast) :
    (markLogAsConsumed db err lb).eth_txes = db.eth_txes := by
  unfold markLogAsConsumed MarkConsumed
  cases err <;> rfl

/-- Why `getMaxLinkForFulfillment` fails: `ExecuteRun` fails, the run has errors, or the
final result is not exactly one byte array. -/
theorem getMaxLinkForFulfillment_eq_none (executeRun : Option RunOutput) :
    getMaxLinkForFulfillment executeRun = none ↔
      executeRun = none ∨
        ∃ out, executeRun = some out ∧
          (out.hasError = true ∨ ∀ b bs, out.finalValues ≠ [Value.bytes b bs]) := by
  unfold getMaxLinkForFulfillment
  cases executeRun with
  | none => simp
  | some out =>
    obtain ⟨run, hasError, finalValues, trrs⟩ := out
    cases hasError with
    | true => simp
    | false =>
      simp only [Bool.false_eq_true, if_false, false_or, Option.some.injEq,
        exists_eq_left', reduceCtorEq]
      constructor
      · intro h b bs hv
        subst hv
        simp at h
      · intro h
        split
        · rename_i b bs
          exact absurd rfl (h b bs)
        · rfl

/-- Without overflow `getConfirmedAt` is `b + min(200, m * 2^k)`. -/
theorem getConfirmedAt_exact (respCount : List (Nat × Nat)) (req : RandomWordsRequested)
    (m : Nat) (h1 : m * 2 ^ mapGet respCount req.RequestId < 2 ^ 64)
    (h2 : req.BlockNumber + 200 < 2 ^ 64) :
    getConfirmedAt respCount req m
      = req.BlockNumber + min 200 (m * 2 ^ mapGet respCount req.RequestId) := by
  unfold getConfirmedAt mul64 shl1 add64 u64
  generalize mapGet respCount req.RequestId = k at *
  rcases Nat.eq_zero_or_pos m with hm | hm
  · subst hm
    simp
    omega
  · have hk : 2 ^ k < 2 ^ 64 := lt_of_le_of_lt (Nat.le_mul_of_pos_left _ hm) h1
    rw [Nat.mod_eq_of_lt hk, Nat.mod_eq_of_lt h1]
    by_cases h : m * 2 ^ k > 200
    · simp only [h, if_true]
      rw [Nat.mod_eq_of_lt h2, Nat.min_eq_left (le_of_lt h)]
    · simp only [h, if_false]
      have : m * 2 ^ k ≤ 200 := not_lt.mp h
      rw [Nat.min_eq_right this, Nat.mod_eq_of_lt (by omega)]

/-! ## C1: At most one fulfillment per log -/

/-- C1. At-most-once submission.  Start from any listener state with no pass run yet and
perform any sequence of `handleLog` and `processRequestsPerSub` calls, with any results
of the external calls and any number of deliveries of any log.  Then for every log `L`
at most one fulfillment transaction is committed for `L`, and once `L` is marked
consumed (after any beginning `ops1` of the sequence) no further transaction is
committed for it. -/
theorem at_most_once_submission (cfg : Config) (lsn0 : listenerV3) (ops1 ops2 : List Op)
    (L : Nat) :
    (enqueuedLogs (run cfg (lsn0, []) (ops1 ++ ops2)).2).count L ≤ 1 ∧
      (L ∈ (run cfg (lsn0, []) ops1).1.db.consumed →
        (enqueuedLogs (run cfg (lsn0, []) (ops1 ++ ops2)).2).count L =
          (enqueuedLogs (run cfg (lsn0, []) ops1).2).count L) := by
  rw [run_append]
  obtain ⟨hs1, n1, e1, nd1, m1⟩ := run_grows cfg ops1 (lsn0, [])
  obtain ⟨hs2, n2, e2, nd2, m2⟩ := run_grows cfg ops2 (run cfg (lsn0, []) ops1)
  have e1' : enqueuedLogs (run cfg (lsn0, []) ops1).2 = n1 := by
    simpa [enqueuedLogs] using e1
  constructor
  · have hnd : (n1 ++ n2).Nodup := by
      rw [List.nodup_append]
      exact ⟨nd1, nd2, fun x hx1 hx2 => (m2 x hx2).1 ((m1 x hx1).2)⟩
    rw [e2, e1']
    exact List.nodup_iff_count_le_one.mp hnd L
  · intro hL
    rw [e2, List.count_append]
    have : L ∉ n2 := fun h => (m2 L h).1 hL
    rw [List.count_eq_zero_of_not_mem this]
    rfl

/-- C1, at an instance: log 1 is delivered twice and enqueued by the first pass, which
marks it consumed; a third delivery and a second pass enqueue nothing more. -/
theorem at_most_once_submission_witness :
    1 ∈ (run exCfg (exLsn exDb [], []) exOps1).1.db.consumed ∧
      (enqueuedLogs (run exCfg (exLsn exDb [], []) (exOps1 ++ exOps2)).2).count 1 = 1 :=
  ⟨by decide, by
    rw [(at_most_once_submission exCfg (exLsn exDb []) exOps1 exOps2 1).2 (by decide)]
    decide⟩

/-! ## C2: Consumed logs in the router -/

/-- C2, refuted as stated: the log of the broadcast is marked consumed, and `handleLog`
still appends its request to the pending set. -/
theorem consumed_request_is_appended :
    (exLb 1 1 11).id ∈ (exLsn { exDb with consumed := [1] } []).db.consumed ∧
      (handleLog (exLsn { exDb with consumed := [1] } []) exHandleEnv (exLb 1 1 11) 3).reqs
        = [exPending 1 1 11] ∧
      (handleLog (exLsn { exDb with consumed := [1] } []) exHandleEnv (exLb 1 1 11) 3).reqs
        ≠ (exLsn { exDb with consumed := [1] } []).reqs := by
  decide

/-- C2, as amended.  For a broadcast whose log is already marked consumed, `handleLog`
changes nothing when the decoded log is a `RandomWordsFulfilled` and when the raw log
does not parse; when the raw log parses as a request, `handleLog` appends that request
to the pending set and changes nothing else. -/
theorem handleLog_consumed (lsn : listenerV3) (env : HandleEnv) (lb : Broadcast)
    (minConfs : Nat) (hc : lb.id ∈ lsn.db.consumed) :
    (∀ v, lb.decodedLog = DecodedLog.fulfilled v → handleLog lsn env lb minConfs = lsn) ∧
      (lb.decodedLog = DecodedLog.other → lb.parsed = none →
        handleLog lsn env lb minConfs = lsn) ∧
      (∀ req, lb.decodedLog = DecodedLog.other → lb.parsed = some req →
        handleLog lsn env lb minConfs =
          { lsn with
            reqs := lsn.reqs ++
              [{ confirmedAtBlock := getConfirmedAt lsn.respCount req minConfs
                 req := req
                 lb := lb }] }) := by
  have hs : shouldProcessLog lsn.db env.wasAlreadyConsumedErr lb = false := by
    unfold shouldProcessLog WasAlreadyConsumed
    cases env.wasAlreadyConsumedErr <;> simp [hc]
  refine ⟨?_, ?_, ?_⟩
  · intro v hv
    simp [handleLog, hv, hs]
  · intro hd hp
    simp [handleLog, hd, hp, hs]
  · intro req hd hp
    simp [handleLog, hd, hp]

/-- C2 as amended, at an instance: a consumed fulfillment log leaves the listener as it
is. -/
theorem handleLog_consumed_witness :
    handleLog (exLsn { exDb with consumed := [1] } [exPending 2 1 12]) exHandleEnv
        { id := 1
          decodedLog := DecodedLog.fulfilled { RequestId := 11, BlockNumber := 150 }
          parsed := none } 3
      = exLsn { exDb with consumed := [1] } [exPending 2 1 12] :=
  (handleLog_consumed (exLsn { exDb with consumed := [1] } [exPending 2 1 12]) exHandleEnv
    { id := 1
      decodedLog := DecodedLog.fulfilled { RequestId := 11, BlockNumber := 150 }
      parsed := none } 3 (by decide)).1 _ rfl

/-! ## C3: Confirmation depth -/

set_option maxRecDepth 100000 in
/-- C3, at the failing input: after 64 fulfillment logs for request 7 the counter is 64,
`1 << 64` is `0` on `uint64`, and a request 7 logged in block 200 with three base
confirmations is confirmed at block 200, where `b + min(200, m * 2^k)` is 400. -/
theorem getConfirmedAt_shift_overflow :
    mapGet (exFulfillments 7 64).respCount 7 = 64 ∧
      getConfirmedAt (exFulfillments 7 64).respCount
        { RequestId := 7, SubId := 1, BlockNumber := 200 } 3 = 200 ∧
      200 + min 200 (3 * 2 ^ 64) = 400 := by
  decide

/-! ## C4: Confirmation clamp -/

/-- C4, refuted as stated: with 300 base confirmations and no duplicate the depth is 200,
below the 300 the interval starts at. -/
theorem clamp_below_base_confirmations :
    getConfirmedAt [] (exReq 1 7) 300 - (exReq 1 7).BlockNumber = 200 ∧
      ¬ (300 ≤ getConfirmedAt [] (exReq 1 7) 300 - (exReq 1 7).BlockNumber ∧
        getConfirmedAt [] (exReq 1 7) 300 - (exReq 1 7).BlockNumber ≤ 200) := by
  decide

/-- C4, as amended.  When `baseConfs * 2^k` and `rawBlock + 200` fit in a `uint64`, the
value of `getConfirmedAt` minus the raw block number lies in
`[min(baseConfs, 200), 200]`. -/
theorem confirmation_clamp (respCount : List (Nat × Nat)) (req : RandomWordsRequested)
    (baseConfs : Nat) (h1 : baseConfs * 2 ^ mapGet respCount req.RequestId < 2 ^ 64)
    (h2 : req.BlockNumber + 200 < 2 ^ 64) :
    min baseConfs 200 ≤ getConfirmedAt respCount req baseConfs - req.BlockNumber ∧
      getConfirmedAt respCount req baseConfs - req.BlockNumber ≤ 200 := by
  rw [getConfirmedAt_exact respCount req baseConfs h1 h2, Nat.add_sub_cancel_left]
  have hp : 1 ≤ 2 ^ mapGet respCount req.RequestId := Nat.one_le_two_pow
  have hm : baseConfs ≤ baseConfs * 2 ^ mapGet respCount req.RequestId :=
    Nat.le_mul_of_pos_right _ hp
  constructor
  · exact le_min (min_le_right _ _) (le_trans (min_le_left _ _) hm)
  · exact min_le_left _ _

/-- C4 as amended, at the instance of the spec: counter 7 and 40 base confirmations add
200 blocks. -/
theorem confirmation_clamp_witness :
    getConfirmedAt [(7, 7)] (exReq 1 7) 40 - (exReq 1 7).BlockNumber = 200 ∧
      min 40 200 ≤ getConfirmedAt [(7, 7)] (exReq 1 7) 40 - (exReq 1 7).BlockNumber ∧
      getConfirmedAt [(7, 7)] (exReq 1 7) 40 - (exReq 1 7).BlockNumber ≤ 200 :=
  ⟨by decide, confirmation_clamp [(7, 7)] (exReq 1 7) 40 (by decide) (by decide)⟩

/-! ## C5: Budget monotonicity -/

/-- C5. Budget monotonicity.  When the reserved-budget query of a pass yields the amount
`reserved` (`0` for the empty string) and `reserved` is not negative, the running balance
at the end of the pass is `B - reserved - Σ maxLink` over the transactions enqueued in the
pass, so at most `B - Σ maxLink`; nothing else is subtracted. -/
theorem budget_monotonicity (cfg : Config) (lsn : listenerV3) (env : PassEnv) (A : Nat)
    (B reserved : Int) (reqs : List pendingRequest) (s : String)
    (hq : reservedLinkQuery lsn.db env.reservedQueryErr env.ownFirst A = some s)
    (hr : (s = "" ∧ reserved = 0) ∨ (s ≠ "" ∧ SetString10 s = some reserved))
    (h0 : 0 ≤ reserved) :
    (processRequestsPerSub cfg lsn env A B reqs).2.balance =
        B - reserved - (enqueuedCost (processRequestsPerSub cfg lsn env A B reqs).2.events : Int) ∧
      (processRequestsPerSub cfg lsn env A B reqs).2.balance ≤
        B - (enqueuedCost (processRequestsPerSub cfg lsn env A B reqs).2.events : Int) := by
  have hres := MaybeSubtractReservedLink_ok lsn.db env.reservedQueryErr env.ownFirst A B
    reserved s hq hr
  rw [processRequestsPerSub_eq cfg lsn env A B (B - reserved) reqs hres]
  have hb := requestLoop_balance cfg env.iter A reqs 0
    { db := lsn.db, startBalance := B - reserved, processed := [], events := [] }
  simp only [enqueuedCost, List.map_nil, List.sum_nil, Nat.cast_zero, add_zero] at hb
  simp only [enqueuedCost]
  constructor <;> omega

/-- C5, at an instance: sender 5 has 100 reserved, the balance is 1000 and the pass
enqueues one request of cost 600 before it breaks: the balance ends at 300. -/
theorem budget_monotonicity_witness :
    (processRequestsPerSub exCfg
        (exLsn { exDb with eth_txes := [{ exOtherTx with fromAddress := 5, MaxLink := some 100 }] }
          [])
        (exEnv (fun i => exIter (exCosts i))) 5 1000
        [exPending 1 1 11, exPending 2 1 12]).2.balance = 300 ∧
      (300 : Int) = 1000 - 100 - (enqueuedCost (processRequestsPerSub exCfg
        (exLsn { exDb with eth_txes := [{ exOtherTx with fromAddress := 5, MaxLink := some 100 }] }
          [])
        (exEnv (fun i => exIter (exCosts i))) 5 1000
        [exPending 1 1 11, exPending 2 1 12]).2.events : Int) := by
  have h := budget_monotonicity exCfg
    (exLsn { exDb with eth_txes := [{ exOtherTx with fromAddress := 5, MaxLink := some 100 }] }
      [])
    (exEnv (fun i => exIter (exCosts i))) 5 1000 100
    [exPending 1 1 11, exPending 2 1 12] "100" (by decide) (Or.inr ⟨by decide, by decide⟩)
    (by decide)
  refine ⟨by decide, ?_⟩
  rw [← h.1]
  decide

/-! ## C6: Reserved-budget subtraction -/

/-- C6, at the failing input: the only in-flight reservation, 600, belongs to sender 2;
for sender 1, who has none, the balance 1000 comes back as 400, in either order of the
result rows.  When sender 1 has a reservation of 100 as well, the query has two rows and
the balance comes back as 400 or as 900 with the order of the rows. -/
theorem MaybeSubtractReservedLink_counts_other_senders :
    sumMaxLink (({ exDb with eth_txes := [exOtherTx] }.eth_txes.filter inFlight).filter
        (fun t => t.fromAddress == 1)) = 0 ∧
      MaybeSubtractReservedLink { exDb with eth_txes := [exOtherTx] } false true 1 1000
        = (400, none) ∧
      MaybeSubtractReservedLink { exDb with eth_txes := [exOtherTx] } false false 1 1000
        = (400, none) ∧
      MaybeSubtractReservedLink
        { exDb with
          eth_txes := [exOtherTx, { exOtherTx with fromAddress := 1, MaxLink := some 100 }] }
        false true 1 1000 = (400, none) ∧
      MaybeSubtractReservedLink
        { exDb with
          eth_txes := [exOtherTx, { exOtherTx with fromAddress := 1, MaxLink := some 100 }] }
        false false 1 1000 = (900, none) := by
  decide

/-! ## C7: Ordered break -/

/-- C7. Ordered break.  In a pass over `pre ++ r :: post`, let the loop run over `pre` to
its end, and let `r` be simulated with a cost above the running balance.  Then the pass
ends there: the store, the balance and the processed keys are those reached after `pre`,
the only further events are the simulation of `r` and the break, no event is about a
position after `r`, whatever the requests of `post` would cost, and `r` and the requests
of `post` stay pending unless their request ID was processed before. -/
theorem ordered_break (cfg : Config) (lsn : listenerV3) (env : PassEnv) (A : Nat)
    (B E : Int) (pre post : List pendingRequest) (r : pendingRequest) (st1 : LoopState)
    (sim : Simulation)
    (hres : MaybeSubtractReservedLink lsn.db env.reservedQueryErr env.ownFirst A B
      = (E, none))
    (hpre : requestLoop cfg env.iter A 0 pre
      { db := lsn.db, startBalance := E, processed := [], events := [] }
      = (st1, Exit.completed))
    (hlog : shouldProcessLog st1.db (env.iter pre.length).wasAlreadyConsumedErr r.lb = true)
    (hf : alreadyFulfilled (env.iter pre.length).getCommitment = false)
    (hs : getMaxLinkForFulfillment (env.iter pre.length).executeRun = some sim)
    (hb : st1.startBalance < (sim.maxLink : Int)) :
    processRequestsPerSub cfg lsn env A B (pre ++ r :: post) =
        ({ lsn with
            db := st1.db
            reqs := (pre ++ r :: post).filter
              (fun req => !(st1.processed.contains req.req.RequestId)) },
          { exit := some Exit.broke
            balance := st1.startBalance
            processed := st1.processed
            events := st1.events ++
              [Event.simulate pre.length, Event.insufficient pre.length] }) ∧
      ∀ ev ∈ (processRequestsPerSub cfg lsn env A B (pre ++ r :: post)).2.events,
        ev.index ≤ pre.length := by
  have hloop : requestLoop cfg env.iter A 0 (pre ++ r :: post)
      { db := lsn.db, startBalance := E, processed := [], events := [] } =
      ({ st1 with events := st1.events ++
          [Event.simulate pre.length, Event.insufficient pre.length] }, Exit.broke) := by
    rw [requestLoop_append cfg env.iter A pre (r :: post) 0 _ st1 hpre, Nat.zero_add]
    exact requestLoop_cons_brk cfg env.iter A pre.length r post st1 _
      (iteration_insufficient cfg _ A pre.length r st1 sim hlog hf hs hb)
  have heq := processRequestsPerSub_eq cfg lsn env A B E (pre ++ r :: post) hres
  rw [hloop] at heq
  have heq' : processRequestsPerSub cfg lsn env A B (pre ++ r :: post) =
      ({ lsn with
          db := st1.db
          reqs := (pre ++ r :: post).filter
            (fun req => !(st1.processed.contains req.req.RequestId)) },
        { exit := some Exit.broke
          balance := st1.startBalance
          processed := st1.processed
          events := st1.events ++
            [Event.simulate pre.length, Event.insufficient pre.length] }) := by
    rw [heq]
    simp
  refine ⟨heq', ?_⟩
  rw [heq']
  obtain ⟨new, hn, hi⟩ := requestLoop_events cfg env.iter A pre 0
    { db := lsn.db, startBalance := E, processed := [], events := [] }
  rw [hpre] at hn
  simp only [List.nil_append] at hn
  intro ev hev
  simp only [List.mem_append, List.mem_cons, List.mem_singleton, List.not_mem_nil,
    or_false] at hev
  rcases hev with hev | hev | hev
  · rw [hn] at hev
    have := (hi ev hev).2
    omega
  · subst hev
    simp [Event.index]
  · subst hev
    simp [Event.index]

/-- C7, at the instance of the spec, with a third, cheaper request: balance 1000 and
costs 600, 500, 100.  The first is enqueued, the second breaks the loop at balance 400,
the third is never simulated although 100 is within the balance, and the second and
third stay pending. -/
theorem ordered_break_witness :
    (processRequestsPerSub exCfg
        (exLsn exDb [exPending 1 1 11, exPending 2 1 12, exPending 3 1 13])
        (exEnv (fun i => exIter (exCosts i))) 5 1000
        ([exPending 1 1 11] ++ exPending 2 1 12 :: [exPending 3 1 13])).2.events
        = [Event.simulate 0, Event.enqueue 0 1 600, Event.simulate 1, Event.insufficient 1] ∧
      (processRequestsPerSub exCfg
        (exLsn exDb [exPending 1 1 11, exPending 2 1 12, exPending 3 1 13])
        (exEnv (fun i => exIter (exCosts i))) 5 1000
        ([exPending 1 1 11] ++ exPending 2 1 12 :: [exPending 3 1 13])).2.balance = 400 ∧
      (processRequestsPerSub exCfg
        (exLsn exDb [exPending 1 1 11, exPending 2 1 12, exPending 3 1 13])
        (exEnv (fun i => exIter (exCosts i))) 5 1000
        ([exPending 1 1 11] ++ exPending 2 1 12 :: [exPending 3 1 13])).1.reqs
        = [exPending 2 1 12, exPending 3 1 13] := by
  have h := (ordered_break exCfg
    (exLsn exDb [exPending 1 1 11, exPending 2 1 12, exPending 3 1 13])
    (exEnv (fun i => exIter (exCosts i))) 5 1000 1000 [exPending 1 1 11] [exPending 3 1 13]
    (exPending 2 1 12) exAfterFirst (exSim 500) (by decide) (by decide) (by decide)
    (by decide) (by decide) (by decide)).1
  rw [h]
  decide

/-! ## C8: Requests already fulfilled on chain -/

/-- C8, refuted as stated: the commitment of the only request is zero and the write of
the consumed marker fails; the pass runs to its end and drops the request from the
pending set, and its log is not marked consumed. -/
theorem already_fulfilled_marker_write_fails :
    alreadyFulfilled exIterFulfilledWriteFails.getCommitment = true ∧
      (processRequestsPerSub exCfg (exLsn exDb [exPending 1 1 11])
        (exEnv (fun _ => exIterFulfilledWriteFails)) 5 1000 [exPending 1 1 11])
        = (exLsn exDb [],
            { exit := some Exit.completed
              balance := 1000
              processed := [11]
              events := [Event.markConsumed 0 1] }) ∧
      (exPending 1 1 11).lb.id ∉
        (processRequestsPerSub exCfg (exLsn exDb [exPending 1 1 11])
          (exEnv (fun _ => exIterFulfilledWriteFails)) 5 1000
          [exPending 1 1 11]).1.db.consumed := by
  decide

/-- C8, as amended.  In a pass over `pre ++ r :: post`, let the loop run over `pre` to its
end, let the log of `r` not be consumed and let `GetCommitment` succeed with an all-zero
value.  Then the iteration for `r` calls `markLogAsConsumed`, which puts the marker in
the store when its write succeeds, records the request as processed, leaves the
transaction table and the running balance as they were, and hands over to the next
request; no simulation and no enqueue happens for `r` in the pass; and when the pass
reaches its compaction, `r` is not in the pending set afterwards. -/
theorem already_fulfilled_on_chain (cfg : Config) (lsn : listenerV3) (env : PassEnv)
    (A : Nat) (B E : Int) (pre post : List pendingRequest) (r : pendingRequest)
    (st1 : LoopState) (callback : List Nat)
    (hres : MaybeSubtractReservedLink lsn.db env.reservedQueryErr env.ownFirst A B
      = (E, none))
    (hpre : requestLoop cfg env.iter A 0 pre
      { db := lsn.db, startBalance := E, processed := [], events := [] }
      = (st1, Exit.completed))
    (hlog : shouldProcessLog st1.db (env.iter pre.length).wasAlreadyConsumedErr r.lb = true)
    (hcb : (env.iter pre.length).getCommitment = some callback)
    (hz : IsEmpty callback = true) :
    iteration cfg (env.iter pre.length) A pre.length r st1 =
        ({ db := markLogAsConsumed st1.db (env.iter pre.length).markConsumedErr r.lb
           startBalance := st1.startBalance
           processed := r.req.RequestId :: st1.processed
           events := st1.events ++ [Event.markConsumed pre.length r.lb.id] },
          Control.next) ∧
      ((env.iter pre.length).markConsumedErr = false →
        r.lb.id ∈ (markLogAsConsumed st1.db (env.iter pre.length).markConsumedErr
          r.lb).consumed) ∧
      (markLogAsConsumed st1.db (env.iter pre.length).markConsumedErr r.lb).eth_txes =
        st1.db.eth_txes ∧
      (∀ ev ∈ (processRequestsPerSub cfg lsn env A B (pre ++ r :: post)).2.events,
        ev.index = pre.length → ev = Event.markConsumed pre.length r.lb.id) ∧
      ((processRequestsPerSub cfg lsn env A B (pre ++ r :: post)).2.exit
          ≠ some Exit.returned →
        r ∉ (processRequestsPerSub cfg lsn env A B (pre ++ r :: post)).1.reqs) := by
  have hf : alreadyFulfilled (env.iter pre.length).getCommitment = true := by
    simp [alreadyFulfilled, hcb, hz]
  have hit := iteration_fulfilled cfg (env.iter pre.length) A pre.length r st1 hlog hf
  obtain ⟨hloop, hevs⟩ := requestLoop_events_at cfg env.iter A pre post r
    { db := lsn.db, startBalance := E, processed := [], events := [] } st1 _
    [Event.markConsumed pre.length r.lb.id] rfl hpre hit rfl
  refine ⟨hit, ?_, markLogAsConsumed_eth_txes _ _ _, ?_, ?_⟩
  · intro hm
    rw [markLogAsConsumed_consumed, hm]
    simp
  · rw [processRequestsPerSub_eq cfg lsn env A B E (pre ++ r :: post) hres]
    intro ev hmem hidx
    exact List.mem_singleton.mp (hevs ev hmem hidx)
  · rw [processRequestsPerSub_eq cfg lsn env A B E (pre ++ r :: post) hres]
    simp only
    intro hex
    have hex' : (requestLoop cfg env.iter A 0 (pre ++ r :: post)
        { db := lsn.db, startBalance := E, processed := [], events := [] }).2
        ≠ Exit.returned := fun h => hex (by rw [h])
    rw [if_neg hex']
    have hp := requestLoop_processed cfg env.iter A post (pre.length + 1)
      { db := markLogAsConsumed st1.db (env.iter pre.length).markConsumedErr r.lb
        startBalance := st1.startBalance
        processed := r.req.RequestId :: st1.processed
        events := st1.events ++ [Event.markConsumed pre.length r.lb.id] }
    rw [← hloop] at hp
    have hin := hp (List.mem_cons_self _ _)
    intro hmem
    have := (List.mem_filter.mp hmem).2
    simp [hin] at this

/-- C8 as amended, at an instance: the second of two requests is found fulfilled on
chain; its log is marked, nothing is simulated or enqueued for it, and it leaves the
pending set. -/
theorem already_fulfilled_on_chain_witness :
    (exPending 2 1 12).lb.id ∈
        (markLogAsConsumed exAfterFirst.db false (exPending 2 1 12).lb).consumed ∧
      exPending 2 1 12 ∉
        (processRequestsPerSub exCfg (exLsn exDb [exPending 1 1 11, exPending 2 1 12])
          (exEnv (fun i => if i = 0 then exIter 600
            else { exIter 100 with getCommitment := some (List.replicate 32 0) }))
          5 1000 ([exPending 1 1 11] ++ exPending 2 1 12 :: [])).1.reqs := by
  have h := already_fulfilled_on_chain exCfg
    (exLsn exDb [exPending 1 1 11, exPending 2 1 12])
    (exEnv (fun i => if i = 0 then exIter 600
      else { exIter 100 with getCommitment := some (List.replicate 32 0) }))
    5 1000 1000 [exPending 1 1 11] [] (exPending 2 1 12) exAfterFirst (List.replicate 32 0)
    (by decide) (by decide) (by decide) (by decide) (by decide)
  exact ⟨h.2.1 (by decide), h.2.2.2.2 (by decide)⟩

/-! ## C9: Requests outside the list of a pass -/

/-- C9, at the failing input.  The pending set holds a confirmed request of subscription
1, a confirmed request of subscription 2 and a request of subscription 1 that is
confirmed only at block 500.  At tip 103 the pass for subscription 1 gets the first
request alone; `ExecuteRun` fails, so nothing is enqueued and nothing is marked
consumed.  After the pass the pending set holds the first request only. -/
theorem pass_drops_requests_outside_its_list :
    getConfirmedLogsBySub
        [exPending 1 1 11, exPending 2 2 12, { exPending 3 1 13 with confirmedAtBlock := 500 }]
        103
        = [(1, [exPending 1 1 11]), (2, [exPending 2 2 12])] ∧
      processRequestsPerSub exCfg
        (exLsn exDb
          [exPending 1 1 11, exPending 2 2 12,
            { exPending 3 1 13 with confirmedAtBlock := 500 }])
        (exEnv (fun _ => exIterRunFails)) 5 1000 [exPending 1 1 11]
        = (exLsn exDb [exPending 1 1 11],
            { exit := some Exit.completed
              balance := 1000
              processed := []
              events := [Event.simulate 0] }) := by
  decide

/-! ## C10: Transient failures -/

/-- C10, refuted as stated: two requests with the same request ID, from two logs.  The
simulation of the first fails, the second is enqueued; the pass runs to its end and the
first request is not in the pending set afterwards, while its log is not consumed. -/
theorem failed_request_dropped_with_its_duplicate :
    getMaxLinkForFulfillment exIterRunFails.executeRun = none ∧
      processRequestsPerSub exCfg (exLsn exDb [exPending 1 1 11, exPending 2 1 11])
        (exEnv (fun i => if i = 0 then exIterRunFails else exIter 100)) 5 1000
        [exPending 1 1 11, exPending 2 1 11]
        = (exLsn
            { consumed := [2]
              eth_txes := [newTx exCfg 5 (exPending 2 1 11) (exSim 100)]
              pipeline_runs := [0] } [],
            { exit := some Exit.completed
              balance := 900
              processed := [11]
              events := [Event.simulate 0, Event.simulate 1, Event.enqueue 1 2 100] }) ∧
      exPending 1 1 11 ∉
        (processRequestsPerSub exCfg (exLsn exDb [exPending 1 1 11, exPending 2 1 11])
          (exEnv (fun i => if i = 0 then exIterRunFails else exIter 100)) 5 1000
          [exPending 1 1 11, exPending 2 1 11]).1.reqs := by
  decide

/-- C10, as amended.  In a pass over `pre ++ r :: post`, let the loop run over `pre` to
its end, let the log of `r` not be consumed and `r` not be found fulfilled, and let the
simulation of `r` fail (`ExecuteRun` fails, the run has errors, the final result is not
exactly one byte array) or the database transaction fail.  Then the iteration for `r`
changes neither the store nor the running balance nor the processed keys and hands over
to the next request; the pass enqueues nothing and marks nothing for the position of
`r`; and when the pass reaches its compaction and recorded no request with the request
ID of `r` as processed, `r` is in the pending set afterwards. -/
theorem transient_failure_keeps_request (cfg : Config) (lsn : listenerV3) (env : PassEnv)
    (A : Nat) (B E : Int) (pre post : List pendingRequest) (r : pendingRequest)
    (st1 : LoopState)
    (hres : MaybeSubtractReservedLink lsn.db env.reservedQueryErr env.ownFirst A B
      = (E, none))
    (hpre : requestLoop cfg env.iter A 0 pre
      { db := lsn.db, startBalance := E, processed := [], events := [] }
      = (st1, Exit.completed))
    (hlog : shouldProcessLog st1.db (env.iter pre.length).wasAlreadyConsumedErr r.lb = true)
    (hf : alreadyFulfilled (env.iter pre.length).getCommitment = false)
    (hfail : (env.iter pre.length).executeRun = none ∨
      (∃ out, (env.iter pre.length).executeRun = some out ∧
        (out.hasError = true ∨ ∀ b bs, out.finalValues ≠ [Value.bytes b bs])) ∨
      (∃ sim, getMaxLinkForFulfillment (env.iter pre.length).executeRun = some sim ∧
        ¬ st1.startBalance < (sim.maxLink : Int) ∧
        ((env.iter pre.length).insertFinishedRunErr = true ∨
          (env.iter pre.length).txMarkConsumedErr = true ∨
          (env.iter pre.length).createEthTransactionErr = true ∨
          (env.iter pre.length).commitErr = true))) :
    iteration cfg (env.iter pre.length) A pre.length r st1 =
        ({ db := st1.db
           startBalance := st1.startBalance
           processed := st1.processed
           events := st1.events ++ [Event.simulate pre.length] }, Control.next) ∧
      (∀ ev ∈ (processRequestsPerSub cfg lsn env A B (pre ++ r :: post)).2.events,
        ev.index = pre.length → ev = Event.simulate pre.length) ∧
      ((processRequestsPerSub cfg lsn env A B (pre ++ r :: post)).2.exit
          ≠ some Exit.returned →
        r.req.RequestId ∉
          (processRequestsPerSub cfg lsn env A B (pre ++ r :: post)).2.processed →
        r ∈ (processRequestsPerSub cfg lsn env A B (pre ++ r :: post)).1.reqs) := by
  have hit : iteration cfg (env.iter pre.length) A pre.length r st1 =
      ({ st1 with events := st1.events ++ [Event.simulate pre.length] }, Control.next) := by
    rcases hfail with h | h | ⟨sim, hs, hb, ht⟩
    · exact iteration_simfail cfg _ A pre.length r st1 hlog hf
        ((getMaxLinkForFulfillment_eq_none _).mpr (Or.inl h))
    · exact iteration_simfail cfg _ A pre.length r st1 hlog hf
        ((getMaxLinkForFulfillment_eq_none _).mpr (Or.inr h))
    · exact iteration_txfail cfg _ A pre.length r st1 sim hlog hf hs hb
        (Transact_fulfillmentTx_none cfg _ A r sim st1.db ht)
  obtain ⟨_, hevs⟩ := requestLoop_events_at cfg env.iter A pre post r
    { db := lsn.db, startBalance := E, processed := [], events := [] } st1 _
    [Event.simulate pre.length] rfl hpre hit rfl
  refine ⟨hit, ?_, ?_⟩
  · rw [processRequestsPerSub_eq cfg lsn env A B E (pre ++ r :: post) hres]
    intro ev hmem hidx
    exact List.mem_singleton.mp (hevs ev hmem hidx)
  · rw [processRequestsPerSub_eq cfg lsn env A B E (pre ++ r :: post) hres]
    simp only
    intro hex hnp
    have hex' : (requestLoop cfg env.iter A 0 (pre ++ r :: post)
        { db := lsn.db, startBalance := E, processed := [], events := [] }).2
        ≠ Exit.returned := fun h => hex (by rw [h])
    rw [if_neg hex']
    apply List.mem_filter.mpr
    refine ⟨by simp, ?_⟩
    simpa using hnp

/-- C10 as amended, at an instance: the simulation of the first of two requests fails
and the second, with another request ID, is enqueued; the first is still pending. -/
theorem transient_failure_keeps_request_witness :
    exPending 1 1 11 ∈
      (processRequestsPerSub exCfg (exLsn exDb [exPending 1 1 11, exPending 2 1 12])
        (exEnv (fun i => if i = 0 then exIterRunFails else exIter 100)) 5 1000
        ([] ++ exPending 1 1 11 :: [exPending 2 1 12])).1.reqs :=
  (transient_failure_keeps_request exCfg (exLsn exDb [exPending 1 1 11, exPending 2 1 12])
    (exEnv (fun i => if i = 0 then exIterRunFails else exIter 100)) 5 1000 1000 []
    [exPending 2 1 12] (exPending 1 1 11)
    { db := exDb, startBalance := 1000, processed := [], events := [] }
    (by decide) (by decide) (by decide) (by decide) (Or.inl (by decide))).2.2
    (by decide) (by decide)

/-! ## Lemmas on the mailbox -/

theorem Mailbox.Deliver_capacity {α : Type} (m : Mailbox α) (x : α) :
    (m.Deliver x).1.capacity = m.capacity := by
  unfold Mailbox.Deliver
  simp only
  split <;> rfl

theorem Mailbox.Deliver_zero {α : Type} (m : Mailbox α) (x : α) (h : m.capacity = 0) :
    m.Deliver x = ({ m with queue := x :: m.queue }, false) := by
  unfold Mailbox.Deliver
  simp [h]

theorem Mailbox.Deliver_below {α : Type} (m : Mailbox α) (x : α)
    (h : m.queue.length < m.capacity) :
    m.Deliver x = ({ m with queue := x :: m.queue }, false) := by
  unfold Mailbox.Deliver
  have : ¬ ((x :: m.queue).length > m.capacity ∧ m.capacity > 0) := by
    simp only [List.length_cons]
    omega
  simp only [this, if_false]

theorem Mailbox.Deliver_full {α : Type} (m : Mailbox α) (x : α) (h0 : 0 < m.capacity)
    (h : m.capacity ≤ m.queue.length) :
    m.Deliver x = ({ m with queue := x :: m.queue.dropLast }, true) := by
  unfold Mailbox.Deliver
  have hc : (x :: m.queue).length > m.capacity ∧ m.capacity > 0 := by
    simp only [List.length_cons]
    omega
  have hne : m.queue ≠ [] := by
    intro he
    rw [he] at h
    simp at h
    omega
  simp only [hc, and_self, if_true]
  rw [List.dropLast_cons_of_ne_nil hne]

/-- Within the capacity, a delivery keeps the newest `capacity` items. -/
theorem Mailbox.Deliver_queue {α : Type} (m : Mailbox α) (x : α) (h0 : 0 < m.capacity)
    (h : m.queue.length ≤ m.capacity) :
    (m.Deliver x).1.queue = (x :: m.queue).take m.capacity := by
  rcases Nat.lt_or_ge m.queue.length m.capacity with hlt | hge
  · rw [Mailbox.Deliver_below m x hlt]
    simp only
    rw [List.take_of_length_le]
    simp only [List.length_cons]
    omega
  · rw [Mailbox.Deliver_full m x h0 hge]
    simp only
    have hlen : m.queue.length = m.capacity := Nat.le_antisymm h hge
    rw [List.dropLast_eq_take, hlen]
    cases hc : m.capacity with
    | zero => omega
    | succ c => simp

theorem List.take_append_take {α : Type} (n : Nat) (a b : List α) :
    (a ++ b.take n).take n = (a ++ b).take n := by
  rw [List.take_append_eq_append_take, List.take_append_eq_append_take, List.take_take]
  congr 2
  omega

theorem Mailbox.deliverAll_capacity {α : Type} (xs : List α) :
    ∀ m : Mailbox α, (m.deliverAll xs).capacity = m.capacity := by
  induction xs with
  | nil => intro m; rfl
  | cons x xs ih =>
    intro m
    simp only [Mailbox.deliverAll, List.foldl_cons]
    exact (ih (m.Deliver x).1).trans (Mailbox.Deliver_capacity m x)

theorem Mailbox.deliverAll_queue {α : Type} (xs : List α) :
    ∀ m : Mailbox α, 0 < m.capacity → m.queue.length ≤ m.capacity →
      (m.deliverAll xs).queue = (xs.reverse ++ m.queue).take m.capacity := by
  induction xs with
  | nil =>
    intro m _ h
    simp [Mailbox.deliverAll, List.take_of_length_le h]
  | cons x xs ih =>
    intro m h0 h
    have hq := Mailbox.Deliver_queue m x h0 h
    have hc := Mailbox.Deliver_capacity m x
    have := ih (m.Deliver x).1 (by rw [hc]; exact h0)
      (by rw [hq, hc]; simp [List.length_take])
    simp only [Mailbox.deliverAll, List.foldl_cons] at this ⊢
    rw [this, hq, hc, List.take_append_take]
    simp

theorem Mailbox.deliverAll_queue_zero {α : Type} (xs : List α) :
    ∀ m : Mailbox α, m.capacity = 0 → (m.deliverAll xs).queue = xs.reverse ++ m.queue := by
  induction xs with
  | nil => intro m _; simp [Mailbox.deliverAll]
  | cons x xs ih =>
    intro m h
    have := ih (m.Deliver x).1 (by rw [Mailbox.Deliver_capacity]; exact h)
    simp only [Mailbox.deliverAll, List.foldl_cons] at this ⊢
    rw [this, Mailbox.Deliver_zero m x h]
    simp

theorem Mailbox.Retrieve_nil {α : Type} (m : Mailbox α) (h : m.queue = []) :
    m.Retrieve = (none, m) := by
  unfold Mailbox.Retrieve
  simp [h]

theorem Mailbox.Retrieve_concat {α : Type} (m : Mailbox α) (q : List α) (x : α)
    (h : m.queue = q ++ [x]) : m.Retrieve = (some x, { m with queue := q }) := by
  unfold Mailbox.Retrieve
  simp [h]

/-- With more fuel than items, the consumer loop returns the queue from the oldest to the
newest item and leaves it empty. -/
theorem Mailbox.drain_spec {α : Type} :
    ∀ (fuel : Nat) (m : Mailbox α), m.queue.length < fuel →
      Mailbox.drain fuel m = (m.queue.reverse, { m with queue := [] }) := by
  intro fuel
  induction fuel with
  | zero => intro m h; omega
  | succ fuel ih =>
    intro m h
    rcases List.eq_nil_or_concat m.queue with hq | ⟨q, x, hq⟩
    · simp only [Mailbox.drain, Mailbox.Retrieve_nil m hq, hq, List.reverse_nil]
      cases m
      simp_all
    · rw [List.concat_eq_append] at hq
      have hlen : ({ m with queue := q } : Mailbox α).queue.length < fuel := by
        rw [hq] at h
        simp at h
        simpa using h
      simp only [Mailbox.drain, Mailbox.Retrieve_concat m q x hq, ih _ hlen, hq]
      simp

/-- The queue is always the newest deliveries, newest first: reversed, it ends the list
of the items delivered so far. -/
theorem Mailbox.applyAll_suffix {α : Type} (ops : List (MailboxOp α)) :
    ∀ s : Mailbox α × List α, (∃ a, s.2 = a ++ s.1.queue.reverse) →
      ∃ a, (Mailbox.applyAll s ops).2 = a ++ (Mailbox.applyAll s ops).1.queue.reverse := by
  induction ops with
  | nil => intro s h; exact h
  | cons op ops ih =>
    intro s h
    simp only [Mailbox.applyAll, List.foldl_cons]
    apply ih
    obtain ⟨a, ha⟩ := h
    cases op with
    | deliver x =>
      simp only [Mailbox.apply]
      by_cases hc : (x :: s.1.queue).length > s.1.capacity ∧ s.1.capacity > 0
      · have h0 : 0 < s.1.capacity := hc.2
        have hge : s.1.capacity ≤ s.1.queue.length := by
          have := hc.1
          simp only [List.length_cons] at this
          omega
        rw [Mailbox.Deliver_full s.1 x h0 hge]
        rcases List.eq_nil_or_concat s.1.queue with hq | ⟨q, o, hq⟩
        · rw [hq] at hge
          simp at hge
          omega
        · rw [List.concat_eq_append] at hq
          refine ⟨a ++ [o], ?_⟩
          rw [ha, hq]
          simp
      · have hd : s.1.Deliver x = ({ s.1 with queue := x :: s.1.queue }, false) := by
          unfold Mailbox.Deliver
          simp only [hc, if_false]
        rw [hd]
        exact ⟨a, by rw [ha]; simp⟩
    | retrieve =>
      simp only [Mailbox.apply]
      rcases List.eq_nil_or_concat s.1.queue with hq | ⟨q, o, hq⟩
      · rw [Mailbox.Retrieve_nil s.1 hq]
        exact ⟨a, ha⟩
      · rw [List.concat_eq_append] at hq
        rw [Mailbox.Retrieve_concat s.1 q o hq]
        refine ⟨a ++ [o], ?_⟩
        rw [ha, hq]
        simp
    | retrieveLatestAndClear =>
      simp only [Mailbox.apply, Mailbox.RetrieveLatestAndClear]
      split
      · exact ⟨a, ha⟩
      · exact ⟨s.2, by simp⟩

theorem Mailbox.apply_bound {α : Type} (s : Mailbox α × List α) (op : MailboxOp α)
    (h0 : 0 < s.1.capacity) (h : s.1.queue.length ≤ s.1.capacity) :
    (Mailbox.apply s op).1.capacity = s.1.capacity ∧
      (Mailbox.apply s op).1.queue.length ≤ s.1.capacity := by
  cases op with
  | deliver x =>
    simp only [Mailbox.apply]
    refine ⟨Mailbox.Deliver_capacity s.1 x, ?_⟩
    rw [Mailbox.Deliver_queue s.1 x h0 h, List.length_take]
    exact Nat.min_le_left _ _
  | retrieve =>
    simp only [Mailbox.apply, Mailbox.Retrieve]
    split
    · exact ⟨rfl, h⟩
    · refine ⟨rfl, ?_⟩
      simp only [List.length_dropLast]
      omega
  | retrieveLatestAndClear =>
    simp only [Mailbox.apply, Mailbox.RetrieveLatestAndClear]
    split
    · exact ⟨rfl, h⟩
    · exact ⟨rfl, by simp⟩

theorem Mailbox.applyAll_bound {α : Type} (ops : List (MailboxOp α)) :
    ∀ s : Mailbox α × List α, 0 < s.1.capacity → s.1.queue.length ≤ s.1.capacity →
      (Mailbox.applyAll s ops).1.capacity = s.1.capacity ∧
        (Mailbox.applyAll s ops).1.queue.length ≤ s.1.capacity := by
  induction ops with
  | nil => intro s _ h; exact ⟨rfl, h⟩
  | cons op ops ih =>
    intro s h0 h
    obtain ⟨hc, hl⟩ := Mailbox.apply_bound s op h0 h
    have := ih (Mailbox.apply s op) (by rw [hc]; exact h0) (by rw [hc]; exact hl)
    simp only [Mailbox.applyAll, List.foldl_cons] at this ⊢
    rw [hc] at this
    exact this

/-! ## Lemmas on the tracker and the router -/

theorem FindMin_eq_none (heap : List fulfilledReqV2) : FindMin heap = none ↔ heap = [] := by
  cases heap with
  | nil => simp [FindMin]
  | cons x xs =>
    simp only [FindMin, reduceCtorEq, iff_false]
    split
    · simp
    · split <;> simp

theorem FindMin_spec :
    ∀ (heap : List fulfilledReqV2) (m : fulfilledReqV2), FindMin heap = some m →
      m ∈ heap ∧ ∀ x ∈ heap, m.blockNumber ≤ x.blockNumber := by
  intro heap
  induction heap with
  | nil => intro m h; simp [FindMin] at h
  | cons y ys ih =>
    intro m h
    simp only [FindMin] at h
    cases hm : FindMin ys with
    | none =>
      rw [hm] at h
      simp only [Option.some.injEq] at h
      subst h
      have : ys = [] := (FindMin_eq_none ys).mp hm
      subst this
      simp
    | some m' =>
      rw [hm] at h
      obtain ⟨hmem, hle⟩ := ih m' hm
      by_cases hc : y.blockNumber ≤ m'.blockNumber
      · simp only [hc, if_true, Option.some.injEq] at h
        subst h
        refine ⟨List.mem_cons_self _ _, ?_⟩
        intro x hx
        rcases List.mem_cons.mp hx with hx | hx
        · rw [hx]
        · exact le_trans hc (hle x hx)
      · simp only [hc, if_false, Option.some.injEq] at h
        subst h
        refine ⟨List.mem_cons_of_mem _ hmem, ?_⟩
        intro x hx
        rcases List.mem_cons.mp hx with hx | hx
        · rw [hx]
          omega
        · exact hle x hx

theorem DeleteMin_of_FindMin (heap : List fulfilledReqV2) (m : fulfilledReqV2)
    (h : FindMin heap = some m) : DeleteMin heap = heap.erase m := by
  simp [DeleteMin, h]

theorem mapKeys_mapDelete (m : List (Nat × Nat)) (k j : Nat) :
    j ∈ mapKeys (mapDelete m k) ↔ j ∈ mapKeys m ∧ j ≠ k := by
  simp only [mapKeys, mapDelete, List.mem_map, List.mem_filter, bne_iff_ne, ne_eq]
  constructor
  · rintro ⟨p, ⟨hp, hne⟩, rfl⟩
    exact ⟨⟨p, hp, rfl⟩, hne⟩
  · rintro ⟨⟨p, hp, rfl⟩, hne⟩
    exact ⟨p, ⟨hp, hne⟩, rfl⟩

/-- What the loop of `pruneConfirmedRequestCounts` does for any readings of the head: it
touches neither the pending set nor the store, it only removes items from the heap and
keys from `respCount`, and the key of every removed item is removed. -/
theorem pruneLoop_frame (heads : Nat → Option Nat) :
    ∀ (fuel i : Nat) (lsn : listenerV3),
      (pruneLoop heads fuel i lsn).reqs = lsn.reqs ∧
      (pruneLoop heads fuel i lsn).db = lsn.db ∧
      (∀ k, k ∈ mapKeys (pruneLoop heads fuel i lsn).respCount → k ∈ mapKeys lsn.respCount) ∧
      (∀ x, (pruneLoop heads fuel i lsn).blockNumberToReqID.count x
        ≤ lsn.blockNumberToReqID.count x) ∧
      (∀ x, (pruneLoop heads fuel i lsn).blockNumberToReqID.count x
          < lsn.blockNumberToReqID.count x →
        x.reqID ∉ mapKeys (pruneLoop heads fuel i lsn).respCount) := by
  intro fuel
  induction fuel with
  | zero =>
    intro i lsn
    simp [pruneLoop]
  | succ fuel ih =>
    intro i lsn
    simp only [pruneLoop]
    cases hm : FindMin lsn.blockNumberToReqID with
    | none => simp
    | some m =>
      simp only
      split
      · simp
      · rw [DeleteMin_of_FindMin _ _ hm]
        obtain ⟨h1, h2, h3, h4, h5⟩ := ih (i + 1)
          { lsn with
            respCount := mapDelete lsn.respCount m.reqID
            blockNumberToReqID := lsn.blockNumberToReqID.erase m }
        simp only at h1 h2 h3 h4 h5
        refine ⟨h1, h2, ?_, ?_, ?_⟩
        · intro k hk
          exact ((mapKeys_mapDelete _ _ _).mp (h3 k hk)).1
        · intro x
          exact le_trans (h4 x) (List.Sublist.count_le (List.erase_sublist _ _) _)
        · intro x hx
          by_cases hlt : (pruneLoop heads fuel (i + 1)
              { lsn with
                respCount := mapDelete lsn.respCount m.reqID
                blockNumberToReqID := lsn.blockNumberToReqID.erase m }).blockNumberToReqID.count x
              < (lsn.blockNumberToReqID.erase m).count x
          · exact h5 x hlt
          · have hxm : x = m := by
              by_contra hne
              rw [List.count_erase_of_ne hne] at hlt
              exact hlt hx
            subst hxm
            intro hk
            exact ((mapKeys_mapDelete _ _ _).mp (h3 _ hk)).2 rfl

/-- With a threshold `T` that stays the same, and fuel for every item, the loop ends
with every item of the heap above `T`, and it removes no item above `T`. -/
theorem pruneLoop_threshold (heads : Nat → Option Nat) (T : Nat)
    (hT : ∀ i, sub64 (getLatestHead (heads i)) 10000 = T) :
    ∀ (fuel i : Nat) (lsn : listenerV3),
      (lsn.blockNumberToReqID.length ≤ fuel →
        ∀ x ∈ (pruneLoop heads fuel i lsn).blockNumberToReqID, T < x.blockNumber) ∧
      (∀ x, T < x.blockNumber →
        (pruneLoop heads fuel i lsn).blockNumberToReqID.count x
          = lsn.blockNumberToReqID.count x) := by
  intro fuel
  induction fuel with
  | zero =>
    intro i lsn
    refine ⟨?_, fun _ _ => rfl⟩
    intro hlen x hx
    simp only [pruneLoop] at hx
    have : lsn.blockNumberToReqID = [] := List.eq_nil_of_length_eq_zero (by omega)
    rw [this] at hx
    simp at hx
  | succ fuel ih =>
    intro i lsn
    simp only [pruneLoop]
    cases hm : FindMin lsn.blockNumberToReqID with
    | none =>
      have : lsn.blockNumberToReqID = [] := (FindMin_eq_none _).mp hm
      simp [this]
    | some m =>
      obtain ⟨hmem, hmin⟩ := FindMin_spec _ _ hm
      simp only [hT]
      split
      · rename_i hgt
        refine ⟨?_, fun _ _ => rfl⟩
        intro _ x hx
        exact lt_of_lt_of_le hgt (hmin x hx)
      · rename_i hle
        rw [DeleteMin_of_FindMin _ _ hm]
        obtain ⟨h1, h2⟩ := ih (i + 1)
          { lsn with
            respCount := mapDelete lsn.respCount m.reqID
            blockNumberToReqID := lsn.blockNumberToReqID.erase m }
        simp only at h1 h2
        constructor
        · intro hlen
          apply h1
          rw [List.length_erase_of_mem hmem]
          omega
        · intro x hx
          rw [h2 x hx]
          have hne : x ≠ m := by
            intro he
            rw [he] at hx
            exact hle hx
          exact List.count_erase_of_ne hne _

theorem sub64_of_le (t : Nat) (ht : t < u64) (h : 10000 ≤ t) : sub64 t 10000 = t - 10000 := by
  unfold sub64 u64 at *
  norm_num at *
  omega

/-- The loop ends within the fuel `pruneConfirmedRequestCounts` gives it: more fuel
changes nothing. -/
theorem pruneLoop_fuel (heads : Nat → Option Nat) :
    ∀ (fuel i : Nat) (lsn : listenerV3), lsn.blockNumberToReqID.length ≤ fuel →
      pruneLoop heads (fuel + 1) i lsn = pruneLoop heads fuel i lsn := by
  intro fuel
  induction fuel with
  | zero =>
    intro i lsn h
    have : lsn.blockNumberToReqID = [] := List.eq_nil_of_length_eq_zero (by omega)
    simp [pruneLoop, this, FindMin]
  | succ fuel ih =>
    intro i lsn h
    rw [pruneLoop]
    conv => rhs; rw [pruneLoop]
    cases hm : FindMin lsn.blockNumberToReqID with
    | none => rfl
    | some m =>
      simp only
      split
      · rfl
      · apply ih
        simp only
        rw [DeleteMin_of_FindMin _ _ hm, List.length_erase_of_mem (FindMin_spec _ _ hm).1]
        omega

/-- For a tip `t` of at least 10000 the markers above `t - 10000` stay in the heap. -/
theorem pruning_keeps_newer (lsn : listenerV3) (t : Nat) (ht : t < u64) (h : 10000 ≤ t)
    (x : fulfilledReqV2) (hx : t - 10000 < x.blockNumber) :
    (pruneConfirmedRequestCounts (fun _ => some t) lsn).blockNumberToReqID.count x =
      lsn.blockNumberToReqID.count x :=
  (pruneLoop_threshold (fun _ => some t) (t - 10000)
    (fun _ => sub64_of_le t ht h) lsn.blockNumberToReqID.length 0 lsn).2 x hx

theorem lookup_mapDelete (m : List (Nat × Nat)) (k j : Nat) :
    (mapDelete m k).lookup j = if j = k then none else m.lookup j := by
  induction m with
  | nil => simp [mapDelete]
  | cons p m ih =>
    obtain ⟨a, b⟩ := p
    simp only [mapDelete] at ih ⊢
    by_cases hak : a = k
    · subst hak
      simp only [List.filter_cons, bne_self_eq_false, Bool.false_eq_true, if_false, ih,
        List.lookup_cons]
      by_cases hj : j = a
      · simp [hj]
      · have : (j == a) = false := by simpa using hj
        simp [hj, this]
    · have hne : (a != k) = true := by simpa using hak
      simp only [List.filter_cons, hne, if_true, List.lookup_cons, ih]
      by_cases hj : j = k
      · subst hj
        have : (j == a) = false := by
          simp only [beq_eq_false_iff_ne, ne_eq]
          intro h
          exact hak h.symm
        simp [this]
      · simp [hj]

theorem mapGet_mapSet (m : List (Nat × Nat)) (k v j : Nat) :
    mapGet (mapSet m k v) j = if j = k then v else mapGet m j := by
  unfold mapGet mapSet
  by_cases hj : j = k
  · simp [hj, List.lookup_cons]
  · have : (j == k) = false := by simpa using hj
    simp [hj, List.lookup_cons, this, lookup_mapDelete]

theorem shouldProcessLog_eq_false (db : DB) (err : Bool) (lb : Broadcast) :
    shouldProcessLog db err lb = false ↔ err = true ∨ lb.id ∈ db.consumed := by
  unfold shouldProcessLog WasAlreadyConsumed
  cases err <;> simp

/-! ## Lemmas on the partition and the order of a pass -/

theorem lookup_appendAt (k s : Nat) (r : pendingRequest) :
    ∀ m : List (Nat × List pendingRequest),
      (appendAt m k r).lookup s =
        if s = k then some ((m.lookup k).getD [] ++ [r]) else m.lookup s := by
  intro m
  induction m with
  | nil =>
    by_cases hs : s = k
    · simp [appendAt, hs, List.lookup_cons]
    · have : (s == k) = false := by simpa using hs
      simp [appendAt, hs, List.lookup_cons, this]
  | cons p m ih =>
    obtain ⟨a, l⟩ := p
    simp only [appendAt]
    by_cases hak : a = k
    · subst hak
      simp only [if_true, List.lookup_cons, beq_self_eq_true, Option.getD_some]
      by_cases hs : s = a
      · simp [hs]
      · have : (s == a) = false := by simpa using hs
        simp [hs, this]
    · have hka : (k == a) = false := by
        simp only [beq_eq_false_iff_ne, ne_eq]
        exact fun h => hak h.symm
      simp only [hak, if_false, List.lookup_cons, ih, hka]
      by_cases hs : s = k
      · subst hs
        simp [hka]
      · simp [hs]

theorem appendAt_nonempty (k : Nat) (r : pendingRequest) :
    ∀ m : List (Nat × List pendingRequest), (∀ p ∈ m, p.2 ≠ []) →
      ∀ p ∈ appendAt m k r, p.2 ≠ [] := by
  intro m
  induction m with
  | nil =>
    intro _ p hp
    simp only [appendAt, List.mem_singleton] at hp
    subst hp
    simp
  | cons q m ih =>
    obtain ⟨a, l⟩ := q
    intro h p hp
    simp only [appendAt] at hp
    split at hp
    · rcases List.mem_cons.mp hp with hp | hp
      · subst hp
        simp
      · exact h p (List.mem_cons_of_mem _ hp)
    · rcases List.mem_cons.mp hp with hp | hp
      · subst hp
        exact h _ (List.mem_cons_self _ _)
      · exact ih (fun p hp => h p (List.mem_cons_of_mem _ hp)) p hp

theorem appendAt_keys (k : Nat) (r : pendingRequest) :
    ∀ m : List (Nat × List pendingRequest),
      (appendAt m k r).map (fun p => p.1) =
        if k ∈ m.map (fun p => p.1) then m.map (fun p => p.1)
        else m.map (fun p => p.1) ++ [k] := by
  intro m
  induction m with
  | nil => simp [appendAt]
  | cons q m ih =>
    obtain ⟨a, l⟩ := q
    simp only [appendAt]
    by_cases hak : a = k
    · subst hak
      simp
    · have hka : ¬ k = a := fun h => hak h.symm
      simp only [hak, if_false, List.map_cons, ih, List.mem_cons, hka, false_or]
      split <;> simp

theorem appendAt_nodup (k : Nat) (r : pendingRequest) (m : List (Nat × List pendingRequest))
    (h : (m.map (fun p => p.1)).Nodup) : ((appendAt m k r).map (fun p => p.1)).Nodup := by
  rw [appendAt_keys]
  split
  · exact h
  · rename_i hk
    rw [List.nodup_append]
    exact ⟨h, List.nodup_singleton _, by
      intro x hx hx'
      rw [List.mem_singleton] at hx'
      subst hx'
      exact hk hx⟩

/-- The fold of `getConfirmedLogsBySub` from any map `acc`. -/
theorem getConfirmedLogsBySub_fold (latestHead s : Nat) :
    ∀ (reqs : List pendingRequest) (acc : List (Nat × List pendingRequest)),
      (reqs.foldl
        (fun toProcess r =>
          if r.confirmedAtBlock ≤ latestHead then appendAt toProcess r.req.SubId r
          else toProcess) acc).lookup s =
        (if reqs.filter (eligible s latestHead) = [] then acc.lookup s
          else some ((acc.lookup s).getD [] ++ reqs.filter (eligible s latestHead))) ∧
      ((∀ p ∈ acc, p.2 ≠ []) →
        ∀ p ∈ reqs.foldl
          (fun toProcess r =>
            if r.confirmedAtBlock ≤ latestHead then appendAt toProcess r.req.SubId r
            else toProcess) acc, p.2 ≠ []) ∧
      ((acc.map (fun p => p.1)).Nodup →
        ((reqs.foldl
          (fun toProcess r =>
            if r.confirmedAtBlock ≤ latestHead then appendAt toProcess r.req.SubId r
            else toProcess) acc).map (fun p => p.1)).Nodup) := by
  intro reqs
  induction reqs with
  | nil => intro acc; simp
  | cons r rs ih =>
    intro acc
    simp only [List.foldl_cons]
    obtain ⟨h1, h2, h3⟩ := ih
      (if r.confirmedAtBlock ≤ latestHead then appendAt acc r.req.SubId r else acc)
    refine ⟨?_, ?_, ?_⟩
    · rw [h1]
      by_cases hc : r.confirmedAtBlock ≤ latestHead
      · by_cases hs : r.req.SubId = s
        · have he : eligible s latestHead r = true := by simp [eligible, hc, hs]
          simp only [hc, if_true, lookup_appendAt, hs, List.filter_cons, he,
            Option.getD_some, reduceCtorEq, if_false]
          split <;> simp_all
        · have he : eligible s latestHead r = false := by simp [eligible, hs]
          have hs' : ¬ s = r.req.SubId := fun h => hs h.symm
          simp only [hc, if_true, lookup_appendAt, hs', if_false, List.filter_cons, he,
            Bool.false_eq_true]
      · have he : eligible s latestHead r = false := by simp [eligible, hc]
        simp only [hc, if_false, List.filter_cons, he, Bool.false_eq_true]
    · intro hacc
      apply h2
      split
      · exact appendAt_nonempty _ _ _ hacc
      · exact hacc
    · intro hacc
      apply h3
      split
      · exact appendAt_nodup _ _ _ hacc
      · exact hacc

theorem simulated_append (a b : List Event) :
    simulated (a ++ b) = simulated a ++ simulated b := by
  simp [simulated]

/-- The simulations of an iteration: none, or the one at its position. -/
theorem iteration_simulated (cfg : Config) (e : IterEnv) (A i : Nat) (req : pendingRequest)
    (st : LoopState) :
    ∃ new, (iteration cfg e A i req st).1.events = st.events ++ new ∧
      (simulated new = [] ∨ simulated new = [i]) := by
  have hc := iteration_cases cfg e A i req st
  generalize iteration cfg e A i req st = res at hc ⊢
  cases hc with
  | ret h => exact ⟨[], by simp, Or.inl rfl⟩
  | fulfilled h hf => exact ⟨_, rfl, Or.inl rfl⟩
  | skipped h hf hs => exact ⟨_, rfl, Or.inr rfl⟩
  | insufficient sim h hf hs hb => exact ⟨_, rfl, Or.inr rfl⟩
  | enqueue sim h hf hs hb ht => exact ⟨_, rfl, Or.inr rfl⟩

/-- The loop simulates at strictly increasing positions of its list. -/
theorem requestLoop_simulated (cfg : Config) (env : Nat → IterEnv) (A : Nat) :
    ∀ (reqs : List pendingRequest) (i : Nat) (st : LoopState),
      ∃ new, (requestLoop cfg env A i reqs st).1.events = st.events ++ new ∧
        (simulated new).Pairwise (fun a b => a < b) ∧
        ∀ j ∈ simulated new, i ≤ j ∧ j < i + reqs.length := by
  intro reqs
  induction reqs with
  | nil => intro i st; exact ⟨[], by simp [requestLoop_nil], by simp [simulated], by simp [simulated]⟩
  | cons r rest ih =>
    intro i st
    obtain ⟨new1, h1, hs1⟩ := iteration_simulated cfg (env i) A i r st
    have hp1 : (simulated new1).Pairwise (fun a b => a < b) := by
      rcases hs1 with h | h <;> rw [h] <;> simp
    have hb1 : ∀ j ∈ simulated new1, i ≤ j ∧ j < i + (r :: rest).length := by
      intro j hj
      rcases hs1 with h | h
      · rw [h] at hj
        simp at hj
      · rw [h, List.mem_singleton] at hj
        subst hj
        simp
    have hi1 : ∀ j ∈ simulated new1, j = i := by
      intro j hj
      rcases hs1 with h | h
      · rw [h] at hj
        simp at hj
      · rw [h, List.mem_singleton] at hj
        exact hj
    cases hit : iteration cfg (env i) A i r st with
    | mk st' c =>
      rw [hit] at h1
      cases c with
      | next =>
        rw [requestLoop_cons_next cfg env A i r rest st st' hit]
        obtain ⟨new2, h2, hp2, hb2⟩ := ih (i + 1) st'
        refine ⟨new1 ++ new2, ?_, ?_, ?_⟩
        · rw [h2, h1, List.append_assoc]
        · rw [simulated_append, List.pairwise_append]
          refine ⟨hp1, hp2, ?_⟩
          intro a ha b hb
          have := hi1 a ha
          have := (hb2 b hb).1
          omega
        · intro j hj
          rw [simulated_append] at hj
          rcases List.mem_append.mp hj with hj | hj
          · exact hb1 j hj
          · have := hb2 j hj
            simp only [List.length_cons]
            omega
      | brk =>
        rw [requestLoop_cons_brk cfg env A i r rest st st' hit]
        exact ⟨new1, h1, hp1, hb1⟩
      | ret =>
        rw [requestLoop_cons_ret cfg env A i r rest st st' hit]
        exact ⟨new1, h1, hp1, hb1⟩

theorem mem_simulated (events : List Event) (j : Nat) :
    j ∈ simulated events ↔ Event.simulate j ∈ events := by
  simp only [simulated, List.mem_filterMap]
  constructor
  · rintro ⟨ev, hev, h⟩
    cases ev <;> simp at h
    subst h
    exact hev
  · intro h
    exact ⟨_, h, rfl⟩

/-- The loop over `pre ++ post` ends where the loop over `pre` ends, when that one
does not run to its end. -/
theorem requestLoop_append_stop (cfg : Config) (env : Nat → IterEnv) (A : Nat)
    (pre post : List pendingRequest) :
    ∀ (i : Nat) (st st1 : LoopState) (ex : Exit),
      requestLoop cfg env A i pre st = (st1, ex) → ex ≠ Exit.completed →
      requestLoop cfg env A i (pre ++ post) st = (st1, ex) := by
  induction pre with
  | nil =>
    intro i st st1 ex h hne
    rw [requestLoop_nil] at h
    cases h
    exact absurd rfl hne
  | cons r pre ih =>
    intro i st st1 ex h hne
    cases hit : iteration cfg (env i) A i r st with
    | mk st' c =>
      cases c with
      | next =>
        rw [requestLoop_cons_next cfg env A i r pre st st' hit] at h
        rw [List.cons_append, requestLoop_cons_next cfg env A i r (pre ++ post) st st' hit]
        exact ih (i + 1) st' st1 ex h hne
      | brk =>
        rw [requestLoop_cons_brk cfg env A i r pre st st' hit] at h
        rw [List.cons_append, requestLoop_cons_brk cfg env A i r (pre ++ post) st st' hit]
        exact h
      | ret =>
        rw [requestLoop_cons_ret cfg env A i r pre st st' hit] at h
        rw [List.cons_append, requestLoop_cons_ret cfg env A i r (pre ++ post) st st' hit]
        exact h

/-- An iteration gives its request to the simulator exactly when it records a
simulation at its position. -/
theorem iteration_offered (cfg : Config) (e : IterEnv) (A i : Nat) (req : pendingRequest)
    (st : LoopState) :
    ∃ new, (iteration cfg e A i req st).1.events = st.events ++ new ∧
      (∀ ev ∈ new, ev.index = i) ∧
      ((simulated new = [] ∧ iterationOffered e req st = []) ∨
        (simulated new = [i] ∧ iterationOffered e req st = [req])) := by
  have hc := iteration_cases cfg e A i req st
  generalize iteration cfg e A i req st = res at hc ⊢
  cases hc with
  | ret h => exact ⟨[], by simp, by simp, Or.inl ⟨rfl, by simp [iterationOffered, h]⟩⟩
  | fulfilled h hf =>
    exact ⟨_, rfl, by simp [Event.index], Or.inl ⟨rfl, by simp [iterationOffered, h, hf]⟩⟩
  | skipped h hf hs =>
    exact ⟨_, rfl, by simp [Event.index], Or.inr ⟨rfl, by simp [iterationOffered, h, hf]⟩⟩
  | insufficient sim h hf hs hb =>
    exact ⟨_, rfl, by simp [Event.index], Or.inr ⟨rfl, by simp [iterationOffered, h, hf]⟩⟩
  | enqueue sim h hf hs hb ht =>
    exact ⟨_, rfl, by simp [Event.index], Or.inr ⟨rfl, by simp [iterationOffered, h, hf]⟩⟩

theorem iterationOffered_eq (e : IterEnv) (req : pendingRequest) (st : LoopState) :
    iterationOffered e req st = [req] ↔
      shouldProcessLog st.db e.wasAlreadyConsumedErr req.lb = true ∧
        alreadyFulfilled e.getCommitment = false := by
  unfold iterationOffered
  cases shouldProcessLog st.db e.wasAlreadyConsumedErr req.lb <;>
    cases alreadyFulfilled e.getCommitment <;> simp

/-- The requests the loop gives to the simulator are the requests at the positions it
records as simulated, in the same order, and they come in the order of the list. -/
theorem requestLoop_offered (cfg : Config) (env : Nat → IterEnv) (A : Nat) :
    ∀ (reqs : List pendingRequest) (i : Nat) (st : LoopState),
      ∃ new, (requestLoop cfg env A i reqs st).1.events = st.events ++ new ∧
        (∀ j ∈ simulated new, i ≤ j ∧ j < i + reqs.length) ∧
        (requestLoopOffered cfg env A i reqs st).map some
          = (simulated new).map (fun j => reqs[j - i]?) ∧
        List.Sublist (requestLoopOffered cfg env A i reqs st) reqs := by
  intro reqs
  induction reqs with
  | nil =>
    intro i st
    exact ⟨[], by simp [requestLoop_nil], by simp [simulated],
      by simp [requestLoopOffered, simulated], by simp [requestLoopOffered]⟩
  | cons r rest ih =>
    intro i st
    obtain ⟨new1, h1, _, hs1⟩ := iteration_offered cfg (env i) A i r st
    have hb1 : ∀ j ∈ simulated new1, i ≤ j ∧ j < i + (r :: rest).length := by
      intro j hj
      rcases hs1 with ⟨h, _⟩ | ⟨h, _⟩
      · rw [h] at hj
        simp at hj
      · rw [h, List.mem_singleton] at hj
        subst hj
        simp
    have hm1 : (iterationOffered (env i) r st).map some
        = (simulated new1).map (fun j => (r :: rest)[j - i]?) := by
      rcases hs1 with ⟨h, ho⟩ | ⟨h, ho⟩
      · rw [h, ho]
        rfl
      · rw [h, ho]
        simp
    have hsub1 : ∀ tail : List pendingRequest, List.Sublist tail rest →
        List.Sublist (iterationOffered (env i) r st ++ tail) (r :: rest) := by
      intro tail ht
      rcases hs1 with ⟨_, ho⟩ | ⟨_, ho⟩
      · rw [ho]
        exact List.Sublist.cons _ ht
      · rw [ho]
        exact List.Sublist.cons₂ _ ht
    cases hit : iteration cfg (env i) A i r st with
    | mk st' c =>
      rw [hit] at h1
      simp only at h1
      cases c with
      | next =>
        obtain ⟨new2, h2, hb2, hm2, hsub2⟩ := ih (i + 1) st'
        refine ⟨new1 ++ new2, ?_, ?_, ?_, ?_⟩
        · rw [requestLoop_cons_next cfg env A i r rest st st' hit, h2, h1,
            List.append_assoc]
        · intro j hj
          rw [simulated_append] at hj
          rcases List.mem_append.mp hj with hj | hj
          · exact hb1 j hj
          · have := hb2 j hj
            simp only [List.length_cons]
            omega
        · simp only [requestLoopOffered, hit, List.map_append, simulated_append]
          rw [hm1, hm2]
          congr 1
          apply List.map_congr_left
          intro j hj
          have hj1 := (hb2 j hj).1
          have : j - i = (j - (i + 1)) + 1 := by omega
          rw [this, List.getElem?_cons_succ]
        · simp only [requestLoopOffered, hit]
          exact hsub1 _ hsub2
      | brk =>
        refine ⟨new1, ?_, hb1, ?_, ?_⟩
        · rw [requestLoop_cons_brk cfg env A i r rest st st' hit, h1]
        · simp only [requestLoopOffered, hit, List.append_nil]
          exact hm1
        · simp only [requestLoopOffered, hit]
          exact hsub1 [] (List.nil_sublist _)
      | ret =>
        refine ⟨new1, ?_, hb1, ?_, ?_⟩
        · rw [requestLoop_cons_ret cfg env A i r rest st st' hit, h1]
        · simp only [requestLoopOffered, hit, List.append_nil]
          exact hm1
        · simp only [requestLoopOffered, hit]
          exact hsub1 [] (List.nil_sublist _)

/-- In a loop over `pre ++ r :: post` from an empty trace, a simulation is recorded at
the position of `r` exactly when the loop over `pre` runs to its end and, in the state
it leaves, the log of `r` passes the consumed check and `r` is not found fulfilled. -/
theorem requestLoop_simulated_at (cfg : Config) (env : Nat → IterEnv) (A : Nat)
    (pre post : List pendingRequest) (r : pendingRequest) (st0 : LoopState)
    (h0 : st0.events = []) :
    pre.length ∈ simulated (requestLoop cfg env A 0 (pre ++ r :: post) st0).1.events ↔
      (requestLoop cfg env A 0 pre st0).2 = Exit.completed ∧
        shouldProcessLog (requestLoop cfg env A 0 pre st0).1.db
          (env pre.length).wasAlreadyConsumedErr r.lb = true ∧
        alreadyFulfilled (env pre.length).getCommitment = false := by
  obtain ⟨newp, hnp, hip⟩ := requestLoop_events cfg env A pre 0 st0
  rw [h0, List.nil_append] at hnp
  have hnotp : pre.length ∉ simulated newp := by
    intro hj
    have := (hip _ ((mem_simulated _ _).mp hj)).2
    simp only [Event.index] at this
    omega
  cases hpre : requestLoop cfg env A 0 pre st0 with
  | mk stp ex =>
    rw [hpre] at hnp
    simp only at hnp
    by_cases hex : ex = Exit.completed
    · subst hex
      rw [requestLoop_append cfg env A pre (r :: post) 0 st0 stp hpre, Nat.zero_add]
      simp only [true_and]
      rw [← iterationOffered_eq]
      obtain ⟨new1, h1, hi1, hs1⟩ := iteration_offered cfg (env pre.length) A pre.length r stp
      have key : ∃ new2,
          (requestLoop cfg env A pre.length (r :: post) stp).1.events
            = stp.events ++ new1 ++ new2 ∧ ∀ ev ∈ new2, pre.length + 1 ≤ ev.index := by
        cases hit : iteration cfg (env pre.length) A pre.length r stp with
        | mk st' c =>
          rw [hit] at h1
          simp only at h1
          cases c with
          | next =>
            obtain ⟨new2, h2, hi2⟩ := requestLoop_events cfg env A post (pre.length + 1) st'
            refine ⟨new2, ?_, fun ev hev => (hi2 ev hev).1⟩
            rw [requestLoop_cons_next cfg env A pre.length r post stp st' hit, h2, h1]
          | brk =>
            refine ⟨[], ?_, by simp⟩
            rw [requestLoop_cons_brk cfg env A pre.length r post stp st' hit, h1]
            simp
          | ret =>
            refine ⟨[], ?_, by simp⟩
            rw [requestLoop_cons_ret cfg env A pre.length r post stp st' hit, h1]
            simp
      obtain ⟨new2, hk, hi2⟩ := key
      have hnot2 : pre.length ∉ simulated new2 := by
        intro hj
        have := hi2 _ ((mem_simulated _ _).mp hj)
        simp only [Event.index] at this
        omega
      rw [hk, hnp, simulated_append, simulated_append]
      simp only [List.mem_append, hnotp, hnot2, false_or, or_false]
      rcases hs1 with ⟨h, ho⟩ | ⟨h, ho⟩
      · rw [h, ho]
        simp
      · rw [h, ho]
        simp
    · rw [requestLoop_append_stop cfg env A pre (r :: post) 0 st0 stp ex hpre hex]
      simp only [hnp]
      constructor
      · intro hj
        exact absurd hj hnotp
      · intro h
        exact absurd h.1 hex

/-! ## Lemmas on the stop path -/

theorem Lifecycle.step_reached (cap : Nat) (s s' : Lifecycle) (t : Task)
    (h : s.Reached) (hs : s.step cap t = some s') : s'.Reached := by
  obtain ⟨hc, hr, hl⟩ := h
  cases t with
  | close =>
    rcases hc with ⟨hc, h0⟩ | ⟨hc, h0⟩ | ⟨hc, h0⟩
    · simp only [Lifecycle.step, Lifecycle.prog, hc, Lifecycle.setProg,
        Option.some.injEq] at hs
      subst hs
      exact ⟨Or.inr (Or.inl ⟨rfl, h0⟩), hr, hl⟩
    · simp only [Lifecycle.step, Lifecycle.prog, hc, Lifecycle.setProg] at hs
      split at hs
      · simp only [Option.some.injEq] at hs
        subst hs
        exact ⟨Or.inr (Or.inr ⟨rfl, by simp [h0]⟩), hr, hl⟩
      · cases hs
    · simp [Lifecycle.step, Lifecycle.prog, hc] at hs
  | requestHandler =>
    rcases hr with hr | hr | hr
    · simp only [Lifecycle.step, Lifecycle.prog, hr, Lifecycle.setProg] at hs
      split at hs
      · simp only [Option.some.injEq] at hs
        subst hs
        exact ⟨hc, Or.inr (Or.inl rfl), hl⟩
      · cases hs
    · simp only [Lifecycle.step, Lifecycle.prog, hr, Lifecycle.setProg] at hs
      split at hs
      · simp only [Option.some.injEq] at hs
        subst hs
        exact ⟨hc, Or.inr (Or.inr rfl), hl⟩
      · rcases hc with ⟨hc, h0⟩ | ⟨hc, h0⟩ | ⟨hc, h0⟩
        · simp [hc] at hs
        · simp only [hc, Option.some.injEq] at hs
          subst hs
          exact ⟨Or.inr (Or.inr ⟨rfl, by simp [h0]⟩), Or.inr (Or.inr rfl), hl⟩
        · simp [hc] at hs
    · simp [Lifecycle.step, Lifecycle.prog, hr] at hs
  | logListener =>
    rcases hl with hl | hl | hl | hl
    · simp only [Lifecycle.step, Lifecycle.prog, hl, Lifecycle.setProg] at hs
      split at hs
      · simp only [Option.some.injEq] at hs
        subst hs
        exact ⟨hc, hr, Or.inr (Or.inl rfl)⟩
      · cases hs
    · simp only [Lifecycle.step, Lifecycle.prog, hl, Lifecycle.setProg,
        Option.some.injEq] at hs
      subst hs
      exact ⟨hc, hr, Or.inr (Or.inr (Or.inl rfl))⟩
    · simp only [Lifecycle.step, Lifecycle.prog, hl, Lifecycle.setProg] at hs
      split at hs
      · simp only [Option.some.injEq] at hs
        subst hs
        exact ⟨hc, hr, Or.inr (Or.inr (Or.inr rfl))⟩
      · rcases hc with ⟨hc, h0⟩ | ⟨hc, h0⟩ | ⟨hc, h0⟩
        · simp [hc] at hs
        · simp only [hc, Option.some.injEq] at hs
          subst hs
          exact ⟨Or.inr (Or.inr ⟨rfl, by simp [h0]⟩), hr, Or.inr (Or.inr (Or.inr rfl))⟩
        · simp [hc] at hs
    · simp [Lifecycle.step, Lifecycle.prog, hl] at hs

theorem Lifecycle.run_reached (cap : Nat) (schedule : List Task) :
    ∀ s : Lifecycle, s.Reached → (s.run cap schedule).Reached := by
  induction schedule with
  | nil => intro s h; exact h
  | cons t ts ih =>
    intro s h
    simp only [Lifecycle.run, List.foldl_cons]
    cases hs : s.step cap t with
    | none => exact ih s h
    | some s' => exact ih s' (Lifecycle.step_reached cap s s' t h hs)

theorem Lifecycle.step_listenerLeft (s s' : Lifecycle) (t : Task)
    (h : s.ListenerLeft) (hs : s.step 0 t = some s') : s'.ListenerLeft := by
  obtain ⟨hc, hb, hl⟩ := h
  cases t with
  | close => simp [Lifecycle.step, Lifecycle.prog, hc] at hs
  | requestHandler =>
    simp only [Lifecycle.step, Lifecycle.prog] at hs
    split at hs
    · cases hs
    · simp only [Lifecycle.setProg, Option.some.injEq] at hs
      subst hs
      exact ⟨hc, hb, hl⟩
    · split at hs
      · simp only [Lifecycle.setProg, Option.some.injEq] at hs
        subst hs
        exact ⟨hc, hb, hl⟩
      · cases hs
    · simp only [Lifecycle.setProg, Option.some.injEq] at hs
      subst hs
      exact ⟨hc, hb, hl⟩
    · simp [hc] at hs
    · simp [hb] at hs
  | logListener =>
    rcases hl with hl | hl | hl
    · simp only [Lifecycle.step, Lifecycle.prog, hl, Lifecycle.setProg] at hs
      split at hs
      · simp only [Option.some.injEq] at hs
        subst hs
        exact ⟨hc, hb, Or.inr (Or.inl rfl)⟩
      · cases hs
    · simp only [Lifecycle.step, Lifecycle.prog, hl, Lifecycle.setProg,
        Option.some.injEq] at hs
      subst hs
      exact ⟨hc, hb, Or.inr (Or.inr rfl)⟩
    · simp [Lifecycle.step, Lifecycle.prog, hl, hc] at hs

theorem Lifecycle.run_listenerLeft (schedule : List Task) :
    ∀ s : Lifecycle, s.ListenerLeft → (s.run 0 schedule).ListenerLeft := by
  induction schedule with
  | nil => intro s h; exact h
  | cons t ts ih =>
    intro s h
    simp only [Lifecycle.run, List.foldl_cons]
    cases hs : s.step 0 t with
    | none => exact ih s h
    | some s' => exact ih s' (Lifecycle.step_listenerLeft s s' t h hs)

/-! ## C11: Pruning bound -/

/-- C11. Pruning bound.  With the chain tip `t` (a `uint64`) read at every iteration,
after `pruneConfirmedRequestCounts` no marker with `blockNumber ≤ t - 10000` is in the
heap, whether `t - 10000` is taken as an integer or as the `uint64` the code computes,
and the request ID of every marker that was removed (every marker of which the heap
holds fewer copies than before) is no key of `respCount`. -/
theorem pruning_bound (lsn : listenerV3) (t : Nat) (ht : t < u64) :
    (∀ x ∈ (pruneConfirmedRequestCounts (fun _ => some t) lsn).blockNumberToReqID,
        ¬ ((x.blockNumber : Int) ≤ (t : Int) - 10000) ∧ sub64 t 10000 < x.blockNumber) ∧
      (∀ x, (pruneConfirmedRequestCounts (fun _ => some t) lsn).blockNumberToReqID.count x
          < lsn.blockNumberToReqID.count x →
        x.reqID ∉ mapKeys (pruneConfirmedRequestCounts (fun _ => some t) lsn).respCount) := by
  constructor
  · intro x hx
    have h := (pruneLoop_threshold (fun _ => some t) (sub64 t 10000) (fun _ => rfl)
      lsn.blockNumberToReqID.length 0 lsn).1 (le_refl _) x hx
    refine ⟨?_, h⟩
    rcases Nat.lt_or_ge t 10000 with hlt | hge
    · omega
    · rw [sub64_of_le t ht hge] at h
      omega
  · exact (pruneLoop_frame (fun _ => some t) lsn.blockNumberToReqID.length 0 lsn).2.2.2.2

/-- C11, at the instance of the spec: at tip 20000 the marker at block 5000 and the
counter of its request 7 are removed, and the marker at block 15000 stays. -/
theorem pruning_bound_witness :
    pruneConfirmedRequestCounts (fun _ => some 20000) exTracker =
        { exTracker with
          respCount := [(8, 1)]
          blockNumberToReqID := [{ blockNumber := 15000, reqID := 8 }] } ∧
      (7 : Nat) ∉ mapKeys (pruneConfirmedRequestCounts (fun _ => some 20000) exTracker).respCount :=
  ⟨by decide,
    (pruning_bound exTracker 20000 (by decide)).2 { blockNumber := 5000, reqID := 7 }
      (by decide)⟩

/-! ## C12: Pruning below block 10000 -/

/-- C12, at the failing input: at tip 9500, and when the head cannot be read, the
subtraction `getLatestHead() - 10000` wraps around on `uint64`, no marker is above the
result, and the markers at blocks 5000 and 15000 are removed with their counters,
although both are newer than `t - 10000`. -/
theorem pruning_below_10000_removes_everything :
    sub64 9500 10000 = 2 ^ 64 - 500 ∧
      pruneConfirmedRequestCounts (fun _ => some 9500) exTracker =
        { exTracker with respCount := [], blockNumberToReqID := [] } ∧
      getLatestHead none = 0 ∧
      pruneConfirmedRequestCounts (fun _ => none) exTracker =
        { exTracker with respCount := [], blockNumberToReqID := [] } := by
  decide

/-! ## C13: Mailbox FIFO -/

/-- C13. Mailbox FIFO.  Deliver the items `xs` in order to a new mailbox of capacity `C`
and call `Retrieve` until it reports absence (any `fuel` above the number of items lets
the loop get there).  The calls return the last `min(n, C)` delivered items, all of them
when `C = 0`, in delivery order; the queue is empty afterwards and the next `Retrieve`
returns `(nil, false)` and leaves it empty. -/
theorem mailbox_fifo {α : Type} (C : Nat) (xs : List α) (fuel : Nat)
    (hf : xs.length < fuel) :
    (Mailbox.drain fuel ((NewMailbox C).deliverAll xs)).1 =
        (if C = 0 then xs else xs.drop (xs.length - min xs.length C)) ∧
      (Mailbox.drain fuel ((NewMailbox C).deliverAll xs)).2 = NewMailbox C ∧
      (Mailbox.drain fuel ((NewMailbox C).deliverAll xs)).2.Retrieve =
        (none, NewMailbox C) := by
  have hcap := Mailbox.deliverAll_capacity xs (NewMailbox C : Mailbox α)
  have hq : ((NewMailbox C : Mailbox α).deliverAll xs).queue =
      (if C = 0 then xs else xs.drop (xs.length - min xs.length C)).reverse := by
    by_cases hC : C = 0
    · rw [Mailbox.deliverAll_queue_zero xs _ (by simp [NewMailbox, hC])]
      simp [NewMailbox, hC]
    · have h0 : 0 < (NewMailbox C : Mailbox α).capacity := by
        simp only [NewMailbox]
        omega
      rw [Mailbox.deliverAll_queue xs _ h0 (by simp [NewMailbox])]
      simp only [NewMailbox, List.append_nil, hC, if_false]
      rw [List.take_reverse]
      congr 2
      omega
  have hlen : ((NewMailbox C : Mailbox α).deliverAll xs).queue.length < fuel := by
    rw [hq, List.length_reverse]
    split
    · exact hf
    · rw [List.length_drop]
      omega
  rw [Mailbox.drain_spec fuel _ hlen, hq, hcap]
  refine ⟨by simp, rfl, ?_⟩
  exact Mailbox.Retrieve_nil _ rfl

/-- C13, at an instance: five items delivered to a mailbox of capacity 3 come back as
the last three, in delivery order. -/
theorem mailbox_fifo_witness :
    (Mailbox.drain 6 ((NewMailbox 3).deliverAll [1, 2, 3, 4, 5])).1 = [3, 4, 5] ∧
      (Mailbox.drain 6 ((NewMailbox 3).deliverAll [1, 2, 3, 4, 5])).2.Retrieve =
        (none, NewMailbox 3) :=
  ⟨(mailbox_fifo 3 [1, 2, 3, 4, 5] 6 (by decide)).1,
    (mailbox_fifo 3 [1, 2, 3, 4, 5] 6 (by decide)).2.2⟩

/-! ## C14: Mailbox overflow -/

/-- C14. Mailbox overflow.  On a mailbox of capacity `C > 0` that holds `C` items,
`Deliver x` returns true and leaves `x` in front of the previous items without the
oldest one, which is the item `Retrieve` would have returned; on a mailbox that holds
fewer than `C` items, or has `C = 0`, `Deliver x` returns false and leaves `x` in front
of all previous items. -/
theorem mailbox_overflow {α : Type} (m : Mailbox α) (x : α) :
    (0 < m.capacity → m.queue.length = m.capacity →
        m.Deliver x = ({ m with queue := x :: m.queue.dropLast }, true) ∧
        ∃ oldest, m.queue = m.queue.dropLast ++ [oldest] ∧
          m.Retrieve = (some oldest, { m with queue := m.queue.dropLast })) ∧
      (m.queue.length < m.capacity ∨ m.capacity = 0 →
        m.Deliver x = ({ m with queue := x :: m.queue }, false)) := by
  constructor
  · intro h0 hlen
    refine ⟨Mailbox.Deliver_full m x h0 (le_of_eq hlen.symm), ?_⟩
    rcases List.eq_nil_or_concat m.queue with hq | ⟨q, o, hq⟩
    · rw [hq] at hlen
      simp at hlen
      omega
    · rw [List.concat_eq_append] at hq
      refine ⟨o, ?_, ?_⟩
      · rw [hq]
        simp
      · rw [Mailbox.Retrieve_concat m q o hq, hq]
        simp
  · intro h
    rcases h with h | h
    · exact Mailbox.Deliver_below m x h
    · exact Mailbox.Deliver_zero m x h

/-- C14, at an instance: a full mailbox of capacity 2 drops its oldest item 1. -/
theorem mailbox_overflow_witness :
    ({ queue := [2, 1], capacity := 2 } : Mailbox Nat).Deliver 3 =
      ({ queue := [3, 2], capacity := 2 }, true) :=
  ((mailbox_overflow ({ queue := [2, 1], capacity := 2 } : Mailbox Nat) 3).1
    (by decide) (by decide)).1

/-! ## C15: Mailbox bound -/

/-- C15. Mailbox bound.  For a capacity `C > 0`, after any sequence of `Deliver`,
`Retrieve` and `RetrieveLatestAndClear` calls on `NewMailbox(C)` the queue holds at most
`C` items. -/
theorem mailbox_bound {α : Type} (C : Nat) (hC : 0 < C) (ops : List (MailboxOp α)) :
    (Mailbox.applyAll (NewMailbox C, []) ops).1.queue.length ≤ C :=
  (Mailbox.applyAll_bound ops (NewMailbox C, []) hC (by simp [NewMailbox])).2

/-- C15, at an instance: three deliveries, a retrieval and two more deliveries on a
mailbox of capacity 2. -/
theorem mailbox_bound_witness :
    (Mailbox.applyAll (NewMailbox 2, [])
      [MailboxOp.deliver 1, MailboxOp.deliver 2, MailboxOp.deliver 3, MailboxOp.retrieve,
        MailboxOp.deliver 4, MailboxOp.deliver 5]).1.queue.length ≤ 2 :=
  mailbox_bound 2 (by decide) _

/-! ## C16: Confirmation depth and the counter -/

set_option maxRecDepth 100000 in
/-- C16, at the failing input: request 7 is logged in block 200 with three base
confirmations.  After 63 fulfillment logs the counter is 63 and the request is confirmed
at block 400; after one more the counter is 64, `1 << 64` is `0` on `uint64`, and the
request is confirmed at block 200. -/
theorem getConfirmedAt_not_monotone :
    mapGet (exFulfillments 7 63).respCount 7 = 63 ∧
      mapGet (exFulfillments 7 64).respCount 7 = 64 ∧
      getConfirmedAt (exFulfillments 7 63).respCount
        { RequestId := 7, SubId := 1, BlockNumber := 200 } 3 = 400 ∧
      getConfirmedAt (exFulfillments 7 64).respCount
        { RequestId := 7, SubId := 1, BlockNumber := 200 } 3 = 200 := by
  decide

/-! ## C17: Eligibility partition and order -/

/-- C17. Eligibility partition and order.  For every pending set `reqs`, tip `h` and
subscription `s`, the map of `getConfirmedLogsBySub` holds under `s` the requests of
`reqs` with `SubId = s` and `confirmedAtBlock ≤ h`, in the order of `reqs`, and has no
key `s` when there is none; its keys are distinct and none of its lists is empty (the
method only reads the pending set).  A pass over a list `l` simulates at strictly
increasing positions of `l`.  The requests it gives to the simulator, in the order of
the calls, are the requests of `l` at those positions: they form a sublist of `l`, and
for the list of subscription `s` a sublist of the pending set.  The request `r` at the
position after `pre` is given to the simulator exactly when the loop over `pre` has run
to its end and, in the state it leaves, the log of `r` passes the consumed check and `r`
is not found fulfilled. -/
theorem eligibility_partition_and_order (reqs : List pendingRequest) (h s : Nat)
    (cfg : Config) (lsn : listenerV3) (env : PassEnv) (A : Nat) (B : Int)
    (l : List pendingRequest) :
    (getConfirmedLogsBySub reqs h).lookup s =
        (if reqs.filter (eligible s h) = [] then none
          else some (reqs.filter (eligible s h))) ∧
      ((getConfirmedLogsBySub reqs h).map (fun p => p.1)).Nodup ∧
      (∀ p ∈ getConfirmedLogsBySub reqs h, p.2 ≠ []) ∧
      (simulated (processRequestsPerSub cfg lsn env A B l).2.events).Pairwise
        (fun a b => a < b) ∧
      (∀ j ∈ simulated (processRequestsPerSub cfg lsn env A B l).2.events,
        j < l.length) ∧
      (processRequestsPerSubOffered cfg lsn env A B l).map some =
        (simulated (processRequestsPerSub cfg lsn env A B l).2.events).map
          (fun j => l[j]?) ∧
      List.Sublist (processRequestsPerSubOffered cfg lsn env A B l) l ∧
      List.Sublist
        (processRequestsPerSubOffered cfg lsn env A B (reqs.filter (eligible s h))) reqs ∧
      (∀ (E : Int) (pre post : List pendingRequest) (r : pendingRequest),
        MaybeSubtractReservedLink lsn.db env.reservedQueryErr env.ownFirst A B = (E, none) →
        l = pre ++ r :: post →
        (pre.length ∈ simulated (processRequestsPerSub cfg lsn env A B l).2.events ↔
          (requestLoop cfg env.iter A 0 pre
              { db := lsn.db, startBalance := E, processed := [], events := [] }).2
            = Exit.completed ∧
          shouldProcessLog
              (requestLoop cfg env.iter A 0 pre
                { db := lsn.db, startBalance := E, processed := [], events := [] }).1.db
              (env.iter pre.length).wasAlreadyConsumedErr r.lb = true ∧
          alreadyFulfilled (env.iter pre.length).getCommitment = false)) := by
  obtain ⟨h1, h2, h3⟩ := getConfirmedLogsBySub_fold h s reqs []
  have hsubl : ∀ l' : List pendingRequest,
      List.Sublist (processRequestsPerSubOffered cfg lsn env A B l') l' := by
    intro l'
    unfold processRequestsPerSubOffered
    split
    · exact List.nil_sublist _
    · rename_i E _
      exact (requestLoop_offered cfg env.iter A l' 0
        { db := lsn.db, startBalance := E, processed := [], events := [] }).choose_spec.2.2.2
  refine ⟨?_, h3 (by simp), h2 (by simp), ?_, ?_, ?_, hsubl l, ?_, ?_⟩
  · simpa [getConfirmedLogsBySub] using h1
  · cases hres : MaybeSubtractReservedLink lsn.db env.reservedQueryErr env.ownFirst A B with
    | mk E err =>
      cases err with
      | some msg =>
        rw [processRequestsPerSub_err cfg lsn env A B E l msg hres]
        simp [simulated]
      | none =>
        rw [processRequestsPerSub_eq cfg lsn env A B E l hres]
        obtain ⟨new, hn, hp, _⟩ := requestLoop_simulated cfg env.iter A l 0
          { db := lsn.db, startBalance := E, processed := [], events := [] }
        simp only [List.nil_append] at hn
        simp only [hn]
        exact hp
  · cases hres : MaybeSubtractReservedLink lsn.db env.reservedQueryErr env.ownFirst A B with
    | mk E err =>
      cases err with
      | some msg =>
        rw [processRequestsPerSub_err cfg lsn env A B E l msg hres]
        simp [simulated]
      | none =>
        rw [processRequestsPerSub_eq cfg lsn env A B E l hres]
        obtain ⟨new, hn, _, hb⟩ := requestLoop_simulated cfg env.iter A l 0
          { db := lsn.db, startBalance := E, processed := [], events := [] }
        simp only [List.nil_append] at hn
        simp only [hn]
        intro j hj
        have := (hb j hj).2
        omega
  · cases hres : MaybeSubtractReservedLink lsn.db env.reservedQueryErr env.ownFirst A B with
    | mk E err =>
      cases err with
      | some msg =>
        rw [processRequestsPerSub_err cfg lsn env A B E l msg hres]
        simp [processRequestsPerSubOffered, hres, simulated]
      | none =>
        rw [processRequestsPerSub_eq cfg lsn env A B E l hres]
        obtain ⟨new, hn, _, hm, _⟩ := requestLoop_offered cfg env.iter A l 0
          { db := lsn.db, startBalance := E, processed := [], events := [] }
        simp only [List.nil_append] at hn
        simp only [hn, processRequestsPerSubOffered, hres]
        rw [hm]
        simp
  · exact List.Sublist.trans (hsubl _) (List.filter_sublist _)
  · intro E pre post r hres hl
    subst hl
    rw [processRequestsPerSub_eq cfg lsn env A B E (pre ++ r :: post) hres]
    exact requestLoop_simulated_at cfg env.iter A pre post r
      { db := lsn.db, startBalance := E, processed := [], events := [] } rfl

/-- C17, at an instance: of three pending requests the first and the third belong to
subscription 1 and are confirmed at tip 103; the pass over them simulates the first,
then the second, gives the request of log 1 and then the request of log 3 to the
simulator and enqueues them in that order, and these requests are a sublist of the
pending set.  When log 3 is consumed beforehand, only the first is simulated. -/
theorem eligibility_partition_and_order_witness :
    (getConfirmedLogsBySub [exPending 1 1 11, exPending 2 2 12, exPending 3 1 13] 103).lookup 1
        = some [exPending 1 1 11, exPending 3 1 13] ∧
      simulated (processRequestsPerSub exCfg
        (exLsn exDb [exPending 1 1 11, exPending 2 2 12, exPending 3 1 13])
        (exEnv (fun _ => exIter 100)) 5 1000
        [exPending 1 1 11, exPending 3 1 13]).2.events = [0, 1] ∧
      processRequestsPerSubOffered exCfg
        (exLsn exDb [exPending 1 1 11, exPending 2 2 12, exPending 3 1 13])
        (exEnv (fun _ => exIter 100)) 5 1000
        [exPending 1 1 11, exPending 3 1 13] = [exPending 1 1 11, exPending 3 1 13] ∧
      (processRequestsPerSub exCfg
        (exLsn exDb [exPending 1 1 11, exPending 2 2 12, exPending 3 1 13])
        (exEnv (fun _ => exIter 100)) 5 1000
        [exPending 1 1 11, exPending 3 1 13]).2.events
        = [Event.simulate 0, Event.enqueue 0 1 100, Event.simulate 1,
            Event.enqueue 1 3 100] ∧
      List.Sublist
        (processRequestsPerSubOffered exCfg
          (exLsn exDb [exPending 1 1 11, exPending 2 2 12, exPending 3 1 13])
          (exEnv (fun _ => exIter 100)) 5 1000
          ([exPending 1 1 11, exPending 2 2 12, exPending 3 1 13].filter (eligible 1 103)))
        [exPending 1 1 11, exPending 2 2 12, exPending 3 1 13] ∧
      simulated (processRequestsPerSub exCfg
        (exLsn { exDb with consumed := [3] } [exPending 1 1 11, exPending 3 1 13])
        (exEnv (fun _ => exIter 100)) 5 1000
        [exPending 1 1 11, exPending 3 1 13]).2.events = [0] ∧
      (1 ∈ simulated (processRequestsPerSub exCfg
        (exLsn exDb [exPending 1 1 11, exPending 2 2 12, exPending 3 1 13])
        (exEnv (fun _ => exIter 100)) 5 1000
        [exPending 1 1 11, exPending 3 1 13]).2.events) := by
  have h := eligibility_partition_and_order
    [exPending 1 1 11, exPending 2 2 12, exPending 3 1 13] 103 1 exCfg
    (exLsn exDb [exPending 1 1 11, exPending 2 2 12, exPending 3 1 13])
    (exEnv (fun _ => exIter 100)) 5 1000 [exPending 1 1 11, exPending 3 1 13]
  refine ⟨?_, by decide, by decide, by decide, h.2.2.2.2.2.2.2.1, by decide, ?_⟩
  · rw [h.1]
    decide
  · exact (h.2.2.2.2.2.2.2.2 1000 [exPending 1 1 11] [] (exPending 3 1 13)
      (by decide) rfl).mpr (by decide)

/-! ## C18: Close and the acknowledgments -/

/-- C18, at the failing schedule.  Whatever the capacity of `waitOnStop` and the
schedule, `Close` receives at most one acknowledgment.  When `Close` closes `chStop` and
the request handler is the first to acknowledge, `Close` returns while the log listener
has not yet seen the stop signal; with an unbuffered `waitOnStop` the listener never
gets past its send after that, and with room in the buffer both tasks send while `Close`
has received one acknowledgment. -/
theorem close_returns_after_first_ack :
    (∀ cap schedule, (started.run cap schedule).received ≤ 1) ∧
      started.run 0 [Task.close, Task.requestHandler, Task.requestHandler] =
        { close := []
          requestHandler := []
          logListener := [Instr.awaitStop, Instr.unsubscribe, Instr.sendAck]
          stopped := true
          buffered := 0
          sent := 1
          received := 1 } ∧
      (∀ schedule,
        ((started.run 0 [Task.close, Task.requestHandler, Task.requestHandler]).run 0
          schedule).logListener ≠ []) ∧
      (started.run 2
          [Task.close, Task.requestHandler, Task.requestHandler, Task.logListener,
            Task.logListener, Task.logListener, Task.close]).sent = 2 ∧
      (started.run 2
          [Task.close, Task.requestHandler, Task.requestHandler, Task.logListener,
            Task.logListener, Task.logListener, Task.close]).received = 1 := by
  refine ⟨?_, by decide, ?_, by decide, by decide⟩
  · intro cap schedule
    have h : started.Reached := by
      refine ⟨Or.inl ⟨rfl, rfl⟩, Or.inl rfl, Or.inl rfl⟩
    obtain ⟨hc, _, _⟩ := Lifecycle.run_reached cap schedule started h
    rcases hc with ⟨_, h0⟩ | ⟨_, h0⟩ | ⟨_, h0⟩ <;> omega
  · intro schedule
    have h : (started.run 0
        [Task.close, Task.requestHandler, Task.requestHandler]).ListenerLeft := by
      refine ⟨by decide, by decide, Or.inl (by decide)⟩
    obtain ⟨_, _, hl⟩ := Lifecycle.run_listenerLeft schedule _ h
    rcases hl with hl | hl | hl <;> rw [hl] <;> simp

/-! ## C19: RetrieveLatestAndClear -/

/-- C19. For every mailbox `m`, `RetrieveLatestAndClear` returns the item at the front of
the queue, nil when the queue is empty, and leaves the queue empty, so that a following
`Retrieve` returns `(nil, false)`.  The front is the most recently delivered item: it is
`x` right after `Deliver x`, and after any sequence of calls on a new mailbox that leaves
the queue non-empty it is the last item delivered. -/
theorem retrieveLatestAndClear_latest {α : Type} (m : Mailbox α) (x : α) (C : Nat)
    (ops : List (MailboxOp α)) :
    m.RetrieveLatestAndClear.1 = m.queue.head? ∧
      m.RetrieveLatestAndClear.2.queue = [] ∧
      m.RetrieveLatestAndClear.2.Retrieve = (none, m.RetrieveLatestAndClear.2) ∧
      ((m.Deliver x).1.RetrieveLatestAndClear.1 = some x) ∧
      ((Mailbox.applyAll (NewMailbox C, []) ops).1.queue ≠ [] →
        (Mailbox.applyAll (NewMailbox C, []) ops).1.RetrieveLatestAndClear.1 =
          (Mailbox.applyAll (NewMailbox C, []) ops).2.getLast?) := by
  have hhead : ∀ m' : Mailbox α, m'.RetrieveLatestAndClear.1 = m'.queue.head? := by
    intro m'
    unfold Mailbox.RetrieveLatestAndClear
    split <;> simp_all
  have hempty : m.RetrieveLatestAndClear.2.queue = [] := by
    unfold Mailbox.RetrieveLatestAndClear
    split <;> simp_all
  refine ⟨hhead m, hempty, Mailbox.Retrieve_nil _ hempty, ?_, ?_⟩
  · rw [hhead]
    unfold Mailbox.Deliver
    simp only
    split
    · rename_i hc
      have hne : m.queue ≠ [] := by
        intro he
        rw [he] at hc
        simp at hc
        omega
      simp only
      rw [List.dropLast_cons_of_ne_nil hne]
      rfl
    · rfl
  · intro hne
    obtain ⟨a, ha⟩ := Mailbox.applyAll_suffix ops (NewMailbox C, []) ⟨[], by simp [NewMailbox]⟩
    rw [hhead, ha]
    cases hq : (Mailbox.applyAll (NewMailbox C, []) ops).1.queue with
    | nil => exact absurd hq hne
    | cons y q => simp

/-- C19, at an instance: after the deliveries 1, 2, 3 and a retrieval the queue is not
empty and the call returns 3, the last item delivered. -/
theorem retrieveLatestAndClear_latest_witness :
    (Mailbox.applyAll (NewMailbox 5, [])
        [MailboxOp.deliver 1, MailboxOp.deliver 2, MailboxOp.deliver 3,
          MailboxOp.retrieve]).1.queue ≠ [] ∧
      (Mailbox.applyAll (NewMailbox 5, [])
        [MailboxOp.deliver 1, MailboxOp.deliver 2, MailboxOp.deliver 3,
          MailboxOp.retrieve]).1.RetrieveLatestAndClear.1 = some 3 :=
  ⟨by decide, by
    rw [(retrieveLatestAndClear_latest (NewMailbox 5) 0 5
      [MailboxOp.deliver 1, MailboxOp.deliver 2, MailboxOp.deliver 3,
        MailboxOp.retrieve]).2.2.2.2 (by decide)]
    decide⟩

/-! ## C20: The router on a fulfillment log -/

/-- C20, refuted as stated: the fulfillment log is not consumed and the consumed check
succeeds, but the write of the marker fails; the counter and the heap are updated and
the log is not marked consumed. -/
theorem fulfilled_log_marker_write_fails :
    shouldProcessLog (exLsn exDb []).db false exFulfilledLb = true ∧
      handleLog (exLsn exDb []) { wasAlreadyConsumedErr := false, markConsumedErr := true }
          exFulfilledLb 3
        = { exLsn exDb [] with
            respCount := [(7, 1)]
            blockNumberToReqID := [{ blockNumber := 150, reqID := 7 }] } ∧
      exFulfilledLb.id ∉
        (handleLog (exLsn exDb []) { wasAlreadyConsumedErr := false, markConsumedErr := true }
          exFulfilledLb 3).db.consumed := by
  decide

/-- C20, as amended.  For a `RandomWordsFulfilled` broadcast for request `X` at block `n`:
when the consumed check succeeds and the log is not consumed, `handleLog` adds 1 to
`respCount[X]` as a `uint64` (exactly 1 below `2^64 - 1`), puts the marker `(n, X)` in the
heap and calls `markLogAsConsumed`, which marks the log when its write succeeds and
leaves the store as it is otherwise; when the log is consumed or the check fails,
`handleLog` changes nothing.  In both cases the pending set and the counters of all
other request IDs stay as they are. -/
theorem handleLog_fulfilled (lsn : listenerV3) (env : HandleEnv) (lb : Broadcast)
    (minConfs : Nat) (v : RandomWordsFulfilled)
    (hd : lb.decodedLog = DecodedLog.fulfilled v) :
    (env.wasAlreadyConsumedErr = false → lb.id ∉ lsn.db.consumed →
        handleLog lsn env lb minConfs =
          { lsn with
            respCount := mapSet lsn.respCount v.RequestId
              (add64 (mapGet lsn.respCount v.RequestId) 1)
            blockNumberToReqID :=
              { blockNumber := v.BlockNumber, reqID := v.RequestId } :: lsn.blockNumberToReqID
            db := markLogAsConsumed lsn.db env.markConsumedErr lb } ∧
        (mapGet lsn.respCount v.RequestId + 1 < u64 →
          mapGet (handleLog lsn env lb minConfs).respCount v.RequestId =
            mapGet lsn.respCount v.RequestId + 1) ∧
        (env.markConsumedErr = false →
          (handleLog lsn env lb minConfs).db.consumed = lb.id :: lsn.db.consumed) ∧
        (env.markConsumedErr = true → (handleLog lsn env lb minConfs).db = lsn.db)) ∧
      (env.wasAlreadyConsumedErr = true ∨ lb.id ∈ lsn.db.consumed →
        handleLog lsn env lb minConfs = lsn) ∧
      (handleLog lsn env lb minConfs).reqs = lsn.reqs ∧
      (∀ Y, Y ≠ v.RequestId →
        mapGet (handleLog lsn env lb minConfs).respCount Y = mapGet lsn.respCount Y) := by
  have hyes : shouldProcessLog lsn.db env.wasAlreadyConsumedErr lb = true →
      handleLog lsn env lb minConfs =
        { lsn with
          respCount := mapSet lsn.respCount v.RequestId
            (add64 (mapGet lsn.respCount v.RequestId) 1)
          blockNumberToReqID :=
            { blockNumber := v.BlockNumber, reqID := v.RequestId } :: lsn.blockNumberToReqID
          db := markLogAsConsumed lsn.db env.markConsumedErr lb } := by
    intro hs
    simp [handleLog, hd, hs]
  have hno : shouldProcessLog lsn.db env.wasAlreadyConsumedErr lb = false →
      handleLog lsn env lb minConfs = lsn := by
    intro hs
    simp [handleLog, hd, hs]
  refine ⟨?_, ?_, ?_, ?_⟩
  · intro he hc
    have hs : shouldProcessLog lsn.db env.wasAlreadyConsumedErr lb = true := by
      cases h : shouldProcessLog lsn.db env.wasAlreadyConsumedErr lb
      · rcases (shouldProcessLog_eq_false _ _ _).mp h with h1 | h1
        · rw [he] at h1
          cases h1
        · exact absurd h1 hc
      · rfl
    rw [hyes hs]
    refine ⟨rfl, ?_, ?_, ?_⟩
    · intro hlt
      simp only [mapGet_mapSet, if_true, add64]
      exact Nat.mod_eq_of_lt hlt
    · intro hw
      rw [markLogAsConsumed_consumed, hw]
      simp
    · intro hw
      simp [markLogAsConsumed, MarkConsumed, hw]
  · intro h
    exact hno ((shouldProcessLog_eq_false _ _ _).mpr h)
  · cases hs : shouldProcessLog lsn.db env.wasAlreadyConsumedErr lb
    · rw [hno hs]
    · rw [hyes hs]
  · intro Y hY
    cases hs : shouldProcessLog lsn.db env.wasAlreadyConsumedErr lb
    · rw [hno hs]
    · rw [hyes hs]
      simp only [mapGet_mapSet, hY, if_false]

/-- C20 as amended, at an instance: the first fulfillment log for request 7 sets its
counter to 1 and is marked consumed; the counter of request 8 stays 0. -/
theorem handleLog_fulfilled_witness :
    mapGet (handleLog (exLsn exDb []) exHandleEnv exFulfilledLb 3).respCount 7 = 1 ∧
      (handleLog (exLsn exDb []) exHandleEnv exFulfilledLb 3).db.consumed = [4] ∧
      mapGet (handleLog (exLsn exDb []) exHandleEnv exFulfilledLb 3).respCount 8 = 0 :=
  ⟨((handleLog_fulfilled (exLsn exDb []) exHandleEnv exFulfilledLb 3
      { RequestId := 7, BlockNumber := 150 } rfl).1 rfl (by decide)).2.1 (by decide),
    ((handleLog_fulfilled (exLsn exDb []) exHandleEnv exFulfilledLb 3
      { RequestId := 7, BlockNumber := 150 } rfl).1 rfl (by decide)).2.2.1 rfl,
    (handleLog_fulfilled (exLsn exDb []) exHandleEnv exFulfilledLb 3
      { RequestId := 7, BlockNumber := 150 } rfl).2.2.2 8 (by decide)⟩

/-! ## Lemmas on the router, the pass and the transaction -/

theorem shouldProcessLog_eq_true (db : DB) (err : Bool) (lb : Broadcast) :
    shouldProcessLog db err lb = true ↔ err = false ∧ lb.id ∉ db.consumed := by
  unfold shouldProcessLog WasAlreadyConsumed
  cases err <;> simp

theorem processRequestsPerSub_eq_on (cfg : Config) (lsn : listenerV3) (env : PassEnv)
    (A : Nat) (B : Int) (reqs : List pendingRequest) :
    processRequestsPerSub cfg lsn env A B reqs =
      processRequestsPerSubOn cfg lsn
        (reservedLinkQuery lsn.db env.reservedQueryErr env.ownFirst A) env.iter A B reqs := by
  unfold processRequestsPerSub processRequestsPerSubOn MaybeSubtractReservedLink
  rfl

theorem Transact_fulfillmentTx_ok (cfg : Config) (e : IterEnv) (A : Nat)
    (req : pendingRequest) (sim : Simulation) (db : DB)
    (h1 : e.insertFinishedRunErr = false) (h2 : e.txMarkConsumedErr = false)
    (h3 : e.createEthTransactionErr = false) (h4 : e.commitErr = false) :
    Transact db e.commitErr (fulfillmentTx cfg e A req sim) =
      some { consumed := req.lb.id :: db.consumed
             eth_txes := db.eth_txes ++ [newTx cfg A req sim]
             pipeline_runs := sim.run :: db.pipeline_runs } := by
  unfold Transact fulfillmentTx InsertFinishedRun MarkConsumed CreateEthTransaction
  simp [h1, h2, h3, h4]

/-- What an iteration adds to the events, and that it enqueues within the balance. -/
theorem iteration_enqueue_le (cfg : Config) (e : IterEnv) (A i : Nat) (req : pendingRequest)
    (st : LoopState) :
    ∃ new, (iteration cfg e A i req st).1.events = st.events ++ new ∧
      ∀ j l c, Event.enqueue j l c ∈ new → (c : Int) ≤ st.startBalance := by
  have hc := iteration_cases cfg e A i req st
  generalize iteration cfg e A i req st = res at hc ⊢
  cases hc with
  | ret h => exact ⟨[], by simp, by simp⟩
  | fulfilled h hf => exact ⟨_, rfl, by simp⟩
  | skipped h hf hs => exact ⟨_, rfl, by simp⟩
  | insufficient sim h hf hs hb => exact ⟨_, rfl, by simp⟩
  | enqueue sim h hf hs hb ht =>
    refine ⟨_, rfl, ?_⟩
    intro j l c hmem
    simp only [List.mem_cons, reduceCtorEq, Event.enqueue.injEq, List.mem_singleton,
      List.not_mem_nil, or_false, false_or] at hmem
    obtain ⟨_, _, hc⟩ := hmem
    subst hc
    exact not_lt.mp hb

/-- The balance only goes down, never below `min(balance at the start, 0)`, and from a
negative balance nothing is enqueued. -/
theorem requestLoop_no_over_commitment (cfg : Config) (env : Nat → IterEnv) (A : Nat)
    (reqs : List pendingRequest) (i : Nat) (st : LoopState) :
    (requestLoop cfg env A i reqs st).1.startBalance ≤ st.startBalance ∧
      min st.startBalance 0 ≤ (requestLoop cfg env A i reqs st).1.startBalance ∧
      (st.startBalance < 0 →
        enqueuedLogs (requestLoop cfg env A i reqs st).1.events = enqueuedLogs st.events) :=
  requestLoop_rel cfg env A
    (fun a b => b.startBalance ≤ a.startBalance ∧ min a.startBalance 0 ≤ b.startBalance ∧
      (a.startBalance < 0 → enqueuedLogs b.events = enqueuedLogs a.events))
    (fun a => ⟨le_refl _, min_le_left _ _, fun _ => rfl⟩)
    (fun a b c h1 h2 => by
      obtain ⟨h11, h12, h13⟩ := h1
      obtain ⟨h21, h22, h23⟩ := h2
      refine ⟨le_trans h21 h11, ?_, ?_⟩
      · have : min a.startBalance 0 ≤ min b.startBalance 0 :=
          le_min h12 (min_le_right _ _)
        exact le_trans this h22
      · intro ha
        rw [h23 (lt_of_le_of_lt h11 ha), h13 ha])
    (fun e i req st => by
      have hc := iteration_cases cfg e A i req st
      generalize iteration cfg e A i req st = res at hc ⊢
      cases hc with
      | ret h => exact ⟨le_refl _, min_le_left _ _, fun _ => rfl⟩
      | fulfilled h hf =>
        exact ⟨le_refl _, min_le_left _ _, fun _ => by simp [enqueuedLogs]⟩
      | skipped h hf hs =>
        exact ⟨le_refl _, min_le_left _ _, fun _ => by simp [enqueuedLogs]⟩
      | insufficient sim h hf hs hb =>
        exact ⟨le_refl _, min_le_left _ _, fun _ => by simp [enqueuedLogs]⟩
      | enqueue sim h hf hs hb ht =>
        have hle : (sim.maxLink : Int) ≤ st.startBalance := not_lt.mp hb
        have h0 : (0 : Int) ≤ (sim.maxLink : Int) := Int.ofNat_nonneg _
        refine ⟨by simp only; omega, ?_, ?_⟩
        · simp only
          exact le_trans (min_le_right _ _) (by omega)
        · intro hneg
          omega) reqs i st

/-! ## C21: The router on a request log -/

/-- C21. Router, request log.  For a broadcast that is not a decoded
`RandomWordsFulfilled` and whose raw log parses as the request `req`, `handleLog` appends
one pending request at the end of the pending set, with
`confirmedAtBlock = getConfirmedAt(req, minConfs)` and the broadcast as its `lb`, and
changes nothing else: the earlier entries, `respCount`, the heap and the store stay as
they are, and `markLogAsConsumed` is not called. -/
theorem handleLog_request (lsn : listenerV3) (env : HandleEnv) (lb : Broadcast)
    (minConfs : Nat) (req : RandomWordsRequested) (hd : lb.decodedLog = DecodedLog.other)
    (hp : lb.parsed = some req) :
    handleLog lsn env lb minConfs =
        { reqs := lsn.reqs ++
            [{ confirmedAtBlock := getConfirmedAt lsn.respCount req minConfs
               req := req
               lb := lb }]
          respCount := lsn.respCount
          blockNumberToReqID := lsn.blockNumberToReqID
          db := lsn.db } ∧
      handleLogMarks lsn env lb = [] := by
  constructor
  · simp [handleLog, hd, hp]
  · simp [handleLogMarks, hd, hp]

/-- C21, at an instance: the request of log 2 is appended behind the pending request of
log 1, confirmed at block 103. -/
theorem handleLog_request_witness :
    handleLog (exLsn exDb [exPending 1 1 11]) exHandleEnv (exLb 2 1 12) 3 =
      exLsn exDb [exPending 1 1 11, exPending 2 1 12] := by
  rw [(handleLog_request (exLsn exDb [exPending 1 1 11]) exHandleEnv (exLb 2 1 12) 3
    (exReq 1 12) rfl rfl).1]
  decide

/-! ## C22: The router on a log that does not parse -/

/-- C22. Router, parse failure.  For a broadcast that is not a decoded
`RandomWordsFulfilled` and whose raw log does not parse, `handleLog` leaves the pending
set, `respCount` and the heap as they are, and calls `markLogAsConsumed` for the log,
once, exactly when the consumed check succeeds and the log is not consumed; the store
changes through that call only. -/
theorem handleLog_parse_failure (lsn : listenerV3) (env : HandleEnv) (lb : Broadcast)
    (minConfs : Nat) (hd : lb.decodedLog = DecodedLog.other) (hp : lb.parsed = none) :
    (handleLog lsn env lb minConfs).reqs = lsn.reqs ∧
      (handleLog lsn env lb minConfs).respCount = lsn.respCount ∧
      (handleLog lsn env lb minConfs).blockNumberToReqID = lsn.blockNumberToReqID ∧
      (handleLogMarks lsn env lb = [lb.id] ↔
        env.wasAlreadyConsumedErr = false ∧ lb.id ∉ lsn.db.consumed) ∧
      (handleLogMarks lsn env lb = [lb.id] →
        (handleLog lsn env lb minConfs).db = markLogAsConsumed lsn.db env.markConsumedErr lb) ∧
      (handleLogMarks lsn env lb ≠ [lb.id] →
        handleLogMarks lsn env lb = [] ∧ (handleLog lsn env lb minConfs).db = lsn.db) := by
  cases hs : shouldProcessLog lsn.db env.wasAlreadyConsumedErr lb
  · have hn : ¬ (env.wasAlreadyConsumedErr = false ∧ lb.id ∉ lsn.db.consumed) := by
      rw [← shouldProcessLog_eq_true, hs]
      simp
    have h1 : handleLog lsn env lb minConfs = lsn := by
      simp [handleLog, hd, hp, hs]
    have h2 : handleLogMarks lsn env lb = [] := by
      simp [handleLogMarks, hd, hp, hs]
    rw [h1, h2]
    refine ⟨rfl, rfl, rfl, ?_, ?_, ?_⟩
    · constructor
      · intro h
        cases h
      · intro h
        exact absurd h hn
    · intro h
      cases h
    · intro _
      exact ⟨rfl, rfl⟩
  · have hy : env.wasAlreadyConsumedErr = false ∧ lb.id ∉ lsn.db.consumed :=
      (shouldProcessLog_eq_true _ _ _).mp hs
    have h1 : handleLog lsn env lb minConfs =
        { lsn with db := markLogAsConsumed lsn.db env.markConsumedErr lb } := by
      simp [handleLog, hd, hp, hs]
    have h2 : handleLogMarks lsn env lb = [lb.id] := by
      simp [handleLogMarks, hd, hp, hs]
    rw [h1, h2]
    exact ⟨rfl, rfl, rfl, ⟨fun _ => hy, fun _ => rfl⟩, fun _ => rfl,
      fun h => absurd rfl h⟩

/-- C22, at an instance: log 3 does not parse and is not consumed, so it is marked. -/
theorem handleLog_parse_failure_witness :
    handleLogMarks (exLsn exDb []) exHandleEnv
        { id := 3, decodedLog := DecodedLog.other, parsed := none } = [3] ∧
      (handleLog (exLsn exDb []) exHandleEnv
        { id := 3, decodedLog := DecodedLog.other, parsed := none } 3).db.consumed = [3] := by
  have h := handleLog_parse_failure (exLsn exDb []) exHandleEnv
    { id := 3, decodedLog := DecodedLog.other, parsed := none } 3 rfl rfl
  have hm := h.2.2.2.1.mpr ⟨rfl, by decide⟩
  refine ⟨hm, ?_⟩
  rw [h.2.2.2.2.1 hm]
  decide

/-! ## C23: Failure of the reserved-budget query -/

/-- C23. Reserved-budget failure aborts the pass.  When the reserved-budget query fails,
or scans a non-empty string that is not a base-10 integer, the body of
`MaybeSubtractReservedLink` returns an error with the starting balance as it was, and
`processRequestsPerSub` returns at once: no event, the store and the pending set as they
were.  With the query of the model this is the case of a failed query. -/
theorem reserved_budget_failure_aborts (cfg : Config) (lsn : listenerV3) (env : PassEnv)
    (A : Nat) (B : Int) (reqs : List pendingRequest) (reservedLink : Option String)
    (hfail : reservedLink = none ∨
      ∃ s, reservedLink = some s ∧ s ≠ "" ∧ SetString10 s = none) :
    (∃ msg, subtractReservedLink reservedLink B = (B, some msg)) ∧
      processRequestsPerSubOn cfg lsn reservedLink env.iter A B reqs =
        (lsn, { exit := none, balance := B, processed := [], events := [] }) ∧
      (env.reservedQueryErr = true →
        (∃ msg, MaybeSubtractReservedLink lsn.db env.reservedQueryErr env.ownFirst A B
          = (B, some msg)) ∧
        processRequestsPerSub cfg lsn env A B reqs =
          (lsn, { exit := none, balance := B, processed := [], events := [] })) := by
  have hsub : ∃ msg, subtractReservedLink reservedLink B = (B, some msg) := by
    rcases hfail with h | ⟨s, h, hne, hparse⟩
    · exact ⟨_, by rw [h]; rfl⟩
    · exact ⟨"unable to convert returned link", by
        rw [h]
        simp [subtractReservedLink, hne, hparse]⟩
  refine ⟨hsub, ?_, ?_⟩
  · obtain ⟨msg, hm⟩ := hsub
    unfold processRequestsPerSubOn
    rw [hm]
  · intro he
    have hq : reservedLinkQuery lsn.db env.reservedQueryErr env.ownFirst A = none := by
      simp [reservedLinkQuery, he]
    have hm : MaybeSubtractReservedLink lsn.db env.reservedQueryErr env.ownFirst A B =
        (B, some "query failed") := by
      unfold MaybeSubtractReservedLink
      rw [hq]
      rfl
    exact ⟨⟨_, hm⟩, processRequestsPerSub_err cfg lsn env A B B reqs _ hm⟩

/-- C23, at an instance: the scanned string `12a` is no integer, and the pass over a
pending request leaves the listener as it is. -/
theorem reserved_budget_failure_aborts_witness :
    processRequestsPerSubOn exCfg (exLsn exDb [exPending 1 1 11]) (some "12a")
        (fun _ => exIter 100) 5 1000 [exPending 1 1 11] =
      (exLsn exDb [exPending 1 1 11],
        { exit := none, balance := 1000, processed := [], events := [] }) :=
  (reserved_budget_failure_aborts exCfg (exLsn exDb [exPending 1 1 11])
    (exEnv (fun _ => exIter 100)) 5 1000 [exPending 1 1 11] (some "12a")
    (Or.inr ⟨"12a", rfl, by decide, by decide⟩)).2.1

/-! ## C24: The enqueue and the consumed marker -/

/-- C24. Enqueue is atomic with the consumed marker.  For a request that reaches the
enqueue step (its log is not consumed, it is not found fulfilled, the simulation gives
`sim` and the balance covers `sim.maxLink`): the transaction created carries
`MaxLink = sim.maxLink`; when the three writes and the commit succeed, the finished run,
the consumed marker and the transaction are all in the store, the balance is reduced by
`sim.maxLink` and the request is recorded as processed; when any of them fails, the
store, the balance and the processed keys are as before. -/
theorem enqueue_is_atomic (cfg : Config) (e : IterEnv) (A i : Nat) (req : pendingRequest)
    (st : LoopState) (sim : Simulation)
    (hlog : shouldProcessLog st.db e.wasAlreadyConsumedErr req.lb = true)
    (hf : alreadyFulfilled e.getCommitment = false)
    (hs : getMaxLinkForFulfillment e.executeRun = some sim)
    (hb : ¬ st.startBalance < (sim.maxLink : Int)) :
    (newTx cfg A req sim).MaxLink = some sim.maxLink ∧
      (e.insertFinishedRunErr = false ∧ e.txMarkConsumedErr = false ∧
          e.createEthTransactionErr = false ∧ e.commitErr = false →
        iteration cfg e A i req st =
          ({ db := { consumed := req.lb.id :: st.db.consumed
                     eth_txes := st.db.eth_txes ++ [newTx cfg A req sim]
                     pipeline_runs := sim.run :: st.db.pipeline_runs }
             startBalance := st.startBalance - (sim.maxLink : Int)
             processed := req.req.RequestId :: st.processed
             events := st.events ++
               [Event.simulate i, Event.enqueue i req.lb.id sim.maxLink] },
            Control.next)) ∧
      (e.insertFinishedRunErr = true ∨ e.txMarkConsumedErr = true ∨
          e.createEthTransactionErr = true ∨ e.commitErr = true →
        iteration cfg e A i req st =
          ({ db := st.db
             startBalance := st.startBalance
             processed := st.processed
             events := st.events ++ [Event.simulate i] }, Control.next)) := by
  refine ⟨rfl, ?_, ?_⟩
  · rintro ⟨h1, h2, h3, h4⟩
    exact iteration_enqueue cfg e A i req st sim _ hlog hf hs hb
      (Transact_fulfillmentTx_ok cfg e A req sim st.db h1 h2 h3 h4)
  · intro h
    exact iteration_txfail cfg e A i req st sim hlog hf hs hb
      (Transact_fulfillmentTx_none cfg e A req sim st.db h)

/-- C24, at an instance: the commit fails, and the store and the balance stay as they
were. -/
theorem enqueue_is_atomic_witness :
    iteration exCfg { exIter 100 with commitErr := true } 5 0 (exPending 1 1 11)
        { db := exDb, startBalance := 1000, processed := [], events := [] } =
      ({ db := exDb, startBalance := 1000, processed := [], events := [Event.simulate 0] },
        Control.next) :=
  (enqueue_is_atomic exCfg { exIter 100 with commitErr := true } 5 0 (exPending 1 1 11)
    { db := exDb, startBalance := 1000, processed := [], events := [] } (exSim 100)
    (by decide) (by decide) (by decide) (by decide)).2.2 (Or.inr (Or.inr (Or.inr rfl)))

/-! ## C25: Post-pass compaction -/

/-- C25. Post-pass compaction.  After a pass over `R` whose loop runs to its end or to
the insufficient-funds break, the pending set is the list of the requests of `R`, in the
order of `R`, whose request ID is not among the keys recorded as processed in the pass;
an entry that is not in `R` is not in the pending set afterwards, whatever was pending
before. -/
theorem post_pass_compaction (cfg : Config) (lsn : listenerV3) (env : PassEnv) (A : Nat)
    (B : Int) (R : List pendingRequest)
    (hex : (processRequestsPerSub cfg lsn env A B R).2.exit = some Exit.completed ∨
      (processRequestsPerSub cfg lsn env A B R).2.exit = some Exit.broke) :
    (processRequestsPerSub cfg lsn env A B R).1.reqs =
        R.filter (fun req =>
          !((processRequestsPerSub cfg lsn env A B R).2.processed.contains
            req.req.RequestId)) ∧
      ∀ r, r ∉ R → r ∉ (processRequestsPerSub cfg lsn env A B R).1.reqs := by
  have hreqs : (processRequestsPerSub cfg lsn env A B R).1.reqs =
      R.filter (fun req =>
        !((processRequestsPerSub cfg lsn env A B R).2.processed.contains
          req.req.RequestId)) := by
    cases hres : MaybeSubtractReservedLink lsn.db env.reservedQueryErr env.ownFirst A B with
    | mk E err =>
      cases err with
      | some msg =>
        rw [processRequestsPerSub_err cfg lsn env A B E R msg hres] at hex
        simp at hex
      | none =>
        rw [processRequestsPerSub_eq cfg lsn env A B E R hres] at hex ⊢
        simp only at hex ⊢
        have hne : (requestLoop cfg env.iter A 0 R
            { db := lsn.db, startBalance := E, processed := [], events := [] }).2
            ≠ Exit.returned := by
          intro h
          rw [h] at hex
          simp at hex
        rw [if_neg hne]
  refine ⟨hreqs, ?_⟩
  intro r hr hmem
  rw [hreqs] at hmem
  exact hr (List.mem_filter.mp hmem).1

/-- C25, at an instance: the pending set holds requests of subscriptions 1 and 2; the
pass over the two requests of subscription 1 enqueues the first and breaks at the
second, and the pending set becomes the second alone. -/
theorem post_pass_compaction_witness :
    (processRequestsPerSub exCfg
        (exLsn exDb [exPending 1 1 11, exPending 2 2 12, exPending 3 1 13])
        (exEnv (fun i => exIter (exCosts i))) 5 1000
        [exPending 1 1 11, exPending 3 1 13]).1.reqs = [exPending 3 1 13] ∧
      exPending 2 2 12 ∉
        (processRequestsPerSub exCfg
          (exLsn exDb [exPending 1 1 11, exPending 2 2 12, exPending 3 1 13])
          (exEnv (fun i => exIter (exCosts i))) 5 1000
          [exPending 1 1 11, exPending 3 1 13]).1.reqs :=
  ⟨by decide,
    (post_pass_compaction exCfg
      (exLsn exDb [exPending 1 1 11, exPending 2 2 12, exPending 3 1 13])
      (exEnv (fun i => exIter (exCosts i))) 5 1000 [exPending 1 1 11, exPending 3 1 13]
      (Or.inr (by decide))).2 (exPending 2 2 12) (by decide)⟩

/-! ## C26: Enqueued requests and the early return -/

/-- C26, at the failing input.  Log 1 was delivered twice, so the list of the pass holds
its request twice, followed by the request of log 3.  The pass enqueues the first entry,
finds the log of the second consumed and returns from inside the loop: the pending set
is as before, with the enqueued request in it.  The next pass over the same list returns
at the first entry, and the request of log 3 is never simulated. -/
theorem enqueued_request_stays_after_return :
    processRequestsPerSub exCfg
        (exLsn exDb [exPending 1 1 11, exPending 1 1 11, exPending 3 1 13])
        (exEnv (fun _ => exIter 100)) 5 1000
        [exPending 1 1 11, exPending 1 1 11, exPending 3 1 13] =
      ({ exLsn exDb [exPending 1 1 11, exPending 1 1 11, exPending 3 1 13] with
          db := { consumed := [1]
                  eth_txes := [newTx exCfg 5 (exPending 1 1 11) (exSim 100)]
                  pipeline_runs := [0] } },
        { exit := some Exit.returned
          balance := 900
          processed := [11]
          events := [Event.simulate 0, Event.enqueue 0 1 100] }) ∧
      (processRequestsPerSub exCfg
        (processRequestsPerSub exCfg
          (exLsn exDb [exPending 1 1 11, exPending 1 1 11, exPending 3 1 13])
          (exEnv (fun _ => exIter 100)) 5 1000
          [exPending 1 1 11, exPending 1 1 11, exPending 3 1 13]).1
        (exEnv (fun _ => exIter 100)) 5 1000
        [exPending 1 1 11, exPending 1 1 11, exPending 3 1 13]).2 =
        { exit := some Exit.returned, balance := 900, processed := [], events := [] } := by
  decide

/-! ## C27: No over-commitment -/

/-- C27. No over-commitment within a pass.  Let the reserved-budget subtraction of a
pass give the effective balance `E`.  An iteration enqueues a transaction of cost `c`
only from a running balance of at least `c`; after any beginning `pre` of the list, and
so at the end of the pass, the running balance is at least `min(E, 0)`; the sum of the
costs enqueued in the pass is at most `E` when `E ≥ 0`; and nothing is enqueued when
`E < 0`. -/
theorem no_over_commitment (cfg : Config) (lsn : listenerV3) (env : PassEnv) (A : Nat)
    (B E : Int) (reqs : List pendingRequest)
    (hres : MaybeSubtractReservedLink lsn.db env.reservedQueryErr env.ownFirst A B
      = (E, none)) :
    (∀ e i req st j l c,
        Event.enqueue j l c ∈ (iteration cfg e A i req st).1.events →
        Event.enqueue j l c ∉ st.events → (c : Int) ≤ st.startBalance) ∧
      (∀ pre post, reqs = pre ++ post →
        min E 0 ≤ (requestLoop cfg env.iter A 0 pre
          { db := lsn.db, startBalance := E, processed := [], events := [] }).1.startBalance) ∧
      min E 0 ≤ (processRequestsPerSub cfg lsn env A B reqs).2.balance ∧
      (0 ≤ E →
        (enqueuedCost (processRequestsPerSub cfg lsn env A B reqs).2.events : Int) ≤ E) ∧
      (E < 0 → enqueuedLogs (processRequestsPerSub cfg lsn env A B reqs).2.events = []) := by
  refine ⟨?_, ?_, ?_, ?_, ?_⟩
  · intro e i req st j l c hmem hnot
    obtain ⟨new, hn, hle⟩ := iteration_enqueue_le cfg e A i req st
    rw [hn] at hmem
    rcases List.mem_append.mp hmem with h | h
    · exact absurd h hnot
    · exact hle j l c h
  · intro pre post _
    exact (requestLoop_no_over_commitment cfg env.iter A pre 0
      { db := lsn.db, startBalance := E, processed := [], events := [] }).2.1
  · rw [processRequestsPerSub_eq cfg lsn env A B E reqs hres]
    exact (requestLoop_no_over_commitment cfg env.iter A reqs 0
      { db := lsn.db, startBalance := E, processed := [], events := [] }).2.1
  · intro h0
    rw [processRequestsPerSub_eq cfg lsn env A B E reqs hres]
    have hb := requestLoop_balance cfg env.iter A reqs 0
      { db := lsn.db, startBalance := E, processed := [], events := [] }
    have hm := (requestLoop_no_over_commitment cfg env.iter A reqs 0
      { db := lsn.db, startBalance := E, processed := [], events := [] }).2.1
    simp only [enqueuedCost, List.map_nil, List.sum_nil, Nat.cast_zero, add_zero] at hb
    simp only [enqueuedCost] at hb ⊢
    simp only at hm
    have : min E 0 = 0 := min_eq_right h0
    omega
  · intro hneg
    rw [processRequestsPerSub_eq cfg lsn env A B E reqs hres]
    have h := (requestLoop_no_over_commitment cfg env.iter A reqs 0
      { db := lsn.db, startBalance := E, processed := [], events := [] }).2.2 hneg
    simpa [enqueuedLogs] using h

/-- C27, at an instance: with 1100 reserved against a balance of 1000 the effective
balance is -100 and the pass enqueues nothing. -/
theorem no_over_commitment_witness :
    enqueuedLogs (processRequestsPerSub exCfg
      (exLsn { exDb with eth_txes := [{ exOtherTx with fromAddress := 5, MaxLink := some 1100 }] }
        [exPending 1 1 11])
      (exEnv (fun _ => exIter 100)) 5 1000 [exPending 1 1 11]).2.events = [] :=
  (no_over_commitment exCfg
    (exLsn { exDb with eth_txes := [{ exOtherTx with fromAddress := 5, MaxLink := some 1100 }] }
      [exPending 1 1 11])
    (exEnv (fun _ => exIter 100)) 5 1000 (-100) [exPending 1 1 11] (by decide)).2.2.2.2
    (by decide)

/-! ## Lemmas on the tracker under the router, the pruning and the scheduler -/

theorem mem_of_lookup (m : List (Nat × Nat)) (k v : Nat) (h : m.lookup k = some v) :
    (k, v) ∈ m := by
  induction m with
  | nil => simp at h
  | cons p m ih =>
    obtain ⟨a, b⟩ := p
    simp only [List.lookup_cons] at h
    by_cases hk : k = a
    · subst hk
      simp only [beq_self_eq_true, Option.some.injEq] at h
      subst h
      exact List.mem_cons_self _ _
    · have : (k == a) = false := by simpa using hk
      rw [this] at h
      exact List.mem_cons_of_mem _ (ih h)

theorem mapGet_mapDelete (m : List (Nat × Nat)) (k j : Nat) :
    mapGet (mapDelete m k) j = if j = k then 0 else mapGet m j := by
  unfold mapGet
  rw [lookup_mapDelete]
  by_cases hj : j = k <;> simp [hj]

theorem mapGet_le_of_tracked (respCount : List (Nat × Nat)) (heap : List fulfilledReqV2)
    (h : Tracked respCount heap) (k : Nat) :
    mapGet respCount k ≤ heap.countP (fun m => m.reqID == k) := by
  unfold mapGet
  cases hl : respCount.lookup k with
  | none => simp
  | some v => exact (h (k, v) (mem_of_lookup _ _ _ hl)).2

theorem countP_le_length_heap (heap : List fulfilledReqV2) (k : Nat) :
    heap.countP (fun m => m.reqID == k) ≤ heap.length :=
  List.countP_le_length _

/-- The pass touches neither the counters nor the heap. -/
theorem processRequestsPerSub_tracker (cfg : Config) (lsn : listenerV3) (env : PassEnv)
    (A : Nat) (B : Int) (reqs : List pendingRequest) :
    (processRequestsPerSub cfg lsn env A B reqs).1.respCount = lsn.respCount ∧
      (processRequestsPerSub cfg lsn env A B reqs).1.blockNumberToReqID
        = lsn.blockNumberToReqID := by
  unfold processRequestsPerSub
  split
  · simp
  · split <;> simp

/-- The loop over the subscriptions touches neither the counters nor the heap. -/
theorem subLoop_tracker (cfg : Config) (env : TickEnv) :
    ∀ (l : List (Nat × List pendingRequest)) (i : Nat) (s : listenerV3 × List Event),
      (subLoop cfg env i l s).1.1.respCount = s.1.respCount ∧
        (subLoop cfg env i l s).1.1.blockNumberToReqID = s.1.blockNumberToReqID := by
  intro l
  induction l with
  | nil => intro i s; simp [subLoop]
  | cons x rest ih =>
    intro i s
    obtain ⟨k, reqs⟩ := x
    simp only [subLoop]
    cases hg : (env.sub i).getSubscription with
    | none => simp
    | some B =>
      simp only
      cases hk : (env.sub i).sendingKeys with
      | none => exact ih (i + 1) s
      | some key =>
        simp only
        obtain ⟨h1, h2⟩ := ih (i + 1)
          ((processRequestsPerSub cfg s.1 (env.sub i).pass
              (match env.jobFromAddress with
                | some a => a
                | none => key) B reqs).1,
            s.2 ++ (processRequestsPerSub cfg s.1 (env.sub i).pass
              (match env.jobFromAddress with
                | some a => a
                | none => key) B reqs).2.events)
        obtain ⟨h3, h4⟩ := processRequestsPerSub_tracker cfg s.1 (env.sub i).pass
          (match env.jobFromAddress with
            | some a => a
            | none => key) B reqs
        simp only at h1 h2
        exact ⟨h1.trans h3, h2.trans h4⟩

/-- The loop returns from inside exactly when a subscription read fails: with every
read a success it runs to its end. -/
theorem subLoop_completes (cfg : Config) (env : TickEnv) :
    ∀ (l : List (Nat × List pendingRequest)) (i : Nat) (s : listenerV3 × List Event),
      (∀ j, j < l.length → (env.sub (i + j)).getSubscription ≠ none) →
        (subLoop cfg env i l s).2 = false := by
  intro l
  induction l with
  | nil => intro i s _; simp [subLoop]
  | cons x rest ih =>
    intro i s h
    obtain ⟨k, reqs⟩ := x
    simp only [subLoop]
    have h0 := h 0 (by simp)
    simp only [Nat.add_zero] at h0
    have hrest : ∀ j, j < rest.length → (env.sub (i + 1 + j)).getSubscription ≠ none := by
      intro j hj
      have := h (j + 1) (by simp; omega)
      rwa [show i + (j + 1) = i + 1 + j by omega] at this
    cases hg : (env.sub i).getSubscription with
    | none => exact absurd hg h0
    | some B =>
      simp only
      cases hk : (env.sub i).sendingKeys with
      | none => exact ih (i + 1) s hrest
      | some key => exact ih (i + 1) _ hrest

/-- A failed subscription read makes the loop return from inside. -/
theorem subLoop_returns (cfg : Config) (env : TickEnv) :
    ∀ (l : List (Nat × List pendingRequest)) (i : Nat) (s : listenerV3 × List Event) (j : Nat),
      j < l.length → (env.sub (i + j)).getSubscription = none →
        (subLoop cfg env i l s).2 = true := by
  intro l
  induction l with
  | nil => intro i s j hj; simp at hj
  | cons x rest ih =>
    intro i s j hj hnone
    obtain ⟨k, reqs⟩ := x
    simp only [subLoop]
    cases hg : (env.sub i).getSubscription with
    | none => rfl
    | some B =>
      simp only
      have hj0 : j ≠ 0 := by
        intro h0
        subst h0
        simp only [Nat.add_zero] at hnone
        rw [hnone] at hg
        exact absurd hg (by simp)
      obtain ⟨j', rfl⟩ := Nat.exists_eq_succ_of_ne_zero hj0
      have hj' : j' < rest.length := by simpa using hj
      have hn' : (env.sub (i + 1 + j')).getSubscription = none := by
        rwa [show i + 1 + j' = i + (j' + 1) by omega]
      cases hk : (env.sub i).sendingKeys with
      | none => exact ih (i + 1) s j' hj' hn'
      | some key => exact ih (i + 1) _ j' hj' hn'

/-- The router keeps the tracker consistent while the heap has fewer than `2^64 - 1`
items, and adds at most one item to the heap. -/
theorem handleLog_tracked (lsn : listenerV3) (env : HandleEnv) (lb : Broadcast)
    (minConfs : Nat) (h : Tracked lsn.respCount lsn.blockNumberToReqID)
    (hlen : lsn.blockNumberToReqID.length + 1 < u64) :
    Tracked (handleLog lsn env lb minConfs).respCount
        (handleLog lsn env lb minConfs).blockNumberToReqID ∧
      (handleLog lsn env lb minConfs).blockNumberToReqID.length
        ≤ lsn.blockNumberToReqID.length + 1 := by
  unfold handleLog
  cases hd : lb.decodedLog with
  | other =>
    simp only
    cases hp : lb.parsed with
    | none =>
      simp only
      split
      · exact ⟨h, Nat.le_succ _⟩
      · exact ⟨h, Nat.le_succ _⟩
    | some req => exact ⟨h, Nat.le_succ _⟩
  | fulfilled v =>
    simp only
    split
    · exact ⟨h, Nat.le_succ _⟩
    · refine ⟨?_, by simp⟩
      simp only
      have hget := mapGet_le_of_tracked _ _ h v.RequestId
      have hcl := countP_le_length_heap lsn.blockNumberToReqID v.RequestId
      have hadd : add64 (mapGet lsn.respCount v.RequestId) 1
          = mapGet lsn.respCount v.RequestId + 1 := by
        unfold add64
        exact Nat.mod_eq_of_lt (by omega)
      intro p hp
      simp only [mapSet, List.mem_cons] at hp
      rcases hp with hp | hp
      · subst hp
        simp only [hadd, List.countP_cons, beq_self_eq_true, if_true]
        omega
      · simp only [mapDelete, List.mem_filter] at hp
        obtain ⟨h1, h2⟩ := h p hp.1
        refine ⟨h1, le_trans h2 ?_⟩
        simp only [List.countP_cons]
        omega

/-- The pruning loop keeps the tracker consistent and adds no item to the heap. -/
theorem pruneLoop_tracked (heads : Nat → Option Nat) :
    ∀ (fuel i : Nat) (lsn : listenerV3), Tracked lsn.respCount lsn.blockNumberToReqID →
      Tracked (pruneLoop heads fuel i lsn).respCount
          (pruneLoop heads fuel i lsn).blockNumberToReqID ∧
        (pruneLoop heads fuel i lsn).blockNumberToReqID.length
          ≤ lsn.blockNumberToReqID.length := by
  intro fuel
  induction fuel with
  | zero => intro i lsn h; exact ⟨h, le_refl _⟩
  | succ fuel ih =>
    intro i lsn h
    simp only [pruneLoop]
    cases hm : FindMin lsn.blockNumberToReqID with
    | none => exact ⟨h, le_refl _⟩
    | some m =>
      simp only
      split
      · exact ⟨h, le_refl _⟩
      · rw [DeleteMin_of_FindMin _ _ hm]
        have hmem := (FindMin_spec _ _ hm).1
        have hperm := List.perm_cons_erase hmem
        have hstep : Tracked (mapDelete lsn.respCount m.reqID)
            (lsn.blockNumberToReqID.erase m) := by
          intro p hp
          simp only [mapDelete, List.mem_filter, bne_iff_ne, ne_eq] at hp
          obtain ⟨h1, h2⟩ := h p hp.1
          refine ⟨h1, ?_⟩
          have hc := List.Perm.countP_eq (fun x : fulfilledReqV2 => x.reqID == p.1) hperm
          have hmp : (m.reqID == p.1) = false := by
            simp only [beq_eq_false_iff_ne, ne_eq]
            intro he
            exact hp.2 he.symm
          rw [List.countP_cons, hmp] at hc
          simp only [Bool.false_eq_true, if_false, Nat.add_zero] at hc
          rw [← hc]
          exact h2
        obtain ⟨h3, h4⟩ := ih (i + 1)
          { lsn with
            respCount := mapDelete lsn.respCount m.reqID
            blockNumberToReqID := lsn.blockNumberToReqID.erase m } hstep
        refine ⟨h3, le_trans h4 ?_⟩
        simp only
        exact (List.erase_sublist _ _).length_le

/-- A tick leaves the counters and the heap as they are or as the pruning of them. -/
theorem processPendingVRFRequests_tracker (cfg : Config) (env : TickEnv) (lsn : listenerV3) :
    ((processPendingVRFRequests cfg env lsn).lsn.respCount = lsn.respCount ∧
        (processPendingVRFRequests cfg env lsn).lsn.blockNumberToReqID
          = lsn.blockNumberToReqID) ∨
      ∃ s : listenerV3, s.respCount = lsn.respCount ∧
        s.blockNumberToReqID = lsn.blockNumberToReqID ∧
        (processPendingVRFRequests cfg env lsn).lsn
          = pruneConfirmedRequestCounts env.pruneHeads s := by
  unfold processPendingVRFRequests
  cases hh : env.header with
  | none => exact Or.inl ⟨rfl, rfl⟩
  | some tip =>
    simp only
    split
    · exact Or.inl ⟨rfl, rfl⟩
    · have ht := subLoop_tracker cfg env (env.order (getConfirmedLogsBySub lsn.reqs tip)) 0
        (lsn, [])
      generalize subLoop cfg env 0 (env.order (getConfirmedLogsBySub lsn.reqs tip)) (lsn, [])
        = res at ht
      obtain ⟨s, flag⟩ := res
      cases flag with
      | true => exact Or.inl ht
      | false => exact Or.inr ⟨s.1, ht.1, ht.2, rfl⟩

/-- Every call of the router, the pruning and the scheduler keeps the tracker
consistent while the heap has fewer than `2^64 - 1` items. -/
theorem schedStep_tracked (cfg : Config) (lsn : listenerV3) (op : SchedOp)
    (h : Tracked lsn.respCount lsn.blockNumberToReqID)
    (hlen : lsn.blockNumberToReqID.length + 1 < u64) :
    Tracked (schedStep cfg lsn op).respCount (schedStep cfg lsn op).blockNumberToReqID ∧
      (schedStep cfg lsn op).blockNumberToReqID.length
        ≤ lsn.blockNumberToReqID.length + 1 := by
  cases op with
  | handleLog env lb minConfs => exact handleLog_tracked lsn env lb minConfs h hlen
  | pruneConfirmedRequestCounts heads =>
    obtain ⟨h1, h2⟩ := pruneLoop_tracked heads lsn.blockNumberToReqID.length 0 lsn h
    exact ⟨h1, le_trans h2 (Nat.le_succ _)⟩
  | processPendingVRFRequests env =>
    simp only [schedStep]
    rcases processPendingVRFRequests_tracker cfg env lsn with ⟨h1, h2⟩ | ⟨s, h1, h2, h3⟩
    · rw [h1, h2]
      exact ⟨h, Nat.le_succ _⟩
    · rw [h3]
      have hs : Tracked s.respCount s.blockNumberToReqID := by rw [h1, h2]; exact h
      obtain ⟨h4, h5⟩ := pruneLoop_tracked env.pruneHeads s.blockNumberToReqID.length 0 s hs
      have h6 : (pruneConfirmedRequestCounts env.pruneHeads s).blockNumberToReqID.length
          ≤ s.blockNumberToReqID.length := h5
      rw [h2] at h6
      exact ⟨h4, le_trans h6 (Nat.le_succ _)⟩

theorem schedRun_tracked (cfg : Config) :
    ∀ (ops : List SchedOp) (lsn : listenerV3) (n : Nat),
      Tracked lsn.respCount lsn.blockNumberToReqID →
      lsn.blockNumberToReqID.length ≤ n → n + ops.length < u64 →
        Tracked (schedRun cfg lsn ops).respCount (schedRun cfg lsn ops).blockNumberToReqID ∧
          (schedRun cfg lsn ops).blockNumberToReqID.length ≤ n + ops.length := by
  intro ops
  induction ops with
  | nil => intro lsn n h hn _; exact ⟨h, hn⟩
  | cons op ops ih =>
    intro lsn n h hn hlt
    simp only [List.length_cons] at hlt
    obtain ⟨h1, h2⟩ := schedStep_tracked cfg lsn op h (by omega)
    obtain ⟨h3, h4⟩ := ih (schedStep cfg lsn op) (n + 1) h1 (by omega) (by omega)
    simp only [schedRun, List.foldl_cons, List.length_cons] at h3 h4 ⊢
    exact ⟨h3, by omega⟩

/-- The pruning loop leaves a counter as it is or deletes it. -/
theorem pruneLoop_mapGet (heads : Nat → Option Nat) (X : Nat) :
    ∀ (fuel i : Nat) (lsn : listenerV3),
      mapGet (pruneLoop heads fuel i lsn).respCount X = mapGet lsn.respCount X ∨
        mapGet (pruneLoop heads fuel i lsn).respCount X = 0 := by
  intro fuel
  induction fuel with
  | zero => intro i lsn; exact Or.inl rfl
  | succ fuel ih =>
    intro i lsn
    simp only [pruneLoop]
    cases hm : FindMin lsn.blockNumberToReqID with
    | none => exact Or.inl rfl
    | some m =>
      simp only
      split
      · exact Or.inl rfl
      · rcases ih (i + 1)
          { lsn with
            respCount := mapDelete lsn.respCount m.reqID
            blockNumberToReqID := DeleteMin lsn.blockNumberToReqID } with h | h
        · simp only [mapGet_mapDelete] at h
          by_cases hx : X = m.reqID
          · right
            rw [h, if_pos hx]
          · left
            rw [h, if_neg hx]
        · exact Or.inr h

/-- What one call of the router does to the counter of request `X`. -/
theorem handleLog_mapGet (lsn : listenerV3) (env : HandleEnv) (lb : Broadcast)
    (minConfs X : Nat) :
    mapGet (handleLog lsn env lb minConfs).respCount X =
      if countsFor X lsn env lb then add64 (mapGet lsn.respCount X) 1
      else mapGet lsn.respCount X := by
  unfold handleLog countsFor
  cases hd : lb.decodedLog with
  | other =>
    simp only
    cases hp : lb.parsed with
    | none =>
      simp only
      split <;> simp
    | some req => simp
  | fulfilled v =>
    simp only
    cases hs : shouldProcessLog lsn.db env.wasAlreadyConsumedErr lb with
    | false => simp
    | true =>
      simp only [Bool.not_true, Bool.false_eq_true, if_false, mapGet_mapSet, Bool.and_true,
        beq_iff_eq]
      by_cases hx : X = v.RequestId
      · subst hx
        simp
      · have : ¬ v.RequestId = X := fun h => hx h.symm
        simp [hx, this]

/-- Over calls of the router alone the counter of request `X` is its first value plus
the number of logs counted for `X`, while that sum is below `2^64`. -/
theorem handleLogs_mapGet (cfg : Config) (X : Nat) :
    ∀ (calls : List (HandleEnv × Broadcast × Nat)) (lsn : listenerV3),
      mapGet lsn.respCount X + observed X lsn calls < u64 →
        mapGet (schedRun cfg lsn (handleLogs calls)).respCount X
          = mapGet lsn.respCount X + observed X lsn calls := by
  intro calls
  induction calls with
  | nil => intro lsn _; simp [schedRun, handleLogs, observed]
  | cons c calls ih =>
    intro lsn h
    obtain ⟨env, lb, minConfs⟩ := c
    simp only [observed] at h ⊢
    have hstep := handleLog_mapGet lsn env lb minConfs X
    have hrun : schedRun cfg lsn (handleLogs ((env, lb, minConfs) :: calls))
        = schedRun cfg (handleLog lsn env lb minConfs) (handleLogs calls) := by
      simp [schedRun, handleLogs, schedStep]
    rw [hrun]
    by_cases hc : countsFor X lsn env lb = true
    · rw [if_pos hc] at hstep h ⊢
      have hadd : add64 (mapGet lsn.respCount X) 1 = mapGet lsn.respCount X + 1 := by
        unfold add64
        exact Nat.mod_eq_of_lt (by omega)
      rw [hadd] at hstep
      rw [ih (handleLog lsn env lb minConfs) (by rw [hstep]; omega), hstep]
      omega
    · rw [if_neg hc] at hstep h ⊢
      rw [ih (handleLog lsn env lb minConfs) (by rw [hstep]; omega), hstep]
      omega

/-! ## C28: Tracker consistency -/

/-- C28. Tracker consistency.  In every state reached from an empty tracker by fewer
than `2^64` calls of `handleLog`, `pruneConfirmedRequestCounts` and
`processPendingVRFRequests`, every key of `respCount` is the request ID of a marker in
the heap, and every stored count is at least 1 and at most the number of markers the
heap holds for its key. -/
theorem tracker_consistency (cfg : Config) (lsn0 : listenerV3) (ops : List SchedOp)
    (h1 : lsn0.respCount = []) (h2 : lsn0.blockNumberToReqID = [])
    (hlen : ops.length < u64) :
    (∀ k ∈ mapKeys (schedRun cfg lsn0 ops).respCount,
        ∃ m ∈ (schedRun cfg lsn0 ops).blockNumberToReqID, m.reqID = k) ∧
      (∀ p ∈ (schedRun cfg lsn0 ops).respCount, 1 ≤ p.2) ∧
      Tracked (schedRun cfg lsn0 ops).respCount (schedRun cfg lsn0 ops).blockNumberToReqID := by
  have h0 : Tracked lsn0.respCount lsn0.blockNumberToReqID := by
    rw [h1]
    intro p hp
    simp at hp
  have hl : lsn0.blockNumberToReqID.length ≤ 0 := by simp [h2]
  obtain ⟨ht, _⟩ := schedRun_tracked cfg ops lsn0 0 h0 hl (by omega)
  refine ⟨?_, fun p hp => (ht p hp).1, ht⟩
  intro k hk
  simp only [mapKeys, List.mem_map] at hk
  obtain ⟨p, hp, rfl⟩ := hk
  obtain ⟨a, b⟩ := ht p hp
  have hpos : 0 < (schedRun cfg lsn0 ops).blockNumberToReqID.countP
      (fun m => m.reqID == p.1) := by omega
  obtain ⟨m, hm, hmk⟩ := List.countP_pos_iff.mp hpos
  exact ⟨m, hm, by simpa using hmk⟩

/-- C28, at an instance: after the fulfillment log for request 7, the request log and a
tick at tip 10100, which prunes up to block 100, request 7 is a key of `respCount` and
the heap holds a marker for it. -/
theorem tracker_consistency_witness :
    ∃ m ∈ (schedRun exCfg (exLsn exDb [])
        (handleLogs exCalls ++
          [SchedOp.processPendingVRFRequests (exTick 10100)])).blockNumberToReqID,
      m.reqID = 7 :=
  (tracker_consistency exCfg (exLsn exDb [])
    (handleLogs exCalls ++ [SchedOp.processPendingVRFRequests (exTick 10100)])
    rfl rfl (by decide)).1 7 (by decide)

/-! ## C29: The tick and the pruning -/

/-- C29 as stated, refuted.  At tip 20000 the tracker `exTracker` has a marker to prune,
the one of block 5000.  With no pending request the tick returns at the guard on an
empty partition and leaves the tracker as it is; with a pending request and a failed
subscription read it returns from inside the loop, again without pruning. -/
theorem tick_returns_without_pruning :
    processPendingVRFRequests exCfg (exTick 20000) exTracker
        = { lsn := exTracker, events := [], pruned := false } ∧
      pruneConfirmedRequestCounts (exTick 20000).pruneHeads exTracker ≠ exTracker ∧
      processPendingVRFRequests exCfg (exTickNoSub 20000)
          { exTracker with reqs := [exPending 1 1 11] }
        = { lsn := { exTracker with reqs := [exPending 1 1 11] }, events := [],
            pruned := false } := by
  decide

/-- C29, amended.  A tick that reads the tip `tip` prunes exactly when the partition of
the confirmed requests is not empty and no subscription read fails: it then ends with
`pruneConfirmedRequestCounts` on the counters and the heap it started with, whatever the
reads of the sending keys give.  With an empty partition it returns the listener as it
is, and with a failed subscription read it returns without pruning, counters and heap as
before; so does a tick that cannot read the tip. -/
theorem tick_prunes (cfg : Config) (env : TickEnv) (lsn : listenerV3) :
    (env.header = none →
        processPendingVRFRequests cfg env lsn = { lsn := lsn, events := [], pruned := false }) ∧
      (∀ tip, env.header = some tip → getConfirmedLogsBySub lsn.reqs tip = [] →
        processPendingVRFRequests cfg env lsn = { lsn := lsn, events := [], pruned := false }) ∧
      (∀ tip, env.header = some tip → getConfirmedLogsBySub lsn.reqs tip ≠ [] →
        (∀ j, j < (env.order (getConfirmedLogsBySub lsn.reqs tip)).length →
          (env.sub j).getSubscription ≠ none) →
        (processPendingVRFRequests cfg env lsn).pruned = true ∧
          ∃ s : listenerV3, s.respCount = lsn.respCount ∧
            s.blockNumberToReqID = lsn.blockNumberToReqID ∧
            (processPendingVRFRequests cfg env lsn).lsn
              = pruneConfirmedRequestCounts env.pruneHeads s) ∧
      (∀ tip j, env.header = some tip → getConfirmedLogsBySub lsn.reqs tip ≠ [] →
        j < (env.order (getConfirmedLogsBySub lsn.reqs tip)).length →
        (env.sub j).getSubscription = none →
        (processPendingVRFRequests cfg env lsn).pruned = false ∧
          (processPendingVRFRequests cfg env lsn).lsn.respCount = lsn.respCount ∧
          (processPendingVRFRequests cfg env lsn).lsn.blockNumberToReqID
            = lsn.blockNumberToReqID) := by
  refine ⟨?_, ?_, ?_, ?_⟩
  · intro hh
    simp [processPendingVRFRequests, hh]
  · intro tip hh hc
    simp [processPendingVRFRequests, hh, hc]
  · intro tip hh hc hsub
    have hlen : ¬ (getConfirmedLogsBySub lsn.reqs tip).length = 0 := by
      intro h
      exact hc (List.length_eq_zero.mp h)
    have hf := subLoop_completes cfg env (env.order (getConfirmedLogsBySub lsn.reqs tip)) 0
      (lsn, []) (by intro j hj; rw [Nat.zero_add]; exact hsub j hj)
    have ht := subLoop_tracker cfg env (env.order (getConfirmedLogsBySub lsn.reqs tip)) 0
      (lsn, [])
    simp only [processPendingVRFRequests, hh, hlen, if_false]
    generalize subLoop cfg env 0 (env.order (getConfirmedLogsBySub lsn.reqs tip)) (lsn, [])
      = res at hf ht
    obtain ⟨s, flag⟩ := res
    simp only at hf
    subst hf
    exact ⟨rfl, s.1, ht.1, ht.2, rfl⟩
  · intro tip j hh hc hj hnone
    have hlen : ¬ (getConfirmedLogsBySub lsn.reqs tip).length = 0 := by
      intro h
      exact hc (List.length_eq_zero.mp h)
    have hf := subLoop_returns cfg env (env.order (getConfirmedLogsBySub lsn.reqs tip)) 0
      (lsn, []) j hj (by rw [Nat.zero_add]; exact hnone)
    have ht := subLoop_tracker cfg env (env.order (getConfirmedLogsBySub lsn.reqs tip)) 0
      (lsn, [])
    simp only [processPendingVRFRequests, hh, hlen, if_false]
    generalize subLoop cfg env 0 (env.order (getConfirmedLogsBySub lsn.reqs tip)) (lsn, [])
      = res at hf ht
    obtain ⟨s, flag⟩ := res
    simp only at hf
    subst hf
    exact ⟨rfl, ht.1, ht.2⟩

/-- C29 amended, at an instance: with a confirmed pending request and every read a
success the tick at tip 20000 prunes. -/
theorem tick_prunes_witness :
    (processPendingVRFRequests exCfg (exTick 20000)
      { exTracker with reqs := [exPending 1 1 11] }).pruned = true :=
  ((tick_prunes exCfg (exTick 20000) { exTracker with reqs := [exPending 1 1 11] }).2.2.1
    20000 rfl (by decide) (by intro j _ h; simp [exTick] at h)).1

/-! ## C30: The reorg counter -/

/-- C30 as stated, refuted.  The router counts one fulfillment log for request 7 and
appends one request; the counter of request 7 is 1.  The tick at tip 20000 then prunes
the marker of the fulfillment log, which is more than 10000 blocks old, and deletes the
counter: its value goes from 1 to 0, while one log has been observed. -/
theorem respCount_deleted_by_pruning :
    mapGet (schedRun exCfg (exLsn exDb []) (handleLogs exCalls)).respCount 7 = 1 ∧
      mapGet (schedRun exCfg (exLsn exDb [])
        (handleLogs exCalls ++ [SchedOp.processPendingVRFRequests (exTick 20000)])).respCount 7
          = 0 ∧
      observed 7 (exLsn exDb []) exCalls = 1 := by
  decide

/-- C30, amended.  A call of `handleLog` adds 1 (on `uint64`) to the counter of request
`X` exactly when the log is a fulfillment log for `X` whose consumed check succeeds and
finds it not consumed, and leaves it as it is otherwise, so below `2^64 - 1` the counter
does not decrease in the router.  A call of `pruneConfirmedRequestCounts` or of
`processPendingVRFRequests` leaves the counter as it is or deletes it, which reads as 0.
Over calls of the router alone the counter is its first value plus the number of logs
counted for `X`, while that sum is below `2^64`. -/
theorem reorg_counter (cfg : Config) (X : Nat) (lsn : listenerV3) :
    (∀ env lb minConfs,
        mapGet (handleLog lsn env lb minConfs).respCount X =
          if countsFor X lsn env lb then add64 (mapGet lsn.respCount X) 1
          else mapGet lsn.respCount X) ∧
      (∀ env lb minConfs, mapGet lsn.respCount X + 1 < u64 →
        mapGet lsn.respCount X ≤ mapGet (handleLog lsn env lb minConfs).respCount X) ∧
      (∀ heads,
        mapGet (pruneConfirmedRequestCounts heads lsn).respCount X = mapGet lsn.respCount X ∨
          mapGet (pruneConfirmedRequestCounts heads lsn).respCount X = 0) ∧
      (∀ env,
        mapGet (processPendingVRFRequests cfg env lsn).lsn.respCount X
            = mapGet lsn.respCount X ∨
          mapGet (processPendingVRFRequests cfg env lsn).lsn.respCount X = 0) ∧
      (∀ calls, mapGet lsn.respCount X + observed X lsn calls < u64 →
        mapGet (schedRun cfg lsn (handleLogs calls)).respCount X
          = mapGet lsn.respCount X + observed X lsn calls) := by
  refine ⟨?_, ?_, ?_, ?_, ?_⟩
  · intro env lb minConfs
    exact handleLog_mapGet lsn env lb minConfs X
  · intro env lb minConfs hlt
    rw [handleLog_mapGet]
    split
    · unfold add64
      rw [Nat.mod_eq_of_lt hlt]
      exact Nat.le_succ _
    · exact le_refl _
  · intro heads
    exact pruneLoop_mapGet heads X lsn.blockNumberToReqID.length 0 lsn
  · intro env
    rcases processPendingVRFRequests_tracker cfg env lsn with ⟨h1, _⟩ | ⟨s, h1, _, h3⟩
    · left
      rw [h1]
    · rw [h3]
      rcases pruneLoop_mapGet env.pruneHeads X s.blockNumberToReqID.length 0 s with h | h
      · left
        rw [← h1]
        exact h
      · right
        exact h
  · intro calls h
    exact handleLogs_mapGet cfg X calls lsn h

/-- C30 amended, at an instance: after the calls of `exCalls` the counter of request 7
is the one log counted for it. -/
theorem reorg_counter_witness :
    mapGet (schedRun exCfg (exLsn exDb []) (handleLogs exCalls)).respCount 7
      = mapGet (exLsn exDb []).respCount 7 + observed 7 (exLsn exDb []) exCalls :=
  (reorg_counter exCfg 7 (exLsn exDb [])).2.2.2.2 exCalls (by decide)

end VRF
